import Mathlib

/-!
# degache-go: validators and formatters

A shallow embedding of the validation core of the degache library
(`validators/*.go`, `constants/constants.go`, `types/types.go`), of its phone
formatters (`formatters/phone.go`), of the currency formatter and the 12-hour clock
(`formatters/currency.go`, `formatters/date.go`) and of the aggregate validator of
`degache.go`.

Modelling conventions.

* A Go `string` is modelled by a Lean `String`, that is by the sequence of
  Unicode code points that Go's `regexp` and `strings` packages see when they
  decode well-formed UTF-8 text.  Byte offsets and code point offsets coincide
  on the ASCII strings that the library indexes and slices.
* A compiled `regexp.Regexp` is modelled by a syntax tree (`Regex`) and matched
  with Brzozowski derivatives.  Every pattern of the library that is used with
  `MatchString` is written `^ ... $`, so `MatchString` is whole-string
  matching of the part between the anchors.
* A variadic `options ...T` parameter is a `List T`; the code reads
  `options[0]` when the list is non-empty and the zero value otherwise.
* A Go `map` is an association list; where the code ranges over a map, the order
  of the visit is a parameter of the model.
* The arithmetic of `float64` is not modelled: the currency formatter is written
  over a structure of uninterpreted operations (`Float64Ops`).
* `strconv.ParseInt` and `strconv.Atoi` return `none` for a non-nil error; the size of
  the type `int`, which Go leaves to the platform, is a parameter of the functions
  that convert to it.
-/

set_option maxRecDepth 100000
set_option maxHeartbeats 1000000

namespace Degache

/-! ## Regular expressions -/

/-- Syntax of the regular expressions used by the library. -/
inductive Regex where
  | fail : Regex
  | eps : Regex
  | cls (p : Char → Bool) : Regex
  | seq (a b : Regex) : Regex
  | alt (a b : Regex) : Regex
  | star (a : Regex) : Regex

namespace Regex

/-- Does the expression accept the empty string? -/
def nullable : Regex → Bool
  | fail => false
  | eps => true
  | cls _ => false
  | seq a b => a.nullable && b.nullable
  | alt a b => a.nullable || b.nullable
  | star _ => true

/-- Brzozowski derivative with respect to one code point. -/
def deriv (c : Char) : Regex → Regex
  | fail => fail
  | eps => fail
  | cls p => if p c then eps else fail
  | seq a b =>
    if a.nullable then alt (seq (deriv c a) b) (deriv c b) else seq (deriv c a) b
  | alt a b => alt (deriv c a) (deriv c b)
  | star a => seq (deriv c a) (star a)

/-- Whole-input match of a list of code points. -/
def matchList (r : Regex) : List Char → Bool
  | [] => r.nullable
  | c :: s => matchList (r.deriv c) s

/-- Counterpart of `(*Regexp).MatchString` for a pattern anchored by `^` and `$`. -/
def MatchString (r : Regex) (s : String) : Bool :=
  r.matchList s.data

/-- A literal code point. -/
def lit (c : Char) : Regex := cls (fun x => x == c)

/-- A literal string. -/
def str : List Char → Regex
  | [] => eps
  | c :: cs => seq (lit c) (str cs)

/-- Bounded repetition `r{n}`. -/
def rep : Nat → Regex → Regex
  | 0, _ => eps
  | n + 1, r => seq r (rep n r)

/-- Optional group `(?:r)?`. -/
def opt (r : Regex) : Regex := alt r eps

/-- Concatenation of a list of expressions. -/
def cat : List Regex → Regex
  | [] => eps
  | r :: rs => seq r (cat rs)

end Regex

/-- Perl class `\d` of Go's RE2 syntax: the ASCII digits. -/
def isDigit (c : Char) : Bool := decide (48 ≤ c.toNat) && decide (c.toNat ≤ 57)

/-- Perl class `\D`: every code point that is not an ASCII digit. -/
def isNonDigit (c : Char) : Bool := !isDigit c

/-- Perl class `\s` of Go's RE2 syntax: `[\t\n\f\r ]`. -/
def isReSpace (c : Char) : Bool :=
  c.toNat == 9 || c.toNat == 10 || c.toNat == 12 || c.toNat == 13 || c.toNat == 32

/-- Class `[A-Z]`. -/
def isUpper (c : Char) : Bool := decide (65 ≤ c.toNat) && decide (c.toNat ≤ 90)

/-- Class `[01]`. -/
def isZeroOne (c : Char) : Bool := c == '0' || c == '1'

/-- Class `[2-9]`. -/
def isTwoNine (c : Char) : Bool := decide (50 ≤ c.toNat) && decide (c.toNat ≤ 57)

/-- Regexp `\d`. -/
def reDigit : Regex := Regex.cls isDigit

/-- Regexp `\s*`. -/
def reSpaces : Regex := Regex.star (Regex.cls isReSpace)

/-! ## Go string primitives -/

/-- Counterpart of `strings.TrimPrefix`. -/
def TrimPrefix (s pre : String) : String :=
  if pre.data.isPrefixOf s.data then String.mk (s.data.drop pre.data.length) else s

/-- Counterpart of `regexp.MustCompile(C).ReplaceAllString(s, repl)` for a pattern `C`
that is a single character class: every code point of the class is one match. -/
def ReplaceAllClass (p : Char → Bool) (s repl : String) : String :=
  String.mk (s.data.flatMap (fun c => if p c then repl.data else [c]))

/-- Scan of `ReplaceAllString` for a pattern `C+`: `inRun` tells that the code point
before the current one belongs to the match being consumed. -/
def replaceRuns (p : Char → Bool) (repl : List Char) : Bool → List Char → List Char
  | _, [] => []
  | inRun, c :: s =>
    if p c then
      if inRun then replaceRuns p repl true s
      else repl ++ replaceRuns p repl true s
    else c :: replaceRuns p repl false s

/-- Counterpart of `regexp.MustCompile(C+).ReplaceAllString(s, repl)` for a character
class `C`: the matches are the maximal runs of code points of the class. -/
def ReplaceAllRuns (p : Char → Bool) (s repl : String) : String :=
  String.mk (replaceRuns p repl.data false s.data)

/-- Counterpart of `unicode.IsSpace`: the code points with the White_Space property. -/
def isUnicodeSpace (c : Char) : Bool :=
  let n := c.toNat
  (decide (9 ≤ n) && decide (n ≤ 13)) || n == 32 || n == 0x85 || n == 0xA0 ||
  n == 0x1680 || (decide (0x2000 ≤ n) && decide (n ≤ 0x200A)) ||
  n == 0x2028 || n == 0x2029 || n == 0x202F || n == 0x205F || n == 0x3000

/-- Counterpart of `strings.TrimSpace`. -/
def TrimSpace (s : String) : String :=
  String.mk ((s.data.dropWhile isUnicodeSpace).rdropWhile isUnicodeSpace)

/-- First byte of the UTF-8 encoding of a code point. -/
def utf8LeadByte (c : Char) : Nat :=
  let n := c.toNat
  if n < 0x80 then n
  else if n < 0x800 then 0xC0 + n / 0x40
  else if n < 0x10000 then 0xE0 + n / 0x1000
  else 0xF0 + n / 0x40000

/-- Counterpart of the Go expression `string(s[0])`: the byte at index 0 converted to a
one-rune string.  `none` stands for the index being out of range. -/
def byteString0 (s : String) : Option String :=
  match s.data with
  | [] => none
  | c :: _ => some (String.singleton (Char.ofNat (utf8LeadByte c)))

/-- Counterpart of the Go slice `s[:n]`.  The library slices only strings that a
pattern has already shown to be ASCII, where bytes and code points coincide. -/
def sliceTo (s : String) (n : Nat) : String :=
  String.mk (s.data.take n)

/-- Counterpart of the Go slice `s[i:j]` (same remark as for `sliceTo`). -/
def slice (s : String) (i j : Nat) : String :=
  String.mk ((s.data.drop i).take (j - i))

/-- Counterpart of the Go slice `s[i:]` (same remark as for `sliceTo`). -/
def sliceFrom (s : String) (i : Nat) : String :=
  String.mk (s.data.drop i)

/-- Number of bytes of the UTF-8 encoding of a code point. -/
def utf8Len (c : Char) : Nat :=
  let n := c.toNat
  if n < 0x80 then 1
  else if n < 0x800 then 2
  else if n < 0x10000 then 3
  else 4

/-- Counterpart of the Go builtin `len` on a string: its number of bytes. -/
def len (s : String) : Nat :=
  (s.data.map utf8Len).sum

/-- Does the list `sub` occur in the list as a block of consecutive elements? -/
def containsList (sub : List Char) : List Char → Bool
  | [] => sub.isPrefixOf []
  | c :: t => sub.isPrefixOf (c :: t) || containsList sub t

/-- Counterpart of `strings.Contains`. -/
def Contains (s substr : String) : Bool :=
  containsList substr.data s.data

/-- Counterpart of `strings.HasPrefix`. -/
def HasPrefix (s pre : String) : Bool :=
  pre.data.isPrefixOf s.data

/-- Scan of `strings.Fields`: `cur` holds, in reverse, the code points of the field
being read. -/
def fieldsScan : List Char → List Char → List String
  | cur, [] => if cur.isEmpty then [] else [String.mk cur.reverse]
  | cur, c :: s =>
    if isUnicodeSpace c then
      if cur.isEmpty then fieldsScan [] s
      else String.mk cur.reverse :: fieldsScan [] s
    else fieldsScan (c :: cur) s

/-- Counterpart of `strings.Fields`: the maximal blocks without white space. -/
def Fields (s : String) : List String :=
  fieldsScan [] s.data

/-- The bytes of the UTF-8 encoding of a code point. -/
def utf8Bytes (c : Char) : List Nat :=
  let n := c.toNat
  if n < 0x80 then [n]
  else if n < 0x800 then [0xC0 + n / 0x40, 0x80 + n % 0x40]
  else if n < 0x10000 then [0xE0 + n / 0x1000, 0x80 + n / 0x40 % 0x40, 0x80 + n % 0x40]
  else [0xF0 + n / 0x40000, 0x80 + n / 0x1000 % 0x40, 0x80 + n / 0x40 % 0x40,
    0x80 + n % 0x40]

/-- Counterpart of the Go expression `string(s[i])`: the byte at index `i` converted to
a one-rune string.  `none` stands for the index being out of range. -/
def byteStringAt (s : String) (i : Nat) : Option String :=
  ((s.data.flatMap utf8Bytes)[i]?).map (fun b => String.singleton (Char.ofNat b))

/-- Counterpart of the assignment `m[key] = value` on a `map[string]string`, the map
being a list of key/value pairs without repeated keys.  The empty list also stands for
the `nil` map. -/
def setComponent (m : List (String × String)) (key value : String) :
    List (String × String) :=
  (key, value) :: m.filter (fun e => e.1 != key)

/-- The loop of `strconv.ParseUint` in base 10 over a string of digits: the value
read so far is multiplied by 10 and the next digit is added. -/
def parseDigits (l : List Char) : Nat :=
  l.foldl (fun n c => n * 10 + (c.toNat - 48)) 0

/-- Counterpart of `strconv.ParseInt(s, 10, bitSize)` for `1 <= bitSize <= 64`, the
result `none` standing for a non-nil error: the empty string, a sign without digits
and a code point that is not an ASCII digit are syntax errors, a value outside the
range of the signed integers of `bitSize` bits is a range error. -/
def ParseInt (s : String) (bitSize : Nat) : Option Int :=
  match s.data with
  | [] => none
  | c :: rest =>
    let neg := c == '-'
    let digits := if c == '+' || c == '-' then rest else c :: rest
    if digits.isEmpty || !digits.all isDigit then none
    else
      let un := parseDigits digits
      let cutoff := 2 ^ (bitSize - 1)
      if !neg && decide (un ≥ cutoff) then none
      else if neg && decide (un > cutoff) then none
      else some (if neg then -(un : Int) else (un : Int))

/-- Counterpart of `strconv.Atoi(s)`, which is `ParseInt(s, 10, 0)` converted to
`int`; `intSize` is the size of the type `int` in bits, 32 or 64 according to the
platform. -/
def Atoi (intSize : Nat) (s : String) : Option Int :=
  ParseInt s intSize

/-- Counterpart of the conversion `int(x)` of an `int64` to the type `int` of
`intSize` bits: the value is reduced modulo `2 ^ intSize` into the signed range. -/
def toInt (intSize : Nat) (x : Int) : Int :=
  (x + 2 ^ (intSize - 1)) % 2 ^ intSize - 2 ^ (intSize - 1)

/-! ## types/types.go -/

/-- PhoneNumberValidationOptions contains options for phone number validation. -/
structure PhoneNumberValidationOptions where
  Strict : Bool
  deriving DecidableEq, Repr

/-- CarPlateValidationOptions contains options for car plate validation.  The field
`Typ` is the field `Type` of the source. -/
structure CarPlateValidationOptions where
  Typ : String
  Strict : Bool
  deriving DecidableEq, Repr

/-- Zero value of `PhoneNumberValidationOptions`. -/
def PhoneNumberValidationOptions.zero : PhoneNumberValidationOptions := ⟨false⟩

/-- Zero value of `CarPlateValidationOptions`. -/
def CarPlateValidationOptions.zero : CarPlateValidationOptions := ⟨"", false⟩

/-- CarPlateComponents contains the components of a car plate. -/
structure CarPlateComponents where
  Prefix : String
  Region : String
  Suffix : String
  deriving DecidableEq, Repr

/-- CarPlateInfo contains information about a car plate.  The field `Typ` is the field
`Type` of the source. -/
structure CarPlateInfo where
  Typ : String
  Components : CarPlateComponents
  deriving DecidableEq, Repr

/-- CurrencyFormatOptions contains options for currency formatting. -/
structure CurrencyFormatOptions where
  Symbol : Bool
  Code : Bool
  deriving DecidableEq, Repr

/-- Zero value of `CurrencyFormatOptions`. -/
def CurrencyFormatOptions.zero : CurrencyFormatOptions := ⟨false, false⟩

/-! ## constants/constants.go -/

/-- Bank represents a Tunisian bank. -/
structure Bank where
  Name : String
  Code : String
  deriving DecidableEq, Repr

/-- Governorate represents a Tunisian governorate. -/
structure Governorate where
  Name : String
  PostalCode : String
  Region : String
  deriving DecidableEq, Repr

/-- ValidPrefixes contains all valid mobile prefixes. -/
def ValidPrefixes : List String := ["2", "4", "5", "9"]

/-- Banks contains major Tunisian banks (a Go map, as a list of key/value pairs). -/
def Banks : List (String × Bank) :=
  [("01", ⟨"Banque Centrale de Tunisie", "01"⟩),
   ("02", ⟨"Banque de Tunisie", "02"⟩),
   ("03", ⟨"Banque Internationale Arabe de Tunisie", "03"⟩),
   ("04", ⟨"Banque de l\x27Habitat", "04"⟩),
   ("05", ⟨"Banque Nationale Agricole", "05"⟩),
   ("07", ⟨"Société Tunisienne de Banque", "07"⟩),
   ("08", ⟨"Union Bancaire pour le Commerce et l\x27Industrie", "08"⟩),
   ("10", ⟨"Stusid Bank", "10"⟩),
   ("11", ⟨"Banque Zitouna", "11"⟩),
   ("12", ⟨"Banque de Financement des Petites et Moyennes Entreprises", "12"⟩),
   ("14", ⟨"Citibank", "14"⟩),
   ("16", ⟨"Arab Tunisian Bank", "16"⟩),
   ("17", ⟨"Banque Attijari de Tunisie", "17"⟩),
   ("20", ⟨"Amen Bank", "20"⟩),
   ("21", ⟨"Banque Franco-Tunisienne", "21"⟩),
   ("23", ⟨"Banque Tuniso-Libyenne", "23"⟩),
   ("24", ⟨"Union Internationale de Banques", "24"⟩),
   ("25", ⟨"Banque Tuniso-Koweïtienne", "25"⟩),
   ("26", ⟨"Banque Arabe Tuniso-Saoudienne", "26"⟩),
   ("28", ⟨"Banque Tunisienne de Solidarité", "28"⟩),
   ("29", ⟨"Banque Tuniso-Qatarie d\x27Investissement", "29"⟩),
   ("32", ⟨"Banque Internationale de Commerce et d\x27Industrie de Tunisie", "32"⟩),
   ("34", ⟨"Banque Européenne pour la Tunisie", "34"⟩),
   ("35", ⟨"Banque de Coopération du Maghreb Arabe", "35"⟩),
   ("38", ⟨"Banque Tunisienne des Participations", "38"⟩),
   ("39", ⟨"Banque Al Baraka d\x27Investissement", "39"⟩),
   ("47", ⟨"Banque Tuniso-Emiratie d\x27Investissement", "47"⟩),
   ("81", ⟨"Poste Tunisienne", "81"⟩)]

/-- Counterpart of the Go map index `Banks[code]` with its `exists` flag. -/
def BanksLookup (code : String) : Option Bank :=
  Banks.lookup code

/-- Governorates contains all Tunisian governorates (a Go map, as a list of key/value
pairs). -/
def Governorates : List (String × Governorate) :=
  [("TUNIS", ⟨"Tunis", "1000", "North"⟩),
   ("ARIANA", ⟨"Ariana", "2000", "North"⟩),
   ("BEN_AROUS", ⟨"Ben Arous", "2013", "North"⟩),
   ("MANOUBA", ⟨"Manouba", "2010", "North"⟩),
   ("NABEUL", ⟨"Nabeul", "8000", "North"⟩),
   ("ZAGHOUAN", ⟨"Zaghouan", "1100", "North"⟩),
   ("BIZERTE", ⟨"Bizerte", "7000", "North"⟩),
   ("BEJA", ⟨"Béja", "9000", "North"⟩),
   ("JENDOUBA", ⟨"Jendouba", "8100", "North"⟩),
   ("KEF", ⟨"Le Kef", "7100", "North"⟩),
   ("SILIANA", ⟨"Siliana", "6100", "North"⟩),
   ("SOUSSE", ⟨"Sousse", "4000", "Center"⟩),
   ("MONASTIR", ⟨"Monastir", "5000", "Center"⟩),
   ("MAHDIA", ⟨"Mahdia", "5100", "Center"⟩),
   ("SFAX", ⟨"Sfax", "3000", "Center"⟩),
   ("KAIROUAN", ⟨"Kairouan", "3100", "Center"⟩),
   ("KASSERINE", ⟨"Kasserine", "1200", "Center"⟩),
   ("SIDI_BOUZID", ⟨"Sidi Bouzid", "9100", "Center"⟩),
   ("GABES", ⟨"Gabès", "6000", "South"⟩),
   ("MEDENINE", ⟨"Médenine", "4100", "South"⟩),
   ("TATAOUINE", ⟨"Tataouine", "3200", "South"⟩),
   ("GAFSA", ⟨"Gafsa", "2100", "South"⟩),
   ("TOZEUR", ⟨"Tozeur", "2200", "South"⟩),
   ("KEBILI", ⟨"Kébili", "4200", "South"⟩)]

/-- CountryCode represents the international calling code of Tunisia. -/
def CountryCode : String := "+216"

/-- Carrier represents a mobile carrier in Tunisia. -/
structure Carrier where
  Name : String
  Prefixes : List String
  deriving DecidableEq, Repr

/-- Carriers contains all Tunisian mobile carriers and their prefixes (a Go map, as a
list of key/value pairs). -/
def Carriers : List (String × Carrier) :=
  [("OOREDOO", ⟨"Ooredoo Tunisia", ["2", "5"]⟩),
   ("ORANGE", ⟨"Orange Tunisia", ["4"]⟩),
   ("TELECOM", ⟨"Tunisie Telecom", ["9"]⟩)]

/-- CarrierInfo contains information about a mobile carrier (declared in
`types/types.go`, after the constants it refers to). -/
structure CarrierInfo where
  Carrier : Carrier
  Prefix : String
  deriving DecidableEq, Repr

/-- BankInfo contains information about a bank (declared in `types/types.go`). -/
structure BankInfo where
  Bank : Bank
  Code : String
  deriving DecidableEq, Repr

/-! ## validators/cin.go -/

/-- Pattern `^[01]\d{7}$`. -/
def cinRegex : Regex := Regex.cat [Regex.cls isZeroOne, Regex.rep 7 reDigit]

/-- ValidateCIN validates a Tunisian CIN. -/
def ValidateCIN (cin : String) : Bool :=
  if cin = "" then false
  else cinRegex.MatchString cin

/-- ValidateCINWithDetails validates a CIN and returns detailed information. -/
def ValidateCINWithDetails (cin : String) : Bool × String :=
  if cin = "" then (false, "CIN cannot be empty")
  else if len cin ≠ 8 then (false, "CIN must be exactly 8 digits")
  else if !cinRegex.MatchString cin then
    (false, "CIN must start with 0 or 1 and contain only digits")
  else (true, "")

/-! ## validators/phone.go -/

/-- Pattern `^[2-9]\d{7}$`. -/
def phoneRegex : Regex := Regex.cat [Regex.cls isTwoNine, Regex.rep 7 reDigit]

/-- Pattern `^(?:\+216)?[2-9]\d{7}$`. -/
def strictPhoneRegex : Regex :=
  Regex.cat [Regex.opt (Regex.str "+216".data), Regex.cls isTwoNine, Regex.rep 7 reDigit]

/-- ValidatePhoneNumber validates a Tunisian phone number. -/
def ValidatePhoneNumber (phoneNumber : String)
    (options : List PhoneNumberValidationOptions) : Bool :=
  if phoneNumber = "" then false
  else
    let opts := options.headD PhoneNumberValidationOptions.zero
    if opts.Strict && !strictPhoneRegex.MatchString phoneNumber then false
    else
      let trimmed := TrimPrefix phoneNumber "+216"
      let normalizedNumber :=
        if !opts.Strict then ReplaceAllClass isNonDigit trimmed "" else trimmed
      if !phoneRegex.MatchString normalizedNumber then false
      else
        match byteString0 normalizedNumber with
        | none => false
        | some pfx => ValidPrefixes.any (fun validPrefix => pfx == validPrefix)

/-- The loop of `GetCarrierInfo` over the carriers, in the order `visited`, and over
the prefixes of each. -/
def scanCarriers (pfx : String) : List Carrier → Option CarrierInfo
  | [] => none
  | carrier :: rest =>
    if carrier.Prefixes.any (fun carrierPrefix => pfx == carrierPrefix) then
      some ⟨carrier, pfx⟩
    else scanCarriers pfx rest

/-- Body of `GetCarrierInfo`, with the sequence of values that the `range` loop over
the `Carriers` map visits as a parameter (Go leaves that order open).  The result
`none` is the `nil` pointer. -/
def GetCarrierInfoOver (visited : List Carrier) (phoneNumber : String)
    (options : List PhoneNumberValidationOptions) : Option CarrierInfo :=
  let opts := options.headD PhoneNumberValidationOptions.zero
  if !ValidatePhoneNumber phoneNumber [opts] then none
  else
    let trimmed := TrimPrefix phoneNumber "+216"
    let normalizedNumber :=
      if !opts.Strict then ReplaceAllClass isNonDigit trimmed "" else trimmed
    match byteString0 normalizedNumber with
    | none => none
    | some pfx => scanCarriers pfx visited

/-- GetCarrierInfo gets carrier information from a phone number. -/
def GetCarrierInfo (phoneNumber : String)
    (options : List PhoneNumberValidationOptions) : Option CarrierInfo :=
  GetCarrierInfoOver (Carriers.map Prod.snd) phoneNumber options

/-- ValidatePhoneNumberWithDetails validates a phone number and returns detailed
information. -/
def ValidatePhoneNumberWithDetails (phoneNumber : String)
    (options : List PhoneNumberValidationOptions) : Bool × String :=
  if phoneNumber = "" then (false, "Phone number cannot be empty")
  else
    let opts := options.headD PhoneNumberValidationOptions.zero
    if opts.Strict && !strictPhoneRegex.MatchString phoneNumber then
      (false, "Phone number format is invalid in strict mode")
    else
      let trimmed := TrimPrefix phoneNumber "+216"
      let normalizedNumber :=
        if !opts.Strict then ReplaceAllClass isNonDigit trimmed "" else trimmed
      if len normalizedNumber ≠ 8 then (false, "Phone number must be exactly 8 digits")
      else if !phoneRegex.MatchString normalizedNumber then
        (false, "Phone number must start with 2-9 and contain only digits")
      else
        match byteString0 normalizedNumber with
        | none => (false, "Phone number prefix is not valid for Tunisian carriers")
        | some pfx =>
          if ValidPrefixes.any (fun validPrefix => pfx == validPrefix) then (true, "")
          else (false, "Phone number prefix is not valid for Tunisian carriers")

/-! ## validators/bank.go -/

/-- Pattern `^\d{20}$`. -/
def ribRegex : Regex := Regex.rep 20 reDigit

/-- ValidateRIB validates a Tunisian RIB. -/
def ValidateRIB (rib : String) : Bool :=
  if rib = "" then false
  else if !ribRegex.MatchString rib then false
  else
    let bankCode := sliceTo rib 2
    (BanksLookup bankCode).isSome

/-- ValidateRIBWithDetails validates a RIB and returns detailed information. -/
def ValidateRIBWithDetails (rib : String) : Bool × String :=
  if rib = "" then (false, "RIB cannot be empty")
  else if len rib ≠ 20 then (false, "RIB must be exactly 20 digits")
  else if !ribRegex.MatchString rib then (false, "RIB must contain only digits")
  else
    let bankCode := sliceTo rib 2
    if (BanksLookup bankCode).isNone then (false, "Bank code not recognized")
    else (true, "")

/-- GetBankFromRIB extracts bank information from a RIB.  The result `none` is the
`nil` pointer. -/
def GetBankFromRIB (rib : String) : Option BankInfo :=
  if !ValidateRIB rib then none
  else
    let bankCode := sliceTo rib 2
    match BanksLookup bankCode with
    | none => none
    | some bank => some ⟨bank, bankCode⟩

/-- ExtractRIBComponents extracts components from a valid RIB.  The result is the pair
of the returned map and the returned error, `none` being the `nil` error. -/
def ExtractRIBComponents (rib : String) : List (String × String) × Option String :=
  let result := ValidateRIBWithDetails rib
  if !result.1 then ([], some ("invalid RIB: " ++ result.2))
  else
    let components : List (String × String) := []
    let components := setComponent components "bankCode" (sliceTo rib 2)
    let components := setComponent components "branchCode" (slice rib 2 5)
    let components := setComponent components "accountNumber" (slice rib 5 18)
    let components := setComponent components "key" (sliceFrom rib 18)
    (components, none)

/-- Body of `ValidateRIBChecksum`, with the size in bits of the type `int` as a
parameter (Go leaves it to the platform: 32 or 64).  The operator `%` of Go truncates
towards zero. -/
def ValidateRIBChecksumOn (intSize : Nat) (rib : String) : Bool :=
  if !ValidateRIB rib then false
  else
    match Atoi intSize (sliceFrom rib 18) with
    | none => false
    | some key =>
      let accountPart := sliceTo rib 18
      match ParseInt accountPart 64 with
      | none => false
      | some accountNum =>
        let calculatedKey := toInt intSize (accountNum.tmod 97)
        calculatedKey == key

/-- ValidateRIBChecksum validates the RIB checksum (simplified version), on a platform
whose `int` has 64 bits. -/
def ValidateRIBChecksum (rib : String) : Bool :=
  ValidateRIBChecksumOn 64 rib

/-! ## validators/tax.go -/

/-- Pattern `^\d{7}[A-Z]/[A-Z]/[A-Z]/\d{3}$`. -/
def taxIDRegex : Regex :=
  Regex.cat [Regex.rep 7 reDigit, Regex.cls isUpper, Regex.lit '/', Regex.cls isUpper,
    Regex.lit '/', Regex.cls isUpper, Regex.lit '/', Regex.rep 3 reDigit]

/-- ValidateTaxID validates a Tunisian Tax ID (Matricule Fiscal). -/
def ValidateTaxID (taxID : String) : Bool :=
  if taxID = "" then false
  else taxIDRegex.MatchString taxID

/-- ValidateTaxIDWithDetails validates a Tax ID and returns detailed information. -/
def ValidateTaxIDWithDetails (taxID : String) : Bool × String :=
  if taxID = "" then (false, "Tax ID cannot be empty")
  else if len taxID ≠ 15 then (false, "Tax ID must be exactly 15 characters long")
  else if !taxIDRegex.MatchString taxID then
    (false, "Tax ID must follow format: 7 digits + letter/letter/letter/3 digits " ++
      "(e.g., 1234567A/P/M/000)")
  else (true, "")

/-- ExtractTaxIDComponents extracts components from a valid Tax ID.  The result is the
pair of the returned map and the returned error, `none` being the `nil` error. -/
def ExtractTaxIDComponents (taxID : String) : List (String × String) × Option String :=
  if !ValidateTaxID taxID then ([], some "invalid Tax ID format")
  else
    let components : List (String × String) := []
    let components := setComponent components "number" (sliceTo taxID 7)
    let components := setComponent components "type1" ((byteStringAt taxID 7).getD "")
    let components := setComponent components "type2" ((byteStringAt taxID 9).getD "")
    let components := setComponent components "type3" ((byteStringAt taxID 11).getD "")
    let components := setComponent components "sequence" (sliceFrom taxID 13)
    (components, none)

/-! ## validators/postal.go -/

/-- Pattern `^\d{4}$`. -/
def postalCodeRegex : Regex := Regex.rep 4 reDigit

/-- Body of `ValidatePostalCode`, with the sequence of values that the `range` loop
over the `Governorates` map visits as a parameter (Go leaves that order open). -/
def ValidatePostalCodeOver (visited : List Governorate) (postalCode : String) : Bool :=
  if postalCode = "" then false
  else if !postalCodeRegex.MatchString postalCode then false
  else if visited.any (fun governorate => governorate.PostalCode == postalCode) then true
  else true

/-- ValidatePostalCode validates a Tunisian postal code. -/
def ValidatePostalCode (postalCode : String) : Bool :=
  ValidatePostalCodeOver (Governorates.map Prod.snd) postalCode

/-- ValidatePostalCodeWithDetails validates a postal code and returns detailed
information. -/
def ValidatePostalCodeWithDetails (postalCode : String) : Bool × String :=
  if postalCode = "" then (false, "Postal code cannot be empty")
  else if len postalCode ≠ 4 then (false, "Postal code must be exactly 4 digits")
  else if !postalCodeRegex.MatchString postalCode then
    (false, "Postal code must contain only digits")
  else (true, "")

/-- Body of `GetGovernorateFromPostalCode`, with the sequence of values that its
`range` loop over the `Governorates` map visits as a parameter (the loop inside
`ValidatePostalCode` has no effect on its result, whatever its order).  The result
`none` is the `nil` pointer. -/
def GetGovernorateFromPostalCodeOver (visited : List Governorate) (postalCode : String) :
    Option Governorate :=
  if !ValidatePostalCode postalCode then none
  else visited.find? (fun governorate => governorate.PostalCode == postalCode)

/-- GetGovernorateFromPostalCode gets governorate information from a postal code. -/
def GetGovernorateFromPostalCode (postalCode : String) : Option Governorate :=
  GetGovernorateFromPostalCodeOver (Governorates.map Prod.snd) postalCode

/-! ## validators/carplate.go -/

/-- The Arabic word that every plate carries: U+062A U+0648 U+0646 U+0633. -/
def tounes : String := "تونس"

/-- Pattern `^\d{3}\s*<tounes>\s*\d{4}$`. -/
def standardCarPlateRegex : Regex :=
  Regex.cat [Regex.rep 3 reDigit, reSpaces, Regex.str tounes.data, reSpaces,
    Regex.rep 4 reDigit]

/-- Pattern `^RS\s*\d{3}\s*<tounes>$`. -/
def specialCarPlateRegex : Regex :=
  Regex.cat [Regex.str "RS".data, reSpaces, Regex.rep 3 reDigit, reSpaces,
    Regex.str tounes.data]

/-- Pattern `^\d{3} <tounes> \d{4}$`. -/
def strictStandardCarPlateRegex : Regex :=
  Regex.cat [Regex.rep 3 reDigit, Regex.lit ' ', Regex.str tounes.data, Regex.lit ' ',
    Regex.rep 4 reDigit]

/-- Pattern `^RS \d{3} <tounes>$`. -/
def strictSpecialCarPlateRegex : Regex :=
  Regex.cat [Regex.str "RS ".data, Regex.rep 3 reDigit, Regex.lit ' ',
    Regex.str tounes.data]

/-- The normalisation step shared by the car plate functions: in non-strict mode
surrounding white space is trimmed and every match of `\s+` becomes one space. -/
def normalizePlate (carPlate : String) (opts : CarPlateValidationOptions) : String :=
  if !opts.Strict then ReplaceAllRuns isReSpace (TrimSpace carPlate) " " else carPlate

/-- ValidateCarPlate validates a Tunisian car plate. -/
def ValidateCarPlate (carPlate : String)
    (options : List CarPlateValidationOptions) : Bool :=
  if carPlate = "" then false
  else
    let opts := options.headD CarPlateValidationOptions.zero
    let normalizedPlate := normalizePlate carPlate opts
    if opts.Typ = "special" then
      if opts.Strict then strictSpecialCarPlateRegex.MatchString normalizedPlate
      else specialCarPlateRegex.MatchString normalizedPlate
    else if opts.Typ = "standard" ∨ opts.Typ = "" then
      if opts.Strict then strictStandardCarPlateRegex.MatchString normalizedPlate
      else standardCarPlateRegex.MatchString normalizedPlate
    else false

/-- ValidateCarPlateWithDetails validates a car plate and returns detailed
information. -/
def ValidateCarPlateWithDetails (carPlate : String)
    (options : List CarPlateValidationOptions) : Bool × String :=
  if carPlate = "" then (false, "Car plate cannot be empty")
  else
    let opts := options.headD CarPlateValidationOptions.zero
    if !Contains carPlate tounes then
      (false, "Car plate must contain \x27" ++ tounes ++ "\x27")
    else
      let normalizedPlate := normalizePlate carPlate opts
      if opts.Typ = "special" then
        if opts.Strict then
          if !strictSpecialCarPlateRegex.MatchString normalizedPlate then
            (false, "Special car plate must follow format: RS XXX " ++ tounes ++
              " (with exact spacing)")
          else (true, "")
        else
          if !specialCarPlateRegex.MatchString normalizedPlate then
            (false, "Special car plate must follow format: RS XXX " ++ tounes)
          else (true, "")
      else if opts.Typ = "standard" ∨ opts.Typ = "" then
        if opts.Strict then
          if !strictStandardCarPlateRegex.MatchString normalizedPlate then
            (false, "Standard car plate must follow format: XXX " ++ tounes ++
              " XXXX (with exact spacing)")
          else (true, "")
        else
          if !standardCarPlateRegex.MatchString normalizedPlate then
            (false, "Standard car plate must follow format: XXX " ++ tounes ++ " XXXX")
          else (true, "")
      else (false, "Invalid car plate type specified")

/-- GetCarPlateInfo extracts information from a valid car plate.  The result `none`
is the `nil` pointer; the pattern `a :: b :: c :: _` is the test `len(parts) >= 3`
followed by the reads of `parts[0]`, `parts[1]` and `parts[2]`. -/
def GetCarPlateInfo (carPlate : String)
    (options : List CarPlateValidationOptions) : Option CarPlateInfo :=
  let opts := options.headD CarPlateValidationOptions.zero
  if !ValidateCarPlate carPlate [opts] then none
  else
    let normalizedPlate := normalizePlate carPlate opts
    if HasPrefix normalizedPlate "RS" then
      match Fields normalizedPlate with
      | a :: b :: c :: _ => some ⟨"special", ⟨a ++ " " ++ b, c, ""⟩⟩
      | _ => none
    else
      match Fields normalizedPlate with
      | a :: b :: c :: _ => some ⟨"standard", ⟨a, b, c⟩⟩
      | _ => none

/-! ## formatters/phone.go -/

/-- Class `[^\d+]`: every code point that is neither an ASCII digit nor `+`. -/
def isNotDigitOrPlus (c : Char) : Bool := !(isDigit c || c == '+')

/-- The two cleaning steps that open each of the four phone formatters: the matches
of `[^\d+]` are deleted, then one leading `+216` is removed. -/
def cleanPhoneNumber (phoneNumber : String) : String :=
  TrimPrefix (ReplaceAllClass isNotDigitOrPlus phoneNumber "") "+216"

/-- FormatPhoneNumber formats a Tunisian phone number with country code and proper
spacing.  The result is the pair of the returned string and the returned error,
`none` being the `nil` error. -/
def FormatPhoneNumber (phoneNumber : String) : String × Option String :=
  if !ValidatePhoneNumber phoneNumber [] then
    ("", some ("invalid phone number: " ++ phoneNumber))
  else
    let cleaned := cleanPhoneNumber phoneNumber
    if len cleaned ≠ 8 then
      ("", some "phone number must be exactly 8 digits after cleaning")
    else
      (CountryCode ++ " " ++ sliceTo cleaned 2 ++ " " ++ slice cleaned 2 5 ++ " " ++
        sliceFrom cleaned 5, none)

/-- FormatPhoneNumberNational formats a phone number in national format (without
country code). -/
def FormatPhoneNumberNational (phoneNumber : String) : String × Option String :=
  if !ValidatePhoneNumber phoneNumber [] then
    ("", some ("invalid phone number: " ++ phoneNumber))
  else
    let cleaned := cleanPhoneNumber phoneNumber
    if len cleaned ≠ 8 then
      ("", some "phone number must be exactly 8 digits after cleaning")
    else
      (sliceTo cleaned 2 ++ " " ++ slice cleaned 2 5 ++ " " ++ sliceFrom cleaned 5, none)

/-- FormatPhoneNumberCompact formats a phone number in compact format (no spaces). -/
def FormatPhoneNumberCompact (phoneNumber : String) : String × Option String :=
  if !ValidatePhoneNumber phoneNumber [] then
    ("", some ("invalid phone number: " ++ phoneNumber))
  else
    let cleaned := cleanPhoneNumber phoneNumber
    if len cleaned ≠ 8 then
      ("", some "phone number must be exactly 8 digits after cleaning")
    else (CountryCode ++ cleaned, none)

/-- NormalizePhoneNumber normalizes a phone number by removing all formatting. -/
def NormalizePhoneNumber (phoneNumber : String) : String × Option String :=
  if !ValidatePhoneNumber phoneNumber [] then
    ("", some ("invalid phone number: " ++ phoneNumber))
  else
    let cleaned := cleanPhoneNumber phoneNumber
    if len cleaned ≠ 8 then
      ("", some "phone number must be exactly 8 digits after cleaning")
    else (cleaned, none)

/-! ## formatters/currency.go -/

/-- TunisianDinarSymbol is the symbol for Tunisian Dinar. -/
def TunisianDinarSymbol : String := "دينار تونسي"

/-- TunisianDinarCode is the ISO code for Tunisian Dinar. -/
def TunisianDinarCode : String := "TND"

/-- Counterpart of `strconv.FormatInt(num, 10)`. -/
def FormatInt (num : Int) : String :=
  if num < 0 then "-" ++ Nat.repr num.natAbs else Nat.repr num.toNat

/-- The loop of `formatWithThousandsSeparator` over the runes of `str`: `n` is
`len(str)`, `i` the byte index of the current rune.  The index stays below `n`, so the
difference `n - i` is the one that Go computes. -/
def separatorLoop (separator : String) (n : Nat) : Nat → List Char → List Char
  | _, [] => []
  | i, digit :: rest =>
    (if i > 0 ∧ (n - i) % 3 = 0 then separator.data else []) ++
      digit :: separatorLoop separator n (i + utf8Len digit) rest

/-- formatWithThousandsSeparator formats an integer with thousands separator. -/
def formatWithThousandsSeparator (num : Int) (separator : String) : String :=
  let str := FormatInt num
  if len str ≤ 3 then str
  else String.mk (separatorLoop separator (len str) 0 str.data)

/-- The operations on `float64` that the currency formatter uses.  Their IEEE-754
meaning is not modelled: a value of this structure is any reading of them. -/
structure Float64Ops where
  /-- The type `float64`. -/
  F : Type
  /-- The constant `1000`. -/
  thousand : F
  /-- The product `x * y`. -/
  mul : F → F → F
  /-- The quotient `x / y`. -/
  div : F → F → F
  /-- The difference `x - y`. -/
  sub : F → F → F
  /-- The function `math.Round`. -/
  round : F → F
  /-- The function `math.Abs`. -/
  abs : F → F
  /-- The conversion `int64(x)`. -/
  toInt64 : F → Int
  /-- The conversion `float64(n)`. -/
  ofInt64 : Int → F
  /-- The test `x < 0`. -/
  ltZero : F → Bool
  /-- The call `fmt.Sprintf("%.3f", x)`. -/
  sprintf3 : F → String

/-- formatTunisianNumber formats a number according to Tunisian locale. -/
def formatTunisianNumber (ops : Float64Ops) (amount : ops.F) : String :=
  let intPart := ops.toInt64 (ops.abs amount)
  let decPart := ops.sub (ops.abs amount) (ops.ofInt64 intPart)
  let intStr := formatWithThousandsSeparator intPart "."
  let decStr := sliceFrom (ops.sprintf3 decPart) 2
  let result := intStr ++ "," ++ decStr
  if ops.ltZero amount then "-" ++ result else result

/-- FormatCurrency formats an amount in Tunisian Dinar with proper formatting. -/
def FormatCurrency (ops : Float64Ops) (amount : ops.F)
    (options : List CurrencyFormatOptions) : String :=
  let opts := options.headD CurrencyFormatOptions.zero
  let rounded := ops.div (ops.round (ops.mul amount ops.thousand)) ops.thousand
  let formatted := formatTunisianNumber ops rounded
  if opts.Symbol then formatted ++ " " ++ TunisianDinarSymbol
  else if opts.Code then formatted ++ " " ++ TunisianDinarCode
  else formatted ++ " " ++ TunisianDinarSymbol

/-- FormatCurrencyCompact formats currency in a compact format (no symbol/code). -/
def FormatCurrencyCompact (ops : Float64Ops) (amount : ops.F) : String :=
  let rounded := ops.div (ops.round (ops.mul amount ops.thousand)) ops.thousand
  formatTunisianNumber ops rounded

/-! ## formatters/date.go -/

/-- Counterpart of `fmt.Sprintf("%02d", n)` for `n >= 0`: the decimal digits, with a
zero in front when there is only one. -/
def sprintf02d (n : Nat) : String :=
  let str := Nat.repr n
  if str.length < 2 then "0" ++ str else str

/-- FormatTime12Hour formats time in 12-hour format with Arabic AM/PM.  The arguments
are the results of `t.Hour()` and `t.Minute()`. -/
def FormatTime12Hour (hour minute : Nat) : String :=
  let result :=
    if hour = 0 then (12, "صباحاً")
    else if hour < 12 then (hour, "صباحاً")
    else if hour = 12 then (12, "مساءً")
    else (hour - 12, "مساءً")
  Nat.repr result.1 ++ ":" ++ sprintf02d minute ++ " " ++ result.2

/-! ## degache.go -/

/-- The Go assignment `results[key] = value` on a map held as a list of pairs. -/
def mapSet (results : List (String × Bool)) (key : String) (value : Bool) :
    List (String × Bool) :=
  (key, value) :: results.filter (fun e => e.1 != key)

/-- IsValidTunisianData performs comprehensive validation of common Tunisian data.
The argument and the result are Go maps, held as lists of key/value pairs and read
with `List.lookup`. -/
def IsValidTunisianData (data : List (String × String)) : List (String × Bool) :=
  let results : List (String × Bool) := []
  let results :=
    match data.lookup "cin" with
    | some cin => mapSet results "cin" (ValidateCIN cin)
    | none => results
  let results :=
    match data.lookup "phone" with
    | some phone => mapSet results "phone" (ValidatePhoneNumber phone [])
    | none => results
  let results :=
    match data.lookup "taxID" with
    | some taxID => mapSet results "taxID" (ValidateTaxID taxID)
    | none => results
  let results :=
    match data.lookup "rib" with
    | some rib => mapSet results "rib" (ValidateRIB rib)
    | none => results
  let results :=
    match data.lookup "postal" with
    | some postal => mapSet results "postal" (ValidatePostalCode postal)
    | none => results
  let results :=
    match data.lookup "carPlate" with
    | some plate => mapSet results "carPlate" (ValidateCarPlate plate [])
    | none => results
  results

/-! ## Run-time failures

The functions above are total: where the source indexes or slices a string, they
read the value with a default for the case that Go would stop with a run-time panic
(index or slice bound out of range).  The definitions of this section transcribe the
same functions once more and keep that case apart: their result is `none` when the
run-time panics and `some r` when the function returns `r`. -/

/-- The Go slice `s[:n]`, which panics unless `n <= len(s)`. -/
def Checked.sliceTo (s : String) (n : Nat) : Option String :=
  if n ≤ len s then some (Degache.sliceTo s n) else none

/-- ValidatePhoneNumber, with the read of `normalizedNumber[0]` checked. -/
def Checked.ValidatePhoneNumber (phoneNumber : String)
    (options : List PhoneNumberValidationOptions) : Option Bool :=
  if phoneNumber = "" then some false
  else
    let opts := options.headD PhoneNumberValidationOptions.zero
    if opts.Strict && !strictPhoneRegex.MatchString phoneNumber then some false
    else
      let trimmed := TrimPrefix phoneNumber "+216"
      let normalizedNumber :=
        if !opts.Strict then ReplaceAllClass isNonDigit trimmed "" else trimmed
      if !phoneRegex.MatchString normalizedNumber then some false
      else
        (byteString0 normalizedNumber).bind fun pfx =>
          some (ValidPrefixes.any (fun validPrefix => pfx == validPrefix))

/-- ValidatePhoneNumberWithDetails, with the read of `normalizedNumber[0]` checked. -/
def Checked.ValidatePhoneNumberWithDetails (phoneNumber : String)
    (options : List PhoneNumberValidationOptions) : Option (Bool × String) :=
  if phoneNumber = "" then some (false, "Phone number cannot be empty")
  else
    let opts := options.headD PhoneNumberValidationOptions.zero
    if opts.Strict && !strictPhoneRegex.MatchString phoneNumber then
      some (false, "Phone number format is invalid in strict mode")
    else
      let trimmed := TrimPrefix phoneNumber "+216"
      let normalizedNumber :=
        if !opts.Strict then ReplaceAllClass isNonDigit trimmed "" else trimmed
      if len normalizedNumber ≠ 8 then some (false, "Phone number must be exactly 8 digits")
      else if !phoneRegex.MatchString normalizedNumber then
        some (false, "Phone number must start with 2-9 and contain only digits")
      else
        (byteString0 normalizedNumber).bind fun pfx =>
          if ValidPrefixes.any (fun validPrefix => pfx == validPrefix) then some (true, "")
          else some (false, "Phone number prefix is not valid for Tunisian carriers")

/-- GetCarrierInfo, with the call of the validator and the read of
`normalizedNumber[0]` checked. -/
def Checked.GetCarrierInfoOver (visited : List Carrier) (phoneNumber : String)
    (options : List PhoneNumberValidationOptions) : Option (Option CarrierInfo) :=
  let opts := options.headD PhoneNumberValidationOptions.zero
  (Checked.ValidatePhoneNumber phoneNumber [opts]).bind fun valid =>
    if !valid then some none
    else
      let trimmed := TrimPrefix phoneNumber "+216"
      let normalizedNumber :=
        if !opts.Strict then ReplaceAllClass isNonDigit trimmed "" else trimmed
      (byteString0 normalizedNumber).bind fun pfx => some (scanCarriers pfx visited)

/-- ValidateRIB, with the slice `rib[:2]` checked. -/
def Checked.ValidateRIB (rib : String) : Option Bool :=
  if rib = "" then some false
  else if !ribRegex.MatchString rib then some false
  else
    (Checked.sliceTo rib 2).bind fun bankCode => some (BanksLookup bankCode).isSome

/-- ValidateRIBWithDetails, with the slice `rib[:2]` checked. -/
def Checked.ValidateRIBWithDetails (rib : String) : Option (Bool × String) :=
  if rib = "" then some (false, "RIB cannot be empty")
  else if len rib ≠ 20 then some (false, "RIB must be exactly 20 digits")
  else if !ribRegex.MatchString rib then some (false, "RIB must contain only digits")
  else
    (Checked.sliceTo rib 2).bind fun bankCode =>
      if (BanksLookup bankCode).isNone then some (false, "Bank code not recognized")
      else some (true, "")

/-- GetBankFromRIB, with the call of the validator and the slice `rib[:2]` checked. -/
def Checked.GetBankFromRIB (rib : String) : Option (Option BankInfo) :=
  (Checked.ValidateRIB rib).bind fun valid =>
    if !valid then some none
    else
      (Checked.sliceTo rib 2).bind fun bankCode =>
        match BanksLookup bankCode with
        | none => some none
        | some bank => some (some ⟨bank, bankCode⟩)

/-- GetCarPlateInfo, with the reads of `parts[0]`, `parts[1]` and `parts[2]` checked:
they follow the test `len(parts) >= 3`. -/
def Checked.GetCarPlateInfo (carPlate : String)
    (options : List CarPlateValidationOptions) : Option (Option CarPlateInfo) :=
  let opts := options.headD CarPlateValidationOptions.zero
  if !ValidateCarPlate carPlate [opts] then some none
  else
    let normalizedPlate := normalizePlate carPlate opts
    if HasPrefix normalizedPlate "RS" then
      let parts := Fields normalizedPlate
      if parts.length ≥ 3 then
        parts[0]?.bind fun a => parts[1]?.bind fun b => parts[2]?.bind fun c =>
          some (some ⟨"special", ⟨a ++ " " ++ b, c, ""⟩⟩)
      else some none
    else
      let parts := Fields normalizedPlate
      if parts.length ≥ 3 then
        parts[0]?.bind fun a => parts[1]?.bind fun b => parts[2]?.bind fun c =>
          some (some ⟨"standard", ⟨a, b, c⟩⟩)
      else some none

/-- The Go slice `s[i:j]`, which panics unless `i <= j <= len(s)`. -/
def Checked.slice (s : String) (i j : Nat) : Option String :=
  if i ≤ j ∧ j ≤ len s then some (Degache.slice s i j) else none

/-- The Go slice `s[i:]`, which panics unless `i <= len(s)`. -/
def Checked.sliceFrom (s : String) (i : Nat) : Option String :=
  if i ≤ len s then some (Degache.sliceFrom s i) else none

/-- ExtractRIBComponents, with the call of the validator and the four slices
checked. -/
def Checked.ExtractRIBComponents (rib : String) :
    Option (List (String × String) × Option String) :=
  (Checked.ValidateRIBWithDetails rib).bind fun result =>
    if !result.1 then some ([], some ("invalid RIB: " ++ result.2))
    else
      let components : List (String × String) := []
      (Checked.sliceTo rib 2).bind fun bankCode =>
        let components := setComponent components "bankCode" bankCode
        (Checked.slice rib 2 5).bind fun branchCode =>
          let components := setComponent components "branchCode" branchCode
          (Checked.slice rib 5 18).bind fun accountNumber =>
            let components := setComponent components "accountNumber" accountNumber
            (Checked.sliceFrom rib 18).bind fun key =>
              let components := setComponent components "key" key
              some (components, none)

/-- ExtractTaxIDComponents, with the two slices and the three reads of a byte
checked. -/
def Checked.ExtractTaxIDComponents (taxID : String) :
    Option (List (String × String) × Option String) :=
  if !ValidateTaxID taxID then some ([], some "invalid Tax ID format")
  else
    let components : List (String × String) := []
    (Checked.sliceTo taxID 7).bind fun number =>
      let components := setComponent components "number" number
      (byteStringAt taxID 7).bind fun type1 =>
        let components := setComponent components "type1" type1
        (byteStringAt taxID 9).bind fun type2 =>
          let components := setComponent components "type2" type2
          (byteStringAt taxID 11).bind fun type3 =>
            let components := setComponent components "type3" type3
            (Checked.sliceFrom taxID 13).bind fun sequence =>
              let components := setComponent components "sequence" sequence
              some (components, none)

/-- ValidateRIBChecksum, with the call of the validator and the two slices checked. -/
def Checked.ValidateRIBChecksumOn (intSize : Nat) (rib : String) : Option Bool :=
  (Checked.ValidateRIB rib).bind fun valid =>
    if !valid then some false
    else
      (Checked.sliceFrom rib 18).bind fun keyPart =>
        match Atoi intSize keyPart with
        | none => some false
        | some key =>
          (Checked.sliceTo rib 18).bind fun accountPart =>
            match ParseInt accountPart 64 with
            | none => some false
            | some accountNum =>
              let calculatedKey := toInt intSize (accountNum.tmod 97)
              some (calculatedKey == key)

/-! ## Vocabulary of the specification -/

/-- A string of ASCII digits only. -/
def AllDigits (l : List Char) : Prop := ∀ c ∈ l, isDigit c = true

/-- The first code point of the list is one of the digits 2, 4, 5, 9. -/
def StartsWithCarrierDigit (l : List Char) : Prop :=
  l.head? = some '2' ∨ l.head? = some '4' ∨ l.head? = some '5' ∨ l.head? = some '9'

instance decidableAllDigits (l : List Char) : Decidable (AllDigits l) :=
  inferInstanceAs (Decidable (∀ c ∈ l, isDigit c = true))

instance decidableStartsWithCarrierDigit (l : List Char) :
    Decidable (StartsWithCarrierDigit l) :=
  inferInstanceAs (Decidable (l.head? = some '2' ∨ l.head? = some '4' ∨
    l.head? = some '5' ∨ l.head? = some '9'))

/-- The digits that remain of a phone number: one leading `+216` is removed when the
input starts with it, then every code point that is not an ASCII digit is deleted. -/
def phoneDigits (s : String) : List Char :=
  if "+216".data <+: s.data then (s.data.drop 4).filter isDigit
  else s.data.filter isDigit

/-- The layout of a tax identifier: 7 digits, a letter, `/`, a letter, `/`, a letter,
`/`, 3 digits (letters are `A` to `Z`). -/
def TaxShape (l : List Char) : Prop :=
  ∃ (num : List Char) (t1 t2 t3 : Char) (sq : List Char),
    l = num ++ t1 :: '/' :: t2 :: '/' :: t3 :: '/' :: sq ∧
    num.length = 7 ∧ AllDigits num ∧
    isUpper t1 = true ∧ isUpper t2 = true ∧ isUpper t3 = true ∧
    sq.length = 3 ∧ AllDigits sq

/-- The layout of a standard plate: 3 digits, a gap, the word `tounes`, a gap,
4 digits.  The parameter says what a gap may be. -/
def StandardPlateShape (gap : List Char → Prop) (l : List Char) : Prop :=
  ∃ d3 g1 g2 d4 : List Char,
    l = d3 ++ (g1 ++ (tounes.data ++ (g2 ++ d4))) ∧
    d3.length = 3 ∧ AllDigits d3 ∧ gap g1 ∧ gap g2 ∧ d4.length = 4 ∧ AllDigits d4

/-- The layout of a special plate: `RS`, a gap, 3 digits, a gap, the word `tounes`.
The parameter says what a gap may be. -/
def SpecialPlateShape (gap : List Char → Prop) (l : List Char) : Prop :=
  ∃ g1 d3 g2 : List Char,
    l = "RS".data ++ (g1 ++ (d3 ++ (g2 ++ tounes.data))) ∧
    gap g1 ∧ d3.length = 3 ∧ AllDigits d3 ∧ gap g2

/-- A gap that is white space: at least one code point, all of them white space (in
the widest sense the library knows, that of `unicode.IsSpace`). -/
def Whitespace (g : List Char) : Prop :=
  g ≠ [] ∧ ∀ c ∈ g, isUnicodeSpace c = true

/-- A gap that is exactly one space character. -/
def OneSpace (g : List Char) : Prop := g = [' ']

/-- A gap that is one space character or nothing. -/
def OptionalSpace (g : List Char) : Prop := g = [] ∨ g = [' ']

/-- A gap made of any number of code points of the class `\s`. -/
def ReSpaces (g : List Char) : Prop := ∀ c ∈ g, isReSpace c = true

/-- The layout of a CIN: 8 ASCII digits the first of which is `0` or `1`. -/
def CinShape (s : String) : Prop :=
  s.length = 8 ∧ AllDigits s.data ∧ (s.data.head? = some '0' ∨ s.data.head? = some '1')

instance decidableCinShape (s : String) : Decidable (CinShape s) :=
  inferInstanceAs (Decidable (s.length = 8 ∧ AllDigits s.data ∧
    (s.data.head? = some '0' ∨ s.data.head? = some '1')))

/-- What is left of a phone number once one leading `+216` is removed, when the
input starts with it. -/
def afterCountryCode (s : String) : List Char :=
  if "+216".data <+: s.data then s.data.drop 4 else s.data

/-- The international rendering `+216 DD DDD DDD` of eight code points. -/
def international (d1 d2 d3 d4 d5 d6 d7 d8 : Char) : String :=
  String.mk ['+', '2', '1', '6', ' ', d1, d2, ' ', d3, d4, d5, ' ', d6, d7, d8]

/-- The hour shown by a 12-hour clock: 12 at midnight and at noon, the hour itself
in the morning, the hour less 12 in the afternoon. -/
def displayHour12 (h : Nat) : Nat :=
  if h = 0 ∨ h = 12 then 12 else if h < 12 then h else h - 12

/-- The period marker: the morning marker before noon, the evening marker from noon
on. -/
def periodMarker (h : Nat) : String :=
  if h < 12 then "صباحاً" else "مساءً"

/-- A number below 100 written with two decimal digits. -/
def twoDigits (m : Nat) : String :=
  String.mk [Nat.digitChar (m / 10), Nat.digitChar (m % 10)]

/-- The suffix that `FormatCurrency` is meant to append: the ISO code when only the
code is asked for, the symbol in every other case. -/
def currencySuffix (opts : CurrencyFormatOptions) : String :=
  if opts.Code = true ∧ opts.Symbol = false then "TND" else "دينار تونسي"

/-- The record of a standard plate: type `standard`, the 3 digits of the plate as
prefix, the word `tounes` as region, the 4 digits of the plate as suffix.  The digits
are those of the normalised plate, which reads: 3 digits, a space, `tounes`, a space,
4 digits; each group of digits occurs as such in the plate that was given. -/
def StandardRecord (p : String) (opts : CarPlateValidationOptions)
    (info : CarPlateInfo) : Prop :=
  ∃ d3 d4 : List Char, d3.length = 3 ∧ AllDigits d3 ∧ d4.length = 4 ∧ AllDigits d4 ∧
    (normalizePlate p opts).data = d3 ++ ' ' :: (tounes.data ++ ' ' :: d4) ∧
    d3 <:+: p.data ∧ d4 <:+: p.data ∧
    info = ⟨"standard", ⟨String.mk d3, tounes, String.mk d4⟩⟩

/-- The record of a special plate: type `special`, `RS`, a space and the 3 digits of
the plate as prefix, the word `tounes` as region, an empty suffix.  The digits are
those of the normalised plate, which reads: `RS`, a space, 3 digits, a space,
`tounes`; the group of digits occurs as such in the plate that was given. -/
def SpecialRecord (p : String) (opts : CarPlateValidationOptions)
    (info : CarPlateInfo) : Prop :=
  ∃ d3 : List Char, d3.length = 3 ∧ AllDigits d3 ∧
    (normalizePlate p opts).data = "RS ".data ++ (d3 ++ ' ' :: tounes.data) ∧
    d3 <:+: p.data ∧
    info = ⟨"special", ⟨"RS " ++ String.mk d3, tounes, ""⟩⟩

/-- The natural number that a string of decimal digits writes: each digit counts for
its value times the power of 10 of its position, the last position being the units. -/
def decimalValue : List Char → Nat
  | [] => 0
  | c :: t => (c.toNat - 48) * 10 ^ t.length + decimalValue t

/-- The first digit of an 8-digit number is one of the given code points. -/
def StartsWithOneOf (cs : List Char) (l : List Char) : Prop :=
  ∃ c ∈ cs, l.head? = some c

instance decidableStartsWithOneOf (cs l : List Char) : Decidable (StartsWithOneOf cs l) :=
  inferInstanceAs (Decidable (∃ c ∈ cs, l.head? = some c))

/-- A text that is a core of the given layout between two margins of white space, in
the sense of `unicode.IsSpace`; either margin may be empty. -/
def Padded (shape : List Char → Prop) (l : List Char) : Prop :=
  ∃ lead core trail : List Char,
    l = lead ++ (core ++ trail) ∧
    (∀ c ∈ lead, isUnicodeSpace c = true) ∧ (∀ c ∈ trail, isUnicodeSpace c = true) ∧
    shape core

/-- Trimming and collapsing as the specification words them, for a class `ws` of white
space: the text is cut at every code point of the class, the empty pieces are dropped
and the others are joined by single spaces. -/
def collapseWhitespace (ws : Char → Bool) (l : List Char) : List Char :=
  List.intercalate [' '] ((l.splitOnP ws).filter (fun w => !w.isEmpty))

/-! ## Semantics of the matcher -/

namespace Regex

theorem matchList_fail (s : List Char) : matchList fail s = false := by
  induction s with
  | nil => rfl
  | cons c s ih => simpa [matchList, deriv] using ih

theorem matchList_eps (s : List Char) : matchList eps s = s.isEmpty := by
  cases s with
  | nil => rfl
  | cons c s => simp [matchList, deriv, matchList_fail]

theorem matchList_alt (a b : Regex) (s : List Char) :
    matchList (alt a b) s = (matchList a s || matchList b s) := by
  induction s generalizing a b with
  | nil => rfl
  | cons c s ih => simp [matchList, deriv, ih]

/-- Concatenation splits the input in two. -/
theorem matchList_seq_iff (a b : Regex) (s : List Char) :
    matchList (seq a b) s = true ↔
      ∃ u v, s = u ++ v ∧ matchList a u = true ∧ matchList b v = true := by
  induction s generalizing a with
  | nil =>
    constructor
    · intro h
      simp only [matchList, nullable, Bool.and_eq_true] at h
      exact ⟨[], [], rfl, h.1, h.2⟩
    · rintro ⟨u, v, huv, hu, hv⟩
      obtain ⟨rfl, rfl⟩ : u = [] ∧ v = [] := by simpa using huv.symm
      simp only [matchList, nullable, Bool.and_eq_true]
      exact ⟨hu, hv⟩
  | cons c s ih =>
    constructor
    · intro h
      simp only [matchList, deriv] at h
      by_cases hn : a.nullable = true
      · rw [if_pos hn, matchList_alt, Bool.or_eq_true] at h
        rcases h with h | h
        · obtain ⟨u, v, rfl, hu, hv⟩ := (ih _).1 h
          exact ⟨c :: u, v, rfl, hu, hv⟩
        · exact ⟨[], c :: s, rfl, hn, h⟩
      · rw [if_neg hn] at h
        obtain ⟨u, v, rfl, hu, hv⟩ := (ih _).1 h
        exact ⟨c :: u, v, rfl, hu, hv⟩
    · rintro ⟨u, v, huv, hu, hv⟩
      simp only [matchList, deriv]
      cases u with
      | nil =>
        have hn : a.nullable = true := hu
        simp only [List.nil_append] at huv
        subst huv
        rw [if_pos hn, matchList_alt, Bool.or_eq_true]
        exact Or.inr hv
      | cons d u =>
        simp only [List.cons_append, List.cons.injEq] at huv
        obtain ⟨rfl, rfl⟩ := huv
        have h' : matchList (seq (deriv c a) b) (u ++ v) = true :=
          (ih _).2 ⟨u, v, rfl, hu, hv⟩
        by_cases hn : a.nullable = true
        · rw [if_pos hn, matchList_alt, Bool.or_eq_true]
          exact Or.inl h'
        · rw [if_neg hn]
          exact h'

theorem matchList_cls_iff (p : Char → Bool) (s : List Char) :
    matchList (cls p) s = true ↔ ∃ c, s = [c] ∧ p c = true := by
  rcases s with _ | ⟨c, _ | ⟨d, t⟩⟩
  · simp [matchList, nullable]
  · by_cases h : p c = true <;> simp [matchList, deriv, nullable, h]
  · by_cases h : p c = true <;> simp [matchList, deriv, nullable, h, matchList_fail]

theorem matchList_lit_iff (c : Char) (s : List Char) :
    matchList (lit c) s = true ↔ s = [c] := by
  rw [lit, matchList_cls_iff]
  constructor
  · rintro ⟨d, rfl, hd⟩
    simpa using hd
  · rintro rfl
    exact ⟨c, rfl, by simp⟩

theorem matchList_seq_eps_right (a : Regex) (s : List Char) :
    matchList (seq a eps) s = matchList a s := by
  rw [Bool.eq_iff_iff, matchList_seq_iff]
  constructor
  · rintro ⟨u, v, rfl, hu, hv⟩
    rw [matchList_eps, List.isEmpty_iff] at hv
    subst hv
    simpa using hu
  · intro h
    exact ⟨s, [], by simp, h, rfl⟩

/-- A literal string matches itself only. -/
theorem matchList_str_iff (l s : List Char) : matchList (str l) s = true ↔ s = l := by
  induction l generalizing s with
  | nil => simp [str, matchList_eps]
  | cons c l ih =>
    rw [str, matchList_seq_iff]
    constructor
    · rintro ⟨u, v, rfl, hu, hv⟩
      rw [matchList_lit_iff] at hu
      rw [ih] at hv
      subst hu hv
      rfl
    · rintro rfl
      exact ⟨[c], l, rfl, (matchList_lit_iff c [c]).2 rfl, (ih l).2 rfl⟩

/-- Bounded repetition of a class: `n` code points of the class. -/
theorem matchList_rep_cls_iff (p : Char → Bool) (n : Nat) (s : List Char) :
    matchList (rep n (cls p)) s = true ↔ s.length = n ∧ ∀ c ∈ s, p c = true := by
  induction n generalizing s with
  | zero =>
    rw [rep, matchList_eps, List.isEmpty_iff]
    constructor
    · rintro rfl
      simp
    · rintro ⟨h, -⟩
      exact List.eq_nil_of_length_eq_zero h
  | succ n ih =>
    rw [rep, matchList_seq_iff]
    constructor
    · rintro ⟨u, v, rfl, hu, hv⟩
      obtain ⟨c, rfl, hc⟩ := (matchList_cls_iff p u).1 hu
      obtain ⟨hl, hall⟩ := (ih v).1 hv
      refine ⟨by simp [hl], ?_⟩
      intro d hd
      rcases List.mem_cons.1 hd with rfl | hd
      · exact hc
      · exact hall d hd
    · rintro ⟨hl, hall⟩
      cases s with
      | nil => simp at hl
      | cons c t =>
        refine ⟨[c], t, rfl, (matchList_cls_iff p [c]).2 ⟨c, rfl, hall c (by simp)⟩, ?_⟩
        refine (ih t).2 ⟨by simpa using hl, ?_⟩
        intro d hd
        exact hall d (List.mem_cons_of_mem c hd)

/-- Kleene star of a class: any number of code points of the class. -/
theorem matchList_star_cls_iff (p : Char → Bool) (s : List Char) :
    matchList (star (cls p)) s = true ↔ ∀ c ∈ s, p c = true := by
  induction s with
  | nil => simp [matchList, nullable]
  | cons c s ih =>
    have hstep : matchList (star (cls p)) (c :: s) =
        matchList (seq (if p c = true then eps else fail) (star (cls p))) s := rfl
    rw [hstep, matchList_seq_iff]
    constructor
    · rintro ⟨u, v, rfl, hu, hv⟩
      by_cases hc : p c = true
      · rw [if_pos hc, matchList_eps, List.isEmpty_iff] at hu
        subst hu
        intro d hd
        rcases List.mem_cons.1 hd with rfl | hd
        · exact hc
        · exact ih.1 hv d (by simpa using hd)
      · rw [if_neg hc, matchList_fail] at hu
        exact absurd hu (by simp)
    · intro hall
      have hc : p c = true := hall c (by simp)
      refine ⟨[], s, rfl, ?_, ih.2 (fun d hd => hall d (List.mem_cons_of_mem c hd))⟩
      rw [if_pos hc]
      rfl

theorem matchList_opt_iff (a : Regex) (s : List Char) :
    matchList (opt a) s = true ↔ matchList a s = true ∨ s = [] := by
  rw [opt, matchList_alt, Bool.or_eq_true, matchList_eps, List.isEmpty_iff]

end Regex

/-! ## Auxiliary facts -/

theorem matchList_seq_cls_iff (p : Char → Bool) (r : Regex) (s : List Char) :
    Regex.matchList (Regex.seq (Regex.cls p) r) s = true ↔
      ∃ c t, s = c :: t ∧ p c = true ∧ Regex.matchList r t = true := by
  rw [Regex.matchList_seq_iff]
  constructor
  · rintro ⟨u, v, rfl, hu, hv⟩
    obtain ⟨c, rfl, hc⟩ := (Regex.matchList_cls_iff p u).1 hu
    exact ⟨c, v, rfl, hc, hv⟩
  · rintro ⟨c, t, rfl, hc, ht⟩
    exact ⟨[c], t, rfl, (Regex.matchList_cls_iff p [c]).2 ⟨c, rfl, hc⟩, ht⟩

theorem isZeroOne_iff (c : Char) : isZeroOne c = true ↔ c = '0' ∨ c = '1' := by
  simp [isZeroOne]

theorem replaceAllClass_nonDigit (t : String) :
    (ReplaceAllClass isNonDigit t "").data = t.data.filter isDigit := by
  unfold ReplaceAllClass
  show List.flatMap t.data _ = _
  induction t.data with
  | nil => rfl
  | cons c l ih =>
    rw [List.flatMap_cons, ih]
    by_cases hc : isDigit c = true
    · simp [isNonDigit, hc]
    · simp [isNonDigit, hc]

theorem trimPrefix_filter_digits (s : String) :
    (TrimPrefix s "+216").data.filter isDigit = phoneDigits s := by
  unfold TrimPrefix phoneDigits
  by_cases h : "+216".data <+: s.data
  · rw [if_pos (List.isPrefixOf_iff_prefix.2 h), if_pos h]
    rfl
  · rw [if_neg (fun h' => h (List.isPrefixOf_iff_prefix.1 h')), if_neg h]

theorem phoneRegex_iff (l : List Char) :
    phoneRegex.matchList l = true ↔
      ∃ c t, l = c :: t ∧ isTwoNine c = true ∧ t.length = 7 ∧ AllDigits t := by
  simp only [phoneRegex, Regex.cat, reDigit]
  rw [matchList_seq_cls_iff]
  simp only [Regex.matchList_seq_eps_right, Regex.matchList_rep_cls_iff, AllDigits]

theorem isTwoNine_isDigit (c : Char) (h : isTwoNine c = true) : isDigit c = true := by
  simp only [isTwoNine, isDigit, Bool.and_eq_true, decide_eq_true_eq] at *
  omega

theorem byteString0_ascii (c : Char) (t : List Char) (h : c.toNat < 128) :
    byteString0 (String.mk (c :: t)) = some (String.mk [c]) := by
  simp only [byteString0, utf8LeadByte]
  rw [if_pos (by simpa using h), Char.ofNat_toNat]
  rfl

theorem validPrefix_iff (c : Char) :
    ValidPrefixes.any (fun validPrefix => String.mk [c] == validPrefix) = true ↔
      c = '2' ∨ c = '4' ∨ c = '5' ∨ c = '9' := by
  have e2 : ("2" : String) = String.mk ['2'] := rfl
  have e4 : ("4" : String) = String.mk ['4'] := rfl
  have e5 : ("5" : String) = String.mk ['5'] := rfl
  have e9 : ("9" : String) = String.mk ['9'] := rfl
  unfold ValidPrefixes
  simp only [List.any_cons, List.any_nil, Bool.or_false, Bool.or_eq_true, beq_iff_eq]
  rw [e2, e4, e5, e9]
  simp only [String.ext_iff, List.cons.injEq, and_true]

/-- The part of `ValidatePhoneNumber` that follows normalisation: the pattern
`phoneRegex` and the scan of `ValidPrefixes`. -/
theorem phone_checks_iff (n : String) :
    (phoneRegex.MatchString n = true ∧
      (match byteString0 n with
        | none => false
        | some pfx => ValidPrefixes.any (fun validPrefix => pfx == validPrefix)) = true) ↔
    n.data.length = 8 ∧ AllDigits n.data ∧ StartsWithCarrierDigit n.data := by
  rcases n with ⟨l⟩
  simp only [Regex.MatchString, phoneRegex_iff]
  constructor
  · rintro ⟨⟨c, t, rfl, hc, hl, hall⟩, hp⟩
    have hlt : c.toNat < 128 := by
      simp only [isTwoNine, Bool.and_eq_true, decide_eq_true_eq] at hc
      omega
    rw [byteString0_ascii c t hlt] at hp
    simp only at hp
    rw [validPrefix_iff] at hp
    refine ⟨by simp [hl], ?_, ?_⟩
    · intro d hd
      rcases List.mem_cons.1 hd with rfl | hd
      · exact isTwoNine_isDigit d hc
      · exact hall d hd
    · simpa [StartsWithCarrierDigit] using hp
  · rintro ⟨hl, hall, hs⟩
    cases l with
    | nil => simp at hl
    | cons c t =>
      have hc : c = '2' ∨ c = '4' ∨ c = '5' ∨ c = '9' := by
        simpa [StartsWithCarrierDigit] using hs
      have h29 : isTwoNine c = true := by
        rcases hc with rfl | rfl | rfl | rfl <;> decide
      have hlt : c.toNat < 128 := by
        simp only [isTwoNine, Bool.and_eq_true, decide_eq_true_eq] at h29
        omega
      refine ⟨⟨c, t, rfl, h29, by simpa using hl,
        fun d hd => hall d (List.mem_cons_of_mem c hd)⟩, ?_⟩
      rw [byteString0_ascii c t hlt]
      simp only
      exact (validPrefix_iff c).2 hc

/-- Strict-mode phone validation, step by step. -/
theorem validatePhone_strict_steps (s : String) :
    ValidatePhoneNumber s [⟨true⟩] = true ↔
      s ≠ "" ∧ strictPhoneRegex.MatchString s = true ∧
        (TrimPrefix s "+216").data.length = 8 ∧ AllDigits (TrimPrefix s "+216").data ∧
        StartsWithCarrierDigit (TrimPrefix s "+216").data := by
  rw [← phone_checks_iff]
  by_cases he : s = ""
  · subst he
    simp [ValidatePhoneNumber]
  · by_cases hs : strictPhoneRegex.MatchString s = true
    · by_cases hm : phoneRegex.MatchString (TrimPrefix s "+216") = true
      · simp [ValidatePhoneNumber, he, hs, hm]
      · simp [ValidatePhoneNumber, he, hs, hm]
    · simp [ValidatePhoneNumber, he, hs]

theorem strictPhoneRegex_iff (l : List Char) :
    strictPhoneRegex.matchList l = true ↔
      ∃ u v, l = u ++ v ∧ (u = "+216".data ∨ u = []) ∧ phoneRegex.matchList v = true := by
  have hdef : strictPhoneRegex = Regex.seq (Regex.opt (Regex.str "+216".data)) phoneRegex := rfl
  rw [hdef, Regex.matchList_seq_iff]
  simp only [Regex.matchList_opt_iff, Regex.matchList_str_iff]

theorem trimPrefix_of_digit_head (s : String) (h : ∀ c ∈ s.data.head?, isDigit c = true) :
    TrimPrefix s "+216" = s := by
  unfold TrimPrefix
  rw [if_neg]
  intro hp
  rw [List.isPrefixOf_iff_prefix] at hp
  obtain ⟨t, ht⟩ := hp
  have h0 : s.data.head? = some '+' := by rw [← ht]; rfl
  have := h '+' (by rw [h0]; rfl)
  exact absurd this (by decide)

theorem trimPrefix_append (d : List Char) :
    TrimPrefix (String.mk ("+216".data ++ d)) "+216" = String.mk d := by
  unfold TrimPrefix
  rw [if_pos]
  · rfl
  · rw [List.isPrefixOf_iff_prefix]
    exact List.prefix_append _ _

theorem startsWithCarrierDigit_head (d : List Char) (h : StartsWithCarrierDigit d) :
    ∀ c ∈ d.head?, isDigit c = true := by
  intro c hc
  rcases h with h | h | h | h <;> rw [h] at hc <;> cases hc <;> decide

theorem phoneRegex_of_shape (d : List Char) (hl : d.length = 8) (hd : AllDigits d)
    (hs : StartsWithCarrierDigit d) : phoneRegex.matchList d = true := by
  have := (phone_checks_iff (String.mk d)).2 ⟨hl, hd, hs⟩
  exact this.1

/-- Strict-mode phone validation accepts exactly an optional `+216` followed by 8
digits the first of which is 2, 4, 5 or 9. -/
theorem validatePhone_strict_iff (s : String) :
    ValidatePhoneNumber s [⟨true⟩] = true ↔
      ∃ d : List Char, (s.data = d ∨ s.data = "+216".data ++ d) ∧
        d.length = 8 ∧ AllDigits d ∧ StartsWithCarrierDigit d := by
  rw [validatePhone_strict_steps]
  constructor
  · rintro ⟨-, hs, hl, hd, hc⟩
    refine ⟨(TrimPrefix s "+216").data, ?_, hl, hd, hc⟩
    unfold TrimPrefix
    by_cases hp : "+216".data.isPrefixOf s.data = true
    · rw [if_pos hp]
      right
      rw [List.isPrefixOf_iff_prefix] at hp
      obtain ⟨t, ht⟩ := hp
      rw [← ht]
      simp
    · rw [if_neg hp]
      left
      rfl
  · rintro ⟨d, hsd, hl, hd, hc⟩
    rcases hsd with hsd | hsd
    · have hs : s = String.mk d := by
        rw [String.ext_iff]
        exact hsd
      subst hs
      rw [trimPrefix_of_digit_head _ (startsWithCarrierDigit_head d hc)]
      refine ⟨?_, ?_, hl, hd, hc⟩
      · intro h
        rw [String.ext_iff] at h
        simp only at h
        rw [h] at hl
        exact absurd hl (by decide)
      · exact (strictPhoneRegex_iff d).2 ⟨[], d, rfl, Or.inr rfl, phoneRegex_of_shape d hl hd hc⟩
    · have hs : s = String.mk ("+216".data ++ d) := by
        rw [String.ext_iff]
        exact hsd
      subst hs
      rw [trimPrefix_append]
      refine ⟨?_, ?_, hl, hd, hc⟩
      · intro h
        rw [String.ext_iff] at h
        exact absurd h (by simp)
      · exact (strictPhoneRegex_iff _).2
          ⟨"+216".data, d, rfl, Or.inl rfl, phoneRegex_of_shape d hl hd hc⟩

theorem lookup_isSome_iff (l : List (String × Bank)) (h : ∀ e ∈ l, e.1 = e.2.Code)
    (code : String) :
    (l.lookup code).isSome = true ↔ ∃ e ∈ l, e.2.Code = code := by
  induction l with
  | nil => simp
  | cons e l ih =>
    obtain ⟨k, b⟩ := e
    have hk : k = b.Code := h (k, b) (by simp)
    have ih' := ih (fun e he => h e (List.mem_cons_of_mem _ he))
    by_cases hc : code = k
    · subst hc
      simp [List.lookup, ← hk]
    · have hne : (code == k) = false := by simpa using hc
      simp only [List.lookup, hne, List.mem_cons, exists_eq_or_imp, ih']
      constructor
      · intro hx
        exact Or.inr hx
      · rintro (hx | hx)
        · exact absurd (hk.trans hx).symm hc
        · exact hx

theorem banks_key_eq_code : ∀ e ∈ Banks, e.1 = e.2.Code := by
  decide

theorem ribRegex_iff (l : List Char) :
    ribRegex.matchList l = true ↔ l.length = 20 ∧ AllDigits l := by
  simp only [ribRegex, reDigit, Regex.matchList_rep_cls_iff, AllDigits]

theorem validateRIB_iff (s : String) :
    ValidateRIB s = true ↔
      s.length = 20 ∧ AllDigits s.data ∧
        ∃ e ∈ Banks, e.2.Code = String.mk (s.data.take 2) := by
  unfold ValidateRIB
  by_cases he : s = ""
  · subst he
    simp
  · rw [if_neg he]
    by_cases hm : ribRegex.MatchString s = true
    · have hm' := (ribRegex_iff s.data).1 hm
      simp only [hm, Bool.not_true, Bool.false_eq_true, if_false, BanksLookup, sliceTo,
        lookup_isSome_iff Banks banks_key_eq_code, String.length]
      constructor
      · intro h
        exact ⟨hm'.1, hm'.2, h⟩
      · rintro ⟨-, -, h⟩
        exact h
    · have hm' : ¬ (s.data.length = 20 ∧ AllDigits s.data) :=
        fun h => hm ((ribRegex_iff s.data).2 h)
      simp only [hm, Bool.not_false, if_true, String.length]
      constructor
      · intro h
        exact absurd h (by simp)
      · rintro ⟨h1, h2, -⟩
        exact absurd ⟨h1, h2⟩ hm'

theorem taxIDRegex_iff (l : List Char) : taxIDRegex.matchList l = true ↔ TaxShape l := by
  unfold taxIDRegex TaxShape
  simp only [Regex.cat, reDigit, Regex.lit]
  rw [Regex.matchList_seq_iff]
  constructor
  · rintro ⟨num, v0, rfl, hnum, hv0⟩
    obtain ⟨t1, v1, rfl, h1, hv1⟩ := (matchList_seq_cls_iff _ _ _).1 hv0
    obtain ⟨s1, v2, rfl, hs1, hv2⟩ := (matchList_seq_cls_iff _ _ _).1 hv1
    obtain ⟨t2, v3, rfl, h2, hv3⟩ := (matchList_seq_cls_iff _ _ _).1 hv2
    obtain ⟨s2, v4, rfl, hs2, hv4⟩ := (matchList_seq_cls_iff _ _ _).1 hv3
    obtain ⟨t3, v5, rfl, h3, hv5⟩ := (matchList_seq_cls_iff _ _ _).1 hv4
    obtain ⟨s3, v6, rfl, hs3, hv6⟩ := (matchList_seq_cls_iff _ _ _).1 hv5
    rw [Regex.matchList_seq_eps_right, Regex.matchList_rep_cls_iff] at hv6
    rw [Regex.matchList_rep_cls_iff] at hnum
    simp only [beq_iff_eq] at hs1 hs2 hs3
    subst hs1 hs2 hs3
    exact ⟨num, t1, t2, t3, v6, rfl, hnum.1, hnum.2, h1, h2, h3, hv6.1, hv6.2⟩
  · rintro ⟨num, t1, t2, t3, sq, rfl, hl, hd, h1, h2, h3, hl', hd'⟩
    refine ⟨num, _, rfl, (Regex.matchList_rep_cls_iff _ _ _).2 ⟨hl, hd⟩, ?_⟩
    refine (matchList_seq_cls_iff _ _ _).2 ⟨t1, _, rfl, h1, ?_⟩
    refine (matchList_seq_cls_iff _ _ _).2 ⟨'/', _, rfl, by simp, ?_⟩
    refine (matchList_seq_cls_iff _ _ _).2 ⟨t2, _, rfl, h2, ?_⟩
    refine (matchList_seq_cls_iff _ _ _).2 ⟨'/', _, rfl, by simp, ?_⟩
    refine (matchList_seq_cls_iff _ _ _).2 ⟨t3, _, rfl, h3, ?_⟩
    refine (matchList_seq_cls_iff _ _ _).2 ⟨'/', _, rfl, by simp, ?_⟩
    rw [Regex.matchList_seq_eps_right, Regex.matchList_rep_cls_iff]
    exact ⟨hl', hd'⟩

theorem taxShape_length (l : List Char) (h : TaxShape l) : l.length = 16 := by
  obtain ⟨num, t1, t2, t3, sq, rfl, hl, -, -, -, -, hl', -⟩ := h
  simp [hl, hl']

theorem validateTaxID_iff (s : String) : ValidateTaxID s = true ↔ TaxShape s.data := by
  unfold ValidateTaxID
  by_cases he : s = ""
  · subst he
    simp only [if_true]
    constructor
    · intro h
      exact absurd h (by simp)
    · intro h
      exact absurd (taxShape_length _ h) (by decide)
  · rw [if_neg he]
    exact taxIDRegex_iff s.data

theorem postalCodeRegex_iff (l : List Char) :
    postalCodeRegex.matchList l = true ↔ l.length = 4 ∧ AllDigits l := by
  simp only [postalCodeRegex, reDigit, Regex.matchList_rep_cls_iff, AllDigits]

/-! ### Car plates -/

theorem standardCarPlateRegex_iff (l : List Char) :
    standardCarPlateRegex.matchList l = true ↔ StandardPlateShape ReSpaces l := by
  unfold standardCarPlateRegex StandardPlateShape ReSpaces
  simp only [Regex.cat, reDigit, reSpaces]
  rw [Regex.matchList_seq_iff]
  constructor
  · rintro ⟨d3, v0, rfl, h3, hv0⟩
    obtain ⟨w1, v1, rfl, hw1, hv1⟩ := (Regex.matchList_seq_iff _ _ _).1 hv0
    obtain ⟨t, v2, rfl, ht, hv2⟩ := (Regex.matchList_seq_iff _ _ _).1 hv1
    obtain ⟨w2, v3, rfl, hw2, hv3⟩ := (Regex.matchList_seq_iff _ _ _).1 hv2
    rw [Regex.matchList_seq_eps_right, Regex.matchList_rep_cls_iff] at hv3
    rw [Regex.matchList_str_iff] at ht
    rw [Regex.matchList_star_cls_iff] at hw1 hw2
    rw [Regex.matchList_rep_cls_iff] at h3
    subst ht
    exact ⟨d3, w1, w2, v3, rfl, h3.1, h3.2, hw1, hw2, hv3.1, hv3.2⟩
  · rintro ⟨d3, g1, g2, d4, rfl, hl, hd, hg1, hg2, hl', hd'⟩
    refine ⟨d3, _, rfl, (Regex.matchList_rep_cls_iff _ _ _).2 ⟨hl, hd⟩, ?_⟩
    refine (Regex.matchList_seq_iff _ _ _).2
      ⟨g1, _, rfl, (Regex.matchList_star_cls_iff _ _).2 hg1, ?_⟩
    refine (Regex.matchList_seq_iff _ _ _).2
      ⟨tounes.data, _, rfl, (Regex.matchList_str_iff _ _).2 rfl, ?_⟩
    refine (Regex.matchList_seq_iff _ _ _).2
      ⟨g2, _, rfl, (Regex.matchList_star_cls_iff _ _).2 hg2, ?_⟩
    rw [Regex.matchList_seq_eps_right, Regex.matchList_rep_cls_iff]
    exact ⟨hl', hd'⟩

theorem strictStandardCarPlateRegex_iff (l : List Char) :
    strictStandardCarPlateRegex.matchList l = true ↔ StandardPlateShape OneSpace l := by
  unfold strictStandardCarPlateRegex StandardPlateShape OneSpace
  simp only [Regex.cat, reDigit]
  rw [Regex.matchList_seq_iff]
  constructor
  · rintro ⟨d3, v0, rfl, h3, hv0⟩
    obtain ⟨w1, v1, rfl, hw1, hv1⟩ := (Regex.matchList_seq_iff _ _ _).1 hv0
    obtain ⟨t, v2, rfl, ht, hv2⟩ := (Regex.matchList_seq_iff _ _ _).1 hv1
    obtain ⟨w2, v3, rfl, hw2, hv3⟩ := (Regex.matchList_seq_iff _ _ _).1 hv2
    rw [Regex.matchList_seq_eps_right, Regex.matchList_rep_cls_iff] at hv3
    rw [Regex.matchList_str_iff] at ht
    rw [Regex.matchList_lit_iff] at hw1 hw2
    rw [Regex.matchList_rep_cls_iff] at h3
    subst ht
    exact ⟨d3, w1, w2, v3, rfl, h3.1, h3.2, hw1, hw2, hv3.1, hv3.2⟩
  · rintro ⟨d3, g1, g2, d4, rfl, hl, hd, hg1, hg2, hl', hd'⟩
    refine ⟨d3, _, rfl, (Regex.matchList_rep_cls_iff _ _ _).2 ⟨hl, hd⟩, ?_⟩
    refine (Regex.matchList_seq_iff _ _ _).2
      ⟨g1, _, rfl, (Regex.matchList_lit_iff _ _).2 hg1, ?_⟩
    refine (Regex.matchList_seq_iff _ _ _).2
      ⟨tounes.data, _, rfl, (Regex.matchList_str_iff _ _).2 rfl, ?_⟩
    refine (Regex.matchList_seq_iff _ _ _).2
      ⟨g2, _, rfl, (Regex.matchList_lit_iff _ _).2 hg2, ?_⟩
    rw [Regex.matchList_seq_eps_right, Regex.matchList_rep_cls_iff]
    exact ⟨hl', hd'⟩

theorem specialCarPlateRegex_iff (l : List Char) :
    specialCarPlateRegex.matchList l = true ↔ SpecialPlateShape ReSpaces l := by
  unfold specialCarPlateRegex SpecialPlateShape ReSpaces
  simp only [Regex.cat, reDigit, reSpaces]
  rw [Regex.matchList_seq_iff]
  constructor
  · rintro ⟨rs, v0, rfl, hrs, hv0⟩
    obtain ⟨w1, v1, rfl, hw1, hv1⟩ := (Regex.matchList_seq_iff _ _ _).1 hv0
    obtain ⟨d3, v2, rfl, h3, hv2⟩ := (Regex.matchList_seq_iff _ _ _).1 hv1
    obtain ⟨w2, v3, rfl, hw2, hv3⟩ := (Regex.matchList_seq_iff _ _ _).1 hv2
    rw [Regex.matchList_seq_eps_right, Regex.matchList_str_iff] at hv3
    rw [Regex.matchList_str_iff] at hrs
    rw [Regex.matchList_star_cls_iff] at hw1 hw2
    rw [Regex.matchList_rep_cls_iff] at h3
    subst hrs hv3
    exact ⟨w1, d3, w2, rfl, hw1, h3.1, h3.2, hw2⟩
  · rintro ⟨g1, d3, g2, rfl, hg1, hl, hd, hg2⟩
    refine ⟨"RS".data, _, rfl, (Regex.matchList_str_iff _ _).2 rfl, ?_⟩
    refine (Regex.matchList_seq_iff _ _ _).2
      ⟨g1, _, rfl, (Regex.matchList_star_cls_iff _ _).2 hg1, ?_⟩
    refine (Regex.matchList_seq_iff _ _ _).2
      ⟨d3, _, rfl, (Regex.matchList_rep_cls_iff _ _ _).2 ⟨hl, hd⟩, ?_⟩
    refine (Regex.matchList_seq_iff _ _ _).2
      ⟨g2, _, rfl, (Regex.matchList_star_cls_iff _ _).2 hg2, ?_⟩
    rw [Regex.matchList_seq_eps_right, Regex.matchList_str_iff]

theorem strictSpecialCarPlateRegex_iff (l : List Char) :
    strictSpecialCarPlateRegex.matchList l = true ↔ SpecialPlateShape OneSpace l := by
  unfold strictSpecialCarPlateRegex SpecialPlateShape OneSpace
  simp only [Regex.cat, reDigit]
  rw [Regex.matchList_seq_iff]
  constructor
  · rintro ⟨rs, v0, rfl, hrs, hv0⟩
    obtain ⟨d3, v1, rfl, h3, hv1⟩ := (Regex.matchList_seq_iff _ _ _).1 hv0
    obtain ⟨w2, v2, rfl, hw2, hv2⟩ := (Regex.matchList_seq_iff _ _ _).1 hv1
    rw [Regex.matchList_seq_eps_right, Regex.matchList_str_iff] at hv2
    rw [Regex.matchList_str_iff] at hrs
    rw [Regex.matchList_lit_iff] at hw2
    rw [Regex.matchList_rep_cls_iff] at h3
    subst hrs hv2 hw2
    exact ⟨[' '], d3, [' '], rfl, rfl, h3.1, h3.2, rfl⟩
  · rintro ⟨g1, d3, g2, rfl, hg1, hl, hd, hg2⟩
    subst hg1 hg2
    refine ⟨"RS ".data, _, rfl, (Regex.matchList_str_iff _ _).2 rfl, ?_⟩
    refine (Regex.matchList_seq_iff _ _ _).2
      ⟨d3, _, rfl, (Regex.matchList_rep_cls_iff _ _ _).2 ⟨hl, hd⟩, ?_⟩
    refine (Regex.matchList_seq_iff _ _ _).2
      ⟨[' '], _, rfl, (Regex.matchList_lit_iff _ _).2 rfl, ?_⟩
    rw [Regex.matchList_seq_eps_right, Regex.matchList_str_iff]

theorem replaceRuns_pos_true (p : Char → Bool) (repl : List Char) (c : Char)
    (s : List Char) (h : p c = true) :
    replaceRuns p repl true (c :: s) = replaceRuns p repl true s := by
  simp [replaceRuns, h]

theorem replaceRuns_pos_false (p : Char → Bool) (repl : List Char) (c : Char)
    (s : List Char) (h : p c = true) :
    replaceRuns p repl false (c :: s) = repl ++ replaceRuns p repl true s := by
  simp [replaceRuns, h]

theorem replaceRuns_neg (p : Char → Bool) (repl : List Char) (b : Bool) (c : Char)
    (s : List Char) (h : ¬ p c = true) :
    replaceRuns p repl b (c :: s) = c :: replaceRuns p repl false s := by
  simp [replaceRuns, h]

/-- What `ReplaceAllString` leaves behind for the pattern `C+` and a one-rune
replacement: no two neighbours are both in the class, and right after a consumed
match the output does not start with a code point of the class. -/
theorem replaceRuns_chain (p : Char → Bool) (r : Char) (l : List Char) :
    ∀ b : Bool,
      List.Chain' (fun x y => ¬ (p x = true ∧ p y = true)) (replaceRuns p [r] b l) ∧
        (b = true → ∀ c ∈ (replaceRuns p [r] b l).head?, p c = false) := by
  induction l with
  | nil =>
    intro b
    simp [replaceRuns]
  | cons c s ih =>
    intro b
    by_cases hc : p c = true
    · cases b with
      | true =>
        rw [replaceRuns_pos_true p [r] c s hc]
        exact ih true
      | false =>
        rw [replaceRuns_pos_false p [r] c s hc, List.singleton_append, List.chain'_cons']
        refine ⟨⟨?_, (ih true).1⟩, ?_⟩
        · intro y hy
          have hpy := (ih true).2 rfl y hy
          simp [hpy]
        · intro hb
          exact absurd hb (by simp)
    · rw [replaceRuns_neg p [r] b c s hc, List.chain'_cons']
      refine ⟨⟨?_, (ih false).1⟩, ?_⟩
      · intro y _
        simp [hc]
      · intro _ d hd
        rw [List.head?_cons, Option.mem_def, Option.some.injEq] at hd
        subst hd
        simpa using hc

theorem replaceRuns_mem (p : Char → Bool) (r : Char) (l : List Char) :
    ∀ (b : Bool) (c : Char), c ∈ replaceRuns p [r] b l → c = r ∨ p c = false := by
  induction l with
  | nil =>
    intro b c h
    simp [replaceRuns] at h
  | cons d s ih =>
    intro b c h
    by_cases hd : p d = true
    · cases b with
      | true =>
        rw [replaceRuns_pos_true p [r] d s hd] at h
        exact ih true c h
      | false =>
        rw [replaceRuns_pos_false p [r] d s hd, List.singleton_append, List.mem_cons] at h
        rcases h with h | h
        · exact Or.inl h
        · exact ih true c h
    · rw [replaceRuns_neg p [r] b d s hd, List.mem_cons] at h
      rcases h with h | h
      · right
        subst h
        simpa using hd
      · exact ih false c h

/-- In a normalised plate a run of `\s` code points is one space or nothing. -/
theorem gap_optionalSpace (b : Bool) (l x w y : List Char)
    (h : replaceRuns isReSpace [' '] b l = x ++ (w ++ y)) (hw : ReSpaces w) :
    OptionalSpace w := by
  have hchain := (replaceRuns_chain isReSpace ' ' l b).1
  have hinfix : w <:+: replaceRuns isReSpace [' '] b l := ⟨x, y, by rw [h]; simp⟩
  have hcw := hchain.infix hinfix
  have hsp : ∀ c ∈ w, c = ' ' := by
    intro c hc
    have hmem : c ∈ replaceRuns isReSpace [' '] b l := by
      rw [h]
      simp [hc]
    rcases replaceRuns_mem isReSpace ' ' l b c hmem with h1 | h1
    · exact h1
    · rw [hw c hc] at h1
      exact absurd h1 (by simp)
  rcases w with _ | ⟨a, _ | ⟨a', t⟩⟩
  · exact Or.inl rfl
  · right
    rw [hsp a (by simp)]
  · exfalso
    rw [List.chain'_cons] at hcw
    exact hcw.1 ⟨hw a (by simp), hw a' (by simp)⟩

theorem optionalSpace_reSpaces (g : List Char) (h : OptionalSpace g) : ReSpaces g := by
  rcases h with rfl | rfl
  · intro c hc
    simp at hc
  · intro c hc
    simp only [List.mem_singleton] at hc
    subst hc
    decide

theorem normalizePlate_data (p : String) (t : String) :
    (normalizePlate p ⟨t, false⟩).data =
      replaceRuns isReSpace [' '] false (TrimSpace p).data := rfl

/-- After normalisation the two non-strict patterns only ever see gaps of at most
one space. -/
theorem standardShape_normalized (b : Bool) (l : List Char) :
    StandardPlateShape ReSpaces (replaceRuns isReSpace [' '] b l) ↔
      StandardPlateShape OptionalSpace (replaceRuns isReSpace [' '] b l) := by
  constructor
  · rintro ⟨d3, g1, g2, d4, hN, hl, hd, hg1, hg2, hl', hd'⟩
    refine ⟨d3, g1, g2, d4, hN, hl, hd, ?_, ?_, hl', hd'⟩
    · exact gap_optionalSpace b l d3 g1 _ hN hg1
    · refine gap_optionalSpace b l (d3 ++ (g1 ++ tounes.data)) g2 d4 ?_ hg2
      rw [hN]
      simp
  · rintro ⟨d3, g1, g2, d4, hN, hl, hd, hg1, hg2, hl', hd'⟩
    exact ⟨d3, g1, g2, d4, hN, hl, hd, optionalSpace_reSpaces g1 hg1,
      optionalSpace_reSpaces g2 hg2, hl', hd'⟩

theorem specialShape_normalized (b : Bool) (l : List Char) :
    SpecialPlateShape ReSpaces (replaceRuns isReSpace [' '] b l) ↔
      SpecialPlateShape OptionalSpace (replaceRuns isReSpace [' '] b l) := by
  constructor
  · rintro ⟨g1, d3, g2, hN, hg1, hl, hd, hg2⟩
    refine ⟨g1, d3, g2, hN, ?_, hl, hd, ?_⟩
    · exact gap_optionalSpace b l "RS".data g1 _ hN hg1
    · refine gap_optionalSpace b l ("RS".data ++ (g1 ++ d3)) g2 tounes.data ?_ hg2
      rw [hN]
      simp
  · rintro ⟨g1, d3, g2, hN, hg1, hl, hd, hg2⟩
    exact ⟨g1, d3, g2, hN, optionalSpace_reSpaces g1 hg1, hl, hd,
      optionalSpace_reSpaces g2 hg2⟩

theorem standardShape_length (gap : List Char → Prop) (l : List Char)
    (h : StandardPlateShape gap l) : 11 ≤ l.length := by
  obtain ⟨d3, g1, g2, d4, rfl, hl, -, -, -, hl', -⟩ := h
  have ht : tounes.data.length = 4 := rfl
  simp only [List.length_append, hl, hl', ht]
  omega

theorem standardShape_whitespace_length (l : List Char)
    (h : StandardPlateShape Whitespace l) : 13 ≤ l.length := by
  obtain ⟨d3, g1, g2, d4, rfl, hl, -, hg1, hg2, hl', -⟩ := h
  have ht : tounes.data.length = 4 := rfl
  have h1 : 1 ≤ g1.length := List.length_pos.2 hg1.1
  have h2 : 1 ≤ g2.length := List.length_pos.2 hg2.1
  simp only [List.length_append, hl, hl', ht]
  omega

theorem specialShape_length (gap : List Char → Prop) (l : List Char)
    (h : SpecialPlateShape gap l) : 9 ≤ l.length := by
  obtain ⟨g1, d3, g2, rfl, -, hl, -, -⟩ := h
  have ht : tounes.data.length = 4 := rfl
  have hr : "RS".data.length = 2 := rfl
  simp only [List.length_append, hl, ht, hr]
  omega

theorem specialShape_whitespace_length (l : List Char)
    (h : SpecialPlateShape Whitespace l) : 11 ≤ l.length := by
  obtain ⟨g1, d3, g2, rfl, hg1, hl, -, hg2⟩ := h
  have ht : tounes.data.length = 4 := rfl
  have hr : "RS".data.length = 2 := rfl
  have h1 : 1 ≤ g1.length := List.length_pos.2 hg1.1
  have h2 : 1 ≤ g2.length := List.length_pos.2 hg2.1
  simp only [List.length_append, hl, ht, hr]
  omega

/-- The result of `ValidateCarPlate` in terms of the pattern that its `switch`
selects. -/
theorem validateCarPlate_cons (p : String) (opts : CarPlateValidationOptions)
    (rest : List CarPlateValidationOptions) :
    ValidateCarPlate p (opts :: rest) =
      if p = "" then false
      else if opts.Typ = "special" then
        if opts.Strict = true then strictSpecialCarPlateRegex.MatchString (normalizePlate p opts)
        else specialCarPlateRegex.MatchString (normalizePlate p opts)
      else if opts.Typ = "standard" ∨ opts.Typ = "" then
        if opts.Strict = true then
          strictStandardCarPlateRegex.MatchString (normalizePlate p opts)
        else standardCarPlateRegex.MatchString (normalizePlate p opts)
      else false := rfl

theorem normalizePlate_empty (opts : CarPlateValidationOptions) :
    (normalizePlate "" opts).data = [] := by
  rcases opts with ⟨t, b⟩
  cases b <;> rfl

/-- Non-strict validation of a standard plate. -/
theorem validateCarPlate_standard_iff (p : String) (t : String)
    (ht : t = "standard" ∨ t = "") :
    ValidateCarPlate p [⟨t, false⟩] = true ↔
      StandardPlateShape OptionalSpace (normalizePlate p ⟨t, false⟩).data := by
  have hns : t ≠ "special" := by
    rcases ht with rfl | rfl <;> decide
  rw [normalizePlate_data, ← standardShape_normalized, ← normalizePlate_data p t,
    ← standardCarPlateRegex_iff, validateCarPlate_cons]
  by_cases he : p = ""
  · subst he
    rw [if_pos rfl]
    constructor
    · intro h
      exact absurd h (by simp)
    · intro h
      have h11 := standardShape_length _ _ ((standardCarPlateRegex_iff _).1 h)
      rw [normalizePlate_empty] at h11
      exact absurd h11 (by decide)
  · rw [if_neg he]
    simp only [hns, if_false, ht, if_true, Bool.false_eq_true]
    rfl

/-- Non-strict validation of a special plate. -/
theorem validateCarPlate_special_iff (p : String) :
    ValidateCarPlate p [⟨"special", false⟩] = true ↔
      SpecialPlateShape OptionalSpace (normalizePlate p ⟨"special", false⟩).data := by
  rw [normalizePlate_data, ← specialShape_normalized, ← normalizePlate_data p "special",
    ← specialCarPlateRegex_iff, validateCarPlate_cons]
  by_cases he : p = ""
  · subst he
    rw [if_pos rfl]
    constructor
    · intro h
      exact absurd h (by simp)
    · intro h
      have h9 := specialShape_length _ _ ((specialCarPlateRegex_iff _).1 h)
      rw [normalizePlate_empty] at h9
      exact absurd h9 (by decide)
  · rw [if_neg he]
    simp only [if_true, Bool.false_eq_true, if_false]
    rfl

/-- Strict validation of a standard plate. -/
theorem validateCarPlate_strict_standard_iff (p : String) (t : String)
    (ht : t = "standard" ∨ t = "") :
    ValidateCarPlate p [⟨t, true⟩] = true ↔ StandardPlateShape OneSpace p.data := by
  have hns : t ≠ "special" := by
    rcases ht with rfl | rfl <;> decide
  rw [← strictStandardCarPlateRegex_iff, validateCarPlate_cons]
  by_cases he : p = ""
  · subst he
    rw [if_pos rfl]
    constructor
    · intro h
      exact absurd h (by simp)
    · intro h
      have h11 := standardShape_length _ _ ((strictStandardCarPlateRegex_iff _).1 h)
      exact absurd h11 (by decide)
  · rw [if_neg he]
    simp only [hns, if_false, ht, if_true]
    rfl

/-- Strict validation of a special plate. -/
theorem validateCarPlate_strict_special_iff (p : String) :
    ValidateCarPlate p [⟨"special", true⟩] = true ↔ SpecialPlateShape OneSpace p.data := by
  rw [← strictSpecialCarPlateRegex_iff, validateCarPlate_cons]
  by_cases he : p = ""
  · subst he
    rw [if_pos rfl]
    constructor
    · intro h
      exact absurd h (by simp)
    · intro h
      have h9 := specialShape_length _ _ ((strictSpecialCarPlateRegex_iff _).1 h)
      exact absurd h9 (by decide)
  · rw [if_neg he]
    simp only [if_true]
    rfl

/-! ### Lengths, detailed validators -/

theorem utf8Len_ascii (c : Char) (h : c.toNat < 128) : utf8Len c = 1 := by
  simp only [utf8Len]
  rw [if_pos h]

theorem isDigit_ascii (c : Char) (h : isDigit c = true) : c.toNat < 128 := by
  simp only [isDigit, Bool.and_eq_true, decide_eq_true_eq] at h
  omega

theorem sum_utf8Len_ascii (l : List Char) (h : ∀ c ∈ l, c.toNat < 128) :
    (l.map utf8Len).sum = l.length := by
  induction l with
  | nil => rfl
  | cons c t ih =>
    rw [List.map_cons, List.sum_cons, utf8Len_ascii c (h c (by simp)),
      ih (fun d hd => h d (List.mem_cons_of_mem c hd)), List.length_cons]
    omega

/-- On a string of digits `len` counts the digits. -/
theorem len_of_allDigits (s : String) (h : AllDigits s.data) : len s = s.data.length :=
  sum_utf8Len_ascii s.data (fun c hc => isDigit_ascii c (h c hc))

theorem cinRegex_iff (s : String) : cinRegex.MatchString s = true ↔ CinShape s := by
  simp only [Regex.MatchString, cinRegex, Regex.cat, reDigit, CinShape, String.length]
  rw [matchList_seq_cls_iff]
  constructor
  · rintro ⟨c, t, hs, hc, ht⟩
    rw [Regex.matchList_seq_eps_right] at ht
    obtain ⟨hl, hall⟩ := (Regex.matchList_rep_cls_iff _ _ _).1 ht
    rw [hs]
    refine ⟨by simp [hl], ?_, ?_⟩
    · intro d hd
      rcases List.mem_cons.1 hd with rfl | hd
      · rcases (isZeroOne_iff d).1 hc with rfl | rfl <;> decide
      · exact hall d hd
    · simpa using (isZeroOne_iff c).1 hc
  · rintro ⟨hl, hall, hh⟩
    cases hd : s.data with
    | nil => rw [hd] at hl; simp at hl
    | cons c t =>
      rw [hd] at hl hall hh
      refine ⟨c, t, rfl, (isZeroOne_iff c).2 (by simpa using hh), ?_⟩
      rw [Regex.matchList_seq_eps_right]
      exact (Regex.matchList_rep_cls_iff _ _ _).2
        ⟨by simpa using hl, fun d hd => hall d (List.mem_cons_of_mem c hd)⟩

theorem cinShape_len (s : String) (h : CinShape s) : len s = 8 := by
  rw [len_of_allDigits s h.2.1]
  exact h.1

/-- The detailed CIN validator, case by case. -/
theorem validateCINWithDetails_eq (s : String) :
    ValidateCINWithDetails s =
      if s = "" then (false, "CIN cannot be empty")
      else if len s ≠ 8 then (false, "CIN must be exactly 8 digits")
      else if ¬ CinShape s then
        (false, "CIN must start with 0 or 1 and contain only digits")
      else (true, "") := by
  unfold ValidateCINWithDetails
  by_cases he : s = ""
  · rw [if_pos he, if_pos he]
  · rw [if_neg he, if_neg he]
    by_cases hl : len s ≠ 8
    · rw [if_pos hl, if_pos hl]
    · rw [if_neg hl, if_neg hl]
      by_cases hm : cinRegex.MatchString s = true
      · have hsh := (cinRegex_iff s).1 hm
        simp [hm, hsh]
      · have hsh : ¬ CinShape s := fun h => hm ((cinRegex_iff s).2 h)
        simp [hm, hsh]

theorem validateCIN_eq (s : String) : ValidateCIN s = decide (CinShape s) := by
  unfold ValidateCIN
  by_cases he : s = ""
  · subst he
    rfl
  · rw [if_neg he]
    by_cases hm : cinRegex.MatchString s = true
    · have hsh := (cinRegex_iff s).1 hm
      simp [hm, hsh]
    · have hsh : ¬ CinShape s := fun h => hm ((cinRegex_iff s).2 h)
      simp [hm, hsh]

/-! ### Phone formatters -/

theorem validatePhone_default_iff (s : String) :
    ValidatePhoneNumber s [] = true ↔
      (phoneDigits s).length = 8 ∧ AllDigits (phoneDigits s) ∧
        StartsWithCarrierDigit (phoneDigits s) := by
  have key := phone_checks_iff (ReplaceAllClass isNonDigit (TrimPrefix s "+216") "")
  rw [replaceAllClass_nonDigit, trimPrefix_filter_digits] at key
  rw [← key]
  by_cases he : s = ""
  · subst he
    simp only [ValidatePhoneNumber, if_true]
    constructor
    · intro h
      exact absurd h (by simp)
    · rintro ⟨h, -⟩
      exact absurd h (by decide)
  · simp only [ValidatePhoneNumber, if_neg he, List.headD, PhoneNumberValidationOptions.zero,
      Bool.false_and, Bool.not_false, if_true]
    by_cases hm : phoneRegex.MatchString
        (ReplaceAllClass isNonDigit (TrimPrefix s "+216") "") = true
    · simp [hm]
    · simp [hm]

theorem trimPrefix_data (s : String) : (TrimPrefix s "+216").data = afterCountryCode s := by
  unfold TrimPrefix afterCountryCode
  by_cases h : "+216".data <+: s.data
  · rw [if_pos (List.isPrefixOf_iff_prefix.2 h), if_pos h]
    rfl
  · rw [if_neg (fun h' => h (List.isPrefixOf_iff_prefix.1 h')), if_neg h]

theorem phoneDigits_eq (s : String) : phoneDigits s = (afterCountryCode s).filter isDigit := by
  rw [← trimPrefix_data, trimPrefix_filter_digits]

theorem replaceAllClass_keep (t : String) :
    (ReplaceAllClass isNotDigitOrPlus t "").data =
      t.data.filter (fun c => isDigit c || c == '+') := by
  unfold ReplaceAllClass
  show List.flatMap t.data _ = _
  induction t.data with
  | nil => rfl
  | cons c l ih =>
    rw [List.flatMap_cons, ih]
    by_cases hc : (isDigit c || c == '+') = true
    · simp [isNotDigitOrPlus, hc]
    · simp [isNotDigitOrPlus, hc]

theorem filter_keep_of_no_plus (l : List Char) (h : '+' ∉ l) :
    l.filter (fun c => isDigit c || c == '+') = l.filter isDigit := by
  apply List.filter_congr
  intro c hc
  have hne : c ≠ '+' := fun e => h (e ▸ hc)
  simp [hne]

theorem filter_digits_head (l : List Char) :
    ∀ c ∈ (l.filter isDigit).head?, isDigit c = true := by
  intro c hc
  have hmem : c ∈ l.filter isDigit := List.mem_of_mem_head? hc
  exact (List.mem_filter.1 hmem).2

/-- When the only `+` of the input is that of a leading `+216`, the cleaning steps of
the formatters leave the digits that the validator looks at. -/
theorem cleanPhoneNumber_of_no_plus (p : String) (h : '+' ∉ afterCountryCode p) :
    cleanPhoneNumber p = String.mk (phoneDigits p) := by
  unfold cleanPhoneNumber
  by_cases hp : "+216".data <+: p.data
  · have hrest : afterCountryCode p = p.data.drop 4 := by
      unfold afterCountryCode
      rw [if_pos hp]
    obtain ⟨t, ht⟩ := hp
    have hdrop : p.data.drop 4 = t := by
      rw [← ht]
      rfl
    rw [hrest, hdrop] at h
    have hclean : ReplaceAllClass isNotDigitOrPlus p "" =
        String.mk ("+216".data ++ t.filter isDigit) := by
      rw [String.ext_iff, replaceAllClass_keep, ← ht, List.filter_append,
        filter_keep_of_no_plus t h]
      rfl
    rw [hclean, trimPrefix_append, phoneDigits_eq, hrest, hdrop]
  · have hrest : afterCountryCode p = p.data := by
      unfold afterCountryCode
      rw [if_neg hp]
    rw [hrest] at h
    have hclean : ReplaceAllClass isNotDigitOrPlus p "" = String.mk (p.data.filter isDigit) := by
      rw [String.ext_iff, replaceAllClass_keep, filter_keep_of_no_plus p.data h]
    rw [hclean, trimPrefix_of_digit_head _ (filter_digits_head p.data), phoneDigits_eq, hrest]

theorem len_clean_of_valid (p : String) (hv : ValidatePhoneNumber p [] = true)
    (h : '+' ∉ afterCountryCode p) : len (cleanPhoneNumber p) = 8 := by
  obtain ⟨hl, hd, -⟩ := (validatePhone_default_iff p).1 hv
  have hlen : len (String.mk (phoneDigits p)) = (phoneDigits p).length :=
    len_of_allDigits (String.mk (phoneDigits p)) hd
  rw [cleanPhoneNumber_of_no_plus p h, hlen]
  exact hl

theorem eight_digits (l : List Char) (h : l.length = 8) :
    ∃ d1 d2 d3 d4 d5 d6 d7 d8 : Char, l = [d1, d2, d3, d4, d5, d6, d7, d8] := by
  rcases l with _ | ⟨d1, _ | ⟨d2, _ | ⟨d3, _ | ⟨d4, _ | ⟨d5, _ | ⟨d6, _ | ⟨d7, _ |
    ⟨d8, _ | ⟨d9, t⟩⟩⟩⟩⟩⟩⟩⟩⟩ <;> simp at h
  exact ⟨d1, d2, d3, d4, d5, d6, d7, d8, rfl⟩

/-- The international format of a valid number whose only `+` is that of a leading
`+216`. -/
theorem formatPhoneNumber_of_no_plus (p : String) (hv : ValidatePhoneNumber p [] = true)
    (h : '+' ∉ afterCountryCode p) :
    ∃ d1 d2 d3 d4 d5 d6 d7 d8 : Char,
      phoneDigits p = [d1, d2, d3, d4, d5, d6, d7, d8] ∧
      FormatPhoneNumber p = (international d1 d2 d3 d4 d5 d6 d7 d8, none) := by
  obtain ⟨hl, -, -⟩ := (validatePhone_default_iff p).1 hv
  obtain ⟨d1, d2, d3, d4, d5, d6, d7, d8, hd⟩ := eight_digits _ hl
  refine ⟨d1, d2, d3, d4, d5, d6, d7, d8, hd, ?_⟩
  have hlen := len_clean_of_valid p hv h
  have hc := cleanPhoneNumber_of_no_plus p h
  rw [hd] at hc
  unfold FormatPhoneNumber
  simp only [hv, hlen, Bool.not_true, Bool.false_eq_true, if_false, ne_eq, not_true_eq_false]
  rw [hc]
  rfl

/-- The normal form of a valid number whose only `+` is that of a leading `+216`. -/
theorem normalizePhoneNumber_of_no_plus (p : String) (hv : ValidatePhoneNumber p [] = true)
    (h : '+' ∉ afterCountryCode p) :
    NormalizePhoneNumber p = (String.mk (phoneDigits p), none) := by
  have hlen := len_clean_of_valid p hv h
  have hc := cleanPhoneNumber_of_no_plus p h
  unfold NormalizePhoneNumber
  simp only [hv, hlen, Bool.not_true, Bool.false_eq_true, if_false, ne_eq, not_true_eq_false]
  rw [hc]

theorem afterCountryCode_append (x : List Char) :
    afterCountryCode (String.mk ("+216".data ++ x)) = x := by
  unfold afterCountryCode
  rw [if_pos (List.prefix_append _ _)]
  rfl

theorem afterCountryCode_of_digit_head (s : String)
    (h : ∀ c ∈ s.data.head?, isDigit c = true) : afterCountryCode s = s.data := by
  rw [← trimPrefix_data, trimPrefix_of_digit_head s h]

theorem not_plus_of_isDigit (c : Char) (h : isDigit c = true) : c ≠ '+' := by
  rintro rfl
  exact absurd h (by decide)

theorem not_space_of_isDigit (c : Char) (h : isDigit c = true) : c ≠ ' ' := by
  rintro rfl
  exact absurd h (by decide)

/-- Validation, international format and normal form of an input, from what is left
of it after the country code. -/
theorem phone_of_rest (p : String) (r : List Char) (d1 d2 d3 d4 d5 d6 d7 d8 : Char)
    (hr : afterCountryCode p = r)
    (hf : r.filter isDigit = [d1, d2, d3, d4, d5, d6, d7, d8])
    (hplus : '+' ∉ r) (hs : StartsWithCarrierDigit [d1, d2, d3, d4, d5, d6, d7, d8]) :
    ValidatePhoneNumber p [] = true ∧
    FormatPhoneNumber p = (international d1 d2 d3 d4 d5 d6 d7 d8, none) ∧
    NormalizePhoneNumber p = (String.mk [d1, d2, d3, d4, d5, d6, d7, d8], none) := by
  have hpd : phoneDigits p = [d1, d2, d3, d4, d5, d6, d7, d8] := by
    rw [phoneDigits_eq, hr, hf]
  have hall : AllDigits (phoneDigits p) := by
    intro c hc
    rw [phoneDigits_eq] at hc
    exact (List.mem_filter.1 hc).2
  have hv : ValidatePhoneNumber p [] = true := by
    rw [validatePhone_default_iff]
    refine ⟨?_, hall, ?_⟩
    · rw [hpd]
      rfl
    · rw [hpd]
      exact hs
  have hplus' : '+' ∉ afterCountryCode p := by
    rw [hr]
    exact hplus
  refine ⟨hv, ?_, ?_⟩
  · obtain ⟨e1, e2, e3, e4, e5, e6, e7, e8, he, hfmt⟩ :=
      formatPhoneNumber_of_no_plus p hv hplus'
    rw [hpd] at he
    simp only [List.cons.injEq, and_true] at he
    obtain ⟨rfl, rfl, rfl, rfl, rfl, rfl, rfl, rfl⟩ := he
    exact hfmt
  · rw [normalizePhoneNumber_of_no_plus p hv hplus', hpd]

/-! ### Enrichers -/

theorem lookup_mem (l : List (String × Bank)) (k : String) (b : Bank)
    (h : l.lookup k = some b) : (k, b) ∈ l := by
  induction l with
  | nil => simp at h
  | cons e l ih =>
    obtain ⟨k', b'⟩ := e
    by_cases hk : k = k'
    · subst hk
      simp only [List.lookup, beq_self_eq_true, Option.some.injEq] at h
      subst h
      simp
    · have hne : (k == k') = false := by simpa using hk
      simp only [List.lookup, hne] at h
      exact List.mem_cons_of_mem _ (ih h)

theorem validateRIB_lookup (r : String) (h : ValidateRIB r = true) :
    (BanksLookup (sliceTo r 2)).isSome = true := by
  unfold ValidateRIB at h
  by_cases he : r = ""
  · rw [if_pos he] at h
    exact absurd h (by simp)
  · rw [if_neg he] at h
    by_cases hm : ribRegex.MatchString r = true
    · simpa [hm] using h
    · simp [hm] at h

/-- The result of `GetBankFromRIB`, from the result of the validator. -/
theorem getBankFromRIB_eq (r : String) :
    GetBankFromRIB r =
      if ValidateRIB r = true then
        (BanksLookup (sliceTo r 2)).map (fun bank => ⟨bank, sliceTo r 2⟩)
      else none := by
  unfold GetBankFromRIB
  by_cases hv : ValidateRIB r = true
  · simp only [hv, Bool.not_true, Bool.false_eq_true, if_false, if_true]
    cases BanksLookup (sliceTo r 2) <;> rfl
  · simp [hv]

theorem validatePhone_head (p : String) (options : List PhoneNumberValidationOptions) :
    ValidatePhoneNumber p options =
      ValidatePhoneNumber p [options.headD PhoneNumberValidationOptions.zero] := by
  cases options <;> rfl

/-- What validation tells about the normalised number: it is the list of digits
`phoneDigits`, of length 8 and starting with a carrier digit. -/
theorem valid_normalized (p : String) (opts : PhoneNumberValidationOptions)
    (hv : ValidatePhoneNumber p [opts] = true) :
    (if (!opts.Strict) = true then ReplaceAllClass isNonDigit (TrimPrefix p "+216") ""
      else TrimPrefix p "+216").data = phoneDigits p ∧
    (phoneDigits p).length = 8 ∧ AllDigits (phoneDigits p) ∧
    StartsWithCarrierDigit (phoneDigits p) := by
  obtain ⟨b⟩ := opts
  cases b with
  | false =>
    have hv' : ValidatePhoneNumber p [] = true := hv
    refine ⟨?_, (validatePhone_default_iff p).1 hv'⟩
    simp only [Bool.not_false, if_true]
    rw [replaceAllClass_nonDigit, trimPrefix_filter_digits]
  | true =>
    obtain ⟨-, -, hl, hd, hs⟩ := (validatePhone_strict_steps p).1 hv
    have hpd : phoneDigits p = (TrimPrefix p "+216").data := by
      rw [← trimPrefix_filter_digits]
      exact List.filter_eq_self.2 hd
    simp only [Bool.not_true, Bool.false_eq_true, if_false]
    rw [hpd]
    exact ⟨rfl, hl, hd, hs⟩

theorem byteString0_of_digit_head (n : String) (c : Char) (hh : n.data.head? = some c)
    (hc : isDigit c = true) : byteString0 n = some (String.mk [c]) := by
  obtain ⟨l⟩ := n
  cases l with
  | nil => simp at hh
  | cons a t =>
    simp only [List.head?_cons, Option.some.injEq] at hh
    subst hh
    exact byteString0_ascii a t (isDigit_ascii a hc)

/-- The loop over the carriers finds the one carrier that lists the prefix. -/
theorem scanCarriers_unique (pfx : String) (target : Carrier) (visited : List Carrier)
    (hmem : target ∈ visited)
    (hpre : target.Prefixes.any (fun carrierPrefix => pfx == carrierPrefix) = true)
    (huniq : ∀ c ∈ visited,
      c.Prefixes.any (fun carrierPrefix => pfx == carrierPrefix) = true → c = target) :
    scanCarriers pfx visited = some ⟨target, pfx⟩ := by
  induction visited with
  | nil => simp at hmem
  | cons c rest ih =>
    unfold scanCarriers
    by_cases hc : c.Prefixes.any (fun carrierPrefix => pfx == carrierPrefix) = true
    · rw [if_pos hc, huniq c (by simp) hc]
    · rw [if_neg hc]
      have hne : target ≠ c := fun e => hc (e ▸ hpre)
      have hmem' : target ∈ rest := by
        rcases List.mem_cons.1 hmem with h | h
        · exact absurd h hne
        · exact h
      exact ih hmem' (fun d hd => huniq d (List.mem_cons_of_mem c hd))

/-- In whatever order the three carriers are visited, the loop returns the carrier of
the digit. -/
theorem scanCarriers_digit (visited : List Carrier)
    (hperm : visited.Perm (Carriers.map Prod.snd)) (c : Char)
    (hc : c = '2' ∨ c = '4' ∨ c = '5' ∨ c = '9') :
    ∃ carrier, scanCarriers (String.mk [c]) visited = some ⟨carrier, String.mk [c]⟩ ∧
      (((c = '2' ∨ c = '5') ∧ carrier = ⟨"Ooredoo Tunisia", ["2", "5"]⟩) ∨
        (c = '4' ∧ carrier = ⟨"Orange Tunisia", ["4"]⟩) ∨
        (c = '9' ∧ carrier = ⟨"Tunisie Telecom", ["9"]⟩)) := by
  have hmem : ∀ x : Carrier, x ∈ visited ↔ x ∈ Carriers.map Prod.snd :=
    fun x => hperm.mem_iff
  rcases hc with rfl | rfl | rfl | rfl
  · refine ⟨⟨"Ooredoo Tunisia", ["2", "5"]⟩, ?_, Or.inl ⟨Or.inl rfl, rfl⟩⟩
    refine scanCarriers_unique _ _ visited ((hmem _).2 (by decide)) (by decide) ?_
    intro x hx
    exact (by decide : ∀ y ∈ Carriers.map Prod.snd,
      y.Prefixes.any (fun carrierPrefix => String.mk ['2'] == carrierPrefix) = true →
        y = ⟨"Ooredoo Tunisia", ["2", "5"]⟩) x ((hmem x).1 hx)
  · refine ⟨⟨"Orange Tunisia", ["4"]⟩, ?_, Or.inr (Or.inl ⟨rfl, rfl⟩)⟩
    refine scanCarriers_unique _ _ visited ((hmem _).2 (by decide)) (by decide) ?_
    intro x hx
    exact (by decide : ∀ y ∈ Carriers.map Prod.snd,
      y.Prefixes.any (fun carrierPrefix => String.mk ['4'] == carrierPrefix) = true →
        y = ⟨"Orange Tunisia", ["4"]⟩) x ((hmem x).1 hx)
  · refine ⟨⟨"Ooredoo Tunisia", ["2", "5"]⟩, ?_, Or.inl ⟨Or.inr rfl, rfl⟩⟩
    refine scanCarriers_unique _ _ visited ((hmem _).2 (by decide)) (by decide) ?_
    intro x hx
    exact (by decide : ∀ y ∈ Carriers.map Prod.snd,
      y.Prefixes.any (fun carrierPrefix => String.mk ['5'] == carrierPrefix) = true →
        y = ⟨"Ooredoo Tunisia", ["2", "5"]⟩) x ((hmem x).1 hx)
  · refine ⟨⟨"Tunisie Telecom", ["9"]⟩, ?_, Or.inr (Or.inr ⟨rfl, rfl⟩)⟩
    refine scanCarriers_unique _ _ visited ((hmem _).2 (by decide)) (by decide) ?_
    intro x hx
    exact (by decide : ∀ y ∈ Carriers.map Prod.snd,
      y.Prefixes.any (fun carrierPrefix => String.mk ['9'] == carrierPrefix) = true →
        y = ⟨"Tunisie Telecom", ["9"]⟩) x ((hmem x).1 hx)

/-- The result of `GetCarrierInfo` on a number that validates. -/
theorem getCarrierInfo_of_valid (visited : List Carrier)
    (hperm : visited.Perm (Carriers.map Prod.snd)) (p : String)
    (options : List PhoneNumberValidationOptions)
    (hv : ValidatePhoneNumber p options = true) :
    ∃ c carrier, (phoneDigits p).head? = some c ∧
      GetCarrierInfoOver visited p options = some ⟨carrier, String.mk [c]⟩ ∧
      (((c = '2' ∨ c = '5') ∧ carrier = ⟨"Ooredoo Tunisia", ["2", "5"]⟩) ∨
        (c = '4' ∧ carrier = ⟨"Orange Tunisia", ["4"]⟩) ∨
        (c = '9' ∧ carrier = ⟨"Tunisie Telecom", ["9"]⟩)) := by
  rw [validatePhone_head] at hv
  obtain ⟨hN, hl, hd, hs⟩ := valid_normalized p _ hv
  have hc : ∃ c, (phoneDigits p).head? = some c ∧
      (c = '2' ∨ c = '4' ∨ c = '5' ∨ c = '9') := by
    rcases hs with h | h | h | h
    · exact ⟨'2', h, Or.inl rfl⟩
    · exact ⟨'4', h, Or.inr (Or.inl rfl)⟩
    · exact ⟨'5', h, Or.inr (Or.inr (Or.inl rfl))⟩
    · exact ⟨'9', h, Or.inr (Or.inr (Or.inr rfl))⟩
  obtain ⟨c, hhead, hcases⟩ := hc
  obtain ⟨carrier, hscan, hcar⟩ := scanCarriers_digit visited hperm c hcases
  refine ⟨c, carrier, hhead, ?_, hcar⟩
  have hdig : isDigit c = true := hd c (List.mem_of_mem_head? hhead)
  have hb := byteString0_of_digit_head _ c (by rw [hN]; exact hhead) hdig
  unfold GetCarrierInfoOver
  simp only [hv, Bool.not_true, Bool.false_eq_true, if_false]
  rw [hb]
  exact hscan

theorem getCarrierInfo_of_invalid (visited : List Carrier) (p : String)
    (options : List PhoneNumberValidationOptions)
    (hv : ValidatePhoneNumber p options = false) :
    GetCarrierInfoOver visited p options = none := by
  rw [validatePhone_head] at hv
  unfold GetCarrierInfoOver
  simp only [hv, Bool.not_false, if_true]

/-! ### Index and slice bounds -/

theorem byteString0_of_match (n : String) (h : phoneRegex.MatchString n = true) :
    ∃ x, byteString0 n = some x := by
  obtain ⟨c, t, hn, -⟩ := (phoneRegex_iff n.data).1 h
  unfold byteString0
  rw [hn]
  exact ⟨_, rfl⟩

theorem byteString0_of_length (n : String) (h : n.data.length = 8) :
    ∃ x, byteString0 n = some x := by
  unfold byteString0
  cases hn : n.data with
  | nil => rw [hn] at h; simp at h
  | cons c t => exact ⟨_, rfl⟩

theorem checked_sliceTo (r : String) (h : 2 ≤ len r) :
    Checked.sliceTo r 2 = some (sliceTo r 2) := by
  unfold Checked.sliceTo
  rw [if_pos h]

theorem len_of_ribRegex (r : String) (h : ribRegex.MatchString r = true) : len r = 20 := by
  obtain ⟨hl, hd⟩ := (ribRegex_iff r.data).1 h
  rw [len_of_allDigits r hd]
  exact hl

theorem checked_validatePhoneNumber (s : String)
    (options : List PhoneNumberValidationOptions) :
    Checked.ValidatePhoneNumber s options = some (ValidatePhoneNumber s options) := by
  unfold Checked.ValidatePhoneNumber ValidatePhoneNumber
  by_cases he : s = ""
  · rw [if_pos he, if_pos he]
  · rw [if_neg he, if_neg he]
    simp only []
    generalize options.headD PhoneNumberValidationOptions.zero = opts
    by_cases hs : (opts.Strict && !strictPhoneRegex.MatchString s) = true
    · rw [if_pos hs, if_pos hs]
    · rw [if_neg hs, if_neg hs]
      generalize (if (!opts.Strict) = true then
        ReplaceAllClass isNonDigit (TrimPrefix s "+216") "" else TrimPrefix s "+216") = n
      by_cases hm : phoneRegex.MatchString n = true
      · obtain ⟨x, hx⟩ := byteString0_of_match n hm
        simp [hm, hx]
      · simp [hm]

theorem checked_validatePhoneNumberWithDetails (s : String)
    (options : List PhoneNumberValidationOptions) :
    Checked.ValidatePhoneNumberWithDetails s options =
      some (ValidatePhoneNumberWithDetails s options) := by
  unfold Checked.ValidatePhoneNumberWithDetails ValidatePhoneNumberWithDetails
  by_cases he : s = ""
  · rw [if_pos he, if_pos he]
  · rw [if_neg he, if_neg he]
    simp only []
    generalize options.headD PhoneNumberValidationOptions.zero = opts
    by_cases hs : (opts.Strict && !strictPhoneRegex.MatchString s) = true
    · rw [if_pos hs, if_pos hs]
    · rw [if_neg hs, if_neg hs]
      generalize (if (!opts.Strict) = true then
        ReplaceAllClass isNonDigit (TrimPrefix s "+216") "" else TrimPrefix s "+216") = n
      by_cases hl : len n ≠ 8
      · rw [if_pos hl, if_pos hl]
      · rw [if_neg hl, if_neg hl]
        by_cases hm : phoneRegex.MatchString n = true
        · obtain ⟨x, hx⟩ := byteString0_of_match n hm
          have hnm : ¬ (!phoneRegex.MatchString n) = true := by simp [hm]
          rw [if_neg hnm, if_neg hnm, hx]
          dsimp only [Option.some_bind, Option.bind]
          by_cases hp : ValidPrefixes.any (fun validPrefix => x == validPrefix) = true
          · rw [if_pos hp, if_pos hp]
          · rw [if_neg hp, if_neg hp]
        · simp [hm]

theorem checked_getCarrierInfoOver (visited : List Carrier) (s : String)
    (options : List PhoneNumberValidationOptions) :
    Checked.GetCarrierInfoOver visited s options =
      some (GetCarrierInfoOver visited s options) := by
  unfold Checked.GetCarrierInfoOver GetCarrierInfoOver
  simp only []
  rw [checked_validatePhoneNumber]
  generalize hopts : options.headD PhoneNumberValidationOptions.zero = opts
  cases hv : ValidatePhoneNumber s [opts] with
  | false => simp
  | true =>
    obtain ⟨hN, hl, -, -⟩ := valid_normalized s opts hv
    obtain ⟨x, hx⟩ := byteString0_of_length _ (by rw [hN]; exact hl)
    simp only [Option.some_bind, Bool.not_true, Bool.false_eq_true, if_false]
    rw [hx]
    rfl

theorem checked_validateRIB (r : String) :
    Checked.ValidateRIB r = some (ValidateRIB r) := by
  unfold Checked.ValidateRIB ValidateRIB
  by_cases he : r = ""
  · rw [if_pos he, if_pos he]
  · rw [if_neg he, if_neg he]
    by_cases hm : ribRegex.MatchString r = true
    · have h2 : 2 ≤ len r := by
        rw [len_of_ribRegex r hm]
        decide
      simp [hm, checked_sliceTo r h2]
    · simp [hm]

theorem checked_validateRIBWithDetails (r : String) :
    Checked.ValidateRIBWithDetails r = some (ValidateRIBWithDetails r) := by
  unfold Checked.ValidateRIBWithDetails ValidateRIBWithDetails
  by_cases he : r = ""
  · rw [if_pos he, if_pos he]
  · rw [if_neg he, if_neg he]
    by_cases hl : len r ≠ 20
    · rw [if_pos hl, if_pos hl]
    · rw [if_neg hl, if_neg hl]
      have h2 : 2 ≤ len r := by
        have : len r = 20 := not_not.1 hl
        omega
      by_cases hm : ribRegex.MatchString r = true
      · have hnm : ¬ (!ribRegex.MatchString r) = true := by simp [hm]
        rw [if_neg hnm, if_neg hnm, checked_sliceTo r h2]
        dsimp only [Option.some_bind, Option.bind]
        by_cases hb : (BanksLookup (sliceTo r 2)).isNone = true
        · rw [if_pos hb, if_pos hb]
        · rw [if_neg hb, if_neg hb]
      · simp [hm]

theorem checked_getBankFromRIB (r : String) :
    Checked.GetBankFromRIB r = some (GetBankFromRIB r) := by
  unfold Checked.GetBankFromRIB GetBankFromRIB
  rw [checked_validateRIB]
  cases hv : ValidateRIB r with
  | false => simp
  | true =>
    obtain ⟨hl, hd, -⟩ := (validateRIB_iff r).1 hv
    have h2 : 2 ≤ len r := by
      rw [len_of_allDigits r hd]
      have : r.data.length = 20 := hl
      omega
    simp only [Option.some_bind, Bool.not_true, Bool.false_eq_true, if_false,
      checked_sliceTo r h2]
    cases BanksLookup (sliceTo r 2) <;> rfl

theorem checked_getCarPlateInfo (s : String) (options : List CarPlateValidationOptions) :
    Checked.GetCarPlateInfo s options = some (GetCarPlateInfo s options) := by
  unfold Checked.GetCarPlateInfo GetCarPlateInfo
  simp only []
  generalize options.headD CarPlateValidationOptions.zero = opts
  by_cases hv : (!ValidateCarPlate s [opts]) = true
  · rw [if_pos hv, if_pos hv]
  · rw [if_neg hv, if_neg hv]
    generalize Fields (normalizePlate s opts) = parts
    by_cases hp : HasPrefix (normalizePlate s opts) "RS" = true
    · rw [if_pos hp, if_pos hp]
      rcases parts with _ | ⟨a, _ | ⟨b, _ | ⟨c, t⟩⟩⟩ <;> simp
    · rw [if_neg hp, if_neg hp]
      rcases parts with _ | ⟨a, _ | ⟨b, _ | ⟨c, t⟩⟩⟩ <;> simp

/-! ### Detailed validators against the plain ones -/

theorem allDigits_of_phoneRegex (n : String) (h : phoneRegex.MatchString n = true) :
    n.data.length = 8 ∧ AllDigits n.data := by
  obtain ⟨c, t, hn, hc, hl, hd⟩ := (phoneRegex_iff n.data).1 h
  rw [hn]
  refine ⟨by simp [hl], ?_⟩
  intro d hd'
  rcases List.mem_cons.1 hd' with rfl | hd'
  · exact isTwoNine_isDigit d hc
  · exact hd d hd'

theorem len_of_phoneRegex (n : String) (h : phoneRegex.MatchString n = true) : len n = 8 := by
  obtain ⟨hl, hd⟩ := allDigits_of_phoneRegex n h
  rw [len_of_allDigits n hd]
  exact hl

theorem len_of_postalCodeRegex (s : String) (h : postalCodeRegex.MatchString s = true) :
    len s = 4 := by
  obtain ⟨hl, hd⟩ := (postalCodeRegex_iff s.data).1 h
  rw [len_of_allDigits s hd]
  exact hl

theorem isUpper_ascii (c : Char) (h : isUpper c = true) : c.toNat < 128 := by
  simp only [isUpper, Bool.and_eq_true, decide_eq_true_eq] at h
  omega

theorem len_of_taxShape (s : String) (h : TaxShape s.data) : len s = 16 := by
  have hlen := taxShape_length s.data h
  obtain ⟨num, t1, t2, t3, sq, hs, -, hnum, h1, h2, h3, -, hsq⟩ := h
  have hascii : ∀ c ∈ s.data, c.toNat < 128 := by
    intro c hc
    rw [hs] at hc
    simp only [List.mem_append, List.mem_cons] at hc
    rcases hc with hc | rfl | rfl | rfl | rfl | rfl | rfl | hc
    · exact isDigit_ascii c (hnum c hc)
    · exact isUpper_ascii _ h1
    · decide
    · exact isUpper_ascii _ h2
    · decide
    · exact isUpper_ascii _ h3
    · decide
    · exact isDigit_ascii c (hsq c hc)
  unfold len
  rw [sum_utf8Len_ascii s.data hascii]
  exact hlen

/-- `ValidateTaxIDWithDetails` accepts nothing: what has the layout of a tax
identifier has 16 bytes, and the function asks for 15. -/
theorem validateTaxIDWithDetails_false (s : String) :
    (ValidateTaxIDWithDetails s).1 = false := by
  unfold ValidateTaxIDWithDetails
  by_cases he : s = ""
  · rw [if_pos he]
  · rw [if_neg he]
    by_cases hl : len s ≠ 15
    · rw [if_pos hl]
    · rw [if_neg hl]
      have hl' : len s = 15 := not_not.1 hl
      have hm : ¬ taxIDRegex.MatchString s = true := by
        intro h
        have h16 := len_of_taxShape s ((taxIDRegex_iff s.data).1 h)
        omega
      have hnm : (!taxIDRegex.MatchString s) = true := by simpa using hm
      rw [if_pos hnm]

theorem cinDetails_spec (s : String) :
    (ValidateCINWithDetails s).1 = ValidateCIN s ∧
    ((ValidateCINWithDetails s).2 = "" ↔ (ValidateCINWithDetails s).1 = true) := by
  rw [validateCINWithDetails_eq, validateCIN_eq]
  by_cases he : s = ""
  · subst he
    rw [if_pos rfl]
    exact ⟨by decide, by decide⟩
  · rw [if_neg he]
    by_cases hl : len s ≠ 8
    · have hsh : ¬ CinShape s := fun h => hl (cinShape_len s h)
      rw [if_pos hl]
      exact ⟨by simp [hsh], by decide⟩
    · rw [if_neg hl]
      by_cases hsh : CinShape s
      · rw [if_neg (not_not.2 hsh)]
        exact ⟨by simp [hsh], by decide⟩
      · rw [if_pos hsh]
        exact ⟨by simp [hsh], by decide⟩

theorem phoneDetails_spec (s : String) (options : List PhoneNumberValidationOptions) :
    (ValidatePhoneNumberWithDetails s options).1 = ValidatePhoneNumber s options ∧
    ((ValidatePhoneNumberWithDetails s options).2 = "" ↔
      (ValidatePhoneNumberWithDetails s options).1 = true) := by
  unfold ValidatePhoneNumberWithDetails ValidatePhoneNumber
  by_cases he : s = ""
  · rw [if_pos he, if_pos he]
    exact ⟨rfl, by decide⟩
  · rw [if_neg he, if_neg he]
    simp only []
    generalize options.headD PhoneNumberValidationOptions.zero = opts
    by_cases hs : (opts.Strict && !strictPhoneRegex.MatchString s) = true
    · rw [if_pos hs, if_pos hs]
      exact ⟨rfl, by decide⟩
    · rw [if_neg hs, if_neg hs]
      generalize (if (!opts.Strict) = true then
        ReplaceAllClass isNonDigit (TrimPrefix s "+216") "" else TrimPrefix s "+216") = n
      by_cases hl : len n ≠ 8
      · have hm : ¬ phoneRegex.MatchString n = true := fun h => hl (len_of_phoneRegex n h)
        have hnm : (!phoneRegex.MatchString n) = true := by simpa using hm
        rw [if_pos hl, if_pos hnm]
        exact ⟨rfl, by decide⟩
      · rw [if_neg hl]
        by_cases hm : (!phoneRegex.MatchString n) = true
        · rw [if_pos hm, if_pos hm]
          exact ⟨rfl, by decide⟩
        · rw [if_neg hm, if_neg hm]
          cases byteString0 n with
          | none => exact ⟨rfl, by decide⟩
          | some x =>
            dsimp only
            by_cases hp : ValidPrefixes.any (fun validPrefix => x == validPrefix) = true
            · rw [if_pos hp]
              exact ⟨hp.symm, by decide⟩
            · rw [if_neg hp]
              exact ⟨(Bool.eq_false_iff.2 hp).symm, by decide⟩

theorem ribDetails_spec (r : String) :
    (ValidateRIBWithDetails r).1 = ValidateRIB r ∧
    ((ValidateRIBWithDetails r).2 = "" ↔ (ValidateRIBWithDetails r).1 = true) := by
  unfold ValidateRIBWithDetails ValidateRIB
  by_cases he : r = ""
  · rw [if_pos he, if_pos he]
    exact ⟨rfl, by decide⟩
  · rw [if_neg he, if_neg he]
    by_cases hl : len r ≠ 20
    · have hm : ¬ ribRegex.MatchString r = true := fun h => hl (len_of_ribRegex r h)
      have hnm : (!ribRegex.MatchString r) = true := by simpa using hm
      rw [if_pos hl, if_pos hnm]
      exact ⟨rfl, by decide⟩
    · rw [if_neg hl]
      by_cases hm : (!ribRegex.MatchString r) = true
      · rw [if_pos hm, if_pos hm]
        exact ⟨rfl, by decide⟩
      · rw [if_neg hm, if_neg hm]
        dsimp only
        cases BanksLookup (sliceTo r 2) with
        | none => exact ⟨rfl, by decide⟩
        | some b => exact ⟨rfl, ⟨fun _ => rfl, fun _ => rfl⟩⟩

theorem postalDetails_spec (s : String) :
    (ValidatePostalCodeWithDetails s).1 = ValidatePostalCode s ∧
    ((ValidatePostalCodeWithDetails s).2 = "" ↔
      (ValidatePostalCodeWithDetails s).1 = true) := by
  unfold ValidatePostalCodeWithDetails ValidatePostalCode ValidatePostalCodeOver
  by_cases he : s = ""
  · rw [if_pos he, if_pos he]
    exact ⟨rfl, by decide⟩
  · rw [if_neg he, if_neg he]
    by_cases hl : len s ≠ 4
    · have hm : ¬ postalCodeRegex.MatchString s = true :=
        fun h => hl (len_of_postalCodeRegex s h)
      have hnm : (!postalCodeRegex.MatchString s) = true := by simpa using hm
      rw [if_pos hl, if_pos hnm]
      exact ⟨rfl, by decide⟩
    · rw [if_neg hl]
      by_cases hm : (!postalCodeRegex.MatchString s) = true
      · rw [if_pos hm, if_pos hm]
        exact ⟨rfl, by decide⟩
      · rw [if_neg hm, if_neg hm, ite_self]
        exact ⟨rfl, by decide⟩

theorem containsList_iff (sub l : List Char) : containsList sub l = true ↔ sub <:+: l := by
  induction l with
  | nil =>
    unfold containsList
    rw [List.isPrefixOf_iff_prefix, List.prefix_nil, List.infix_nil]
  | cons c t ih =>
    unfold containsList
    rw [Bool.or_eq_true, List.isPrefixOf_iff_prefix, ih, List.infix_cons_iff]

/-- A block without code points of the class that starts the output of the
replacement starts the input as well. -/
theorem replaceRuns_start (p : Char → Bool) (r : Char) (hr : p r = true) (l : List Char) :
    ∀ w : List Char, (∀ c ∈ w, p c = false) → w <+: replaceRuns p [r] false l → w <+: l := by
  induction l with
  | nil =>
    intro w _ h
    simpa [replaceRuns] using h
  | cons d t ih =>
    intro w hw h
    cases w with
    | nil => exact List.nil_prefix
    | cons a w' =>
      by_cases hd : p d = true
      · rw [replaceRuns_pos_false p [r] d t hd, List.singleton_append,
          List.cons_prefix_cons] at h
        have ha := hw a (by simp)
        rw [h.1, hr] at ha
        exact absurd ha (by simp)
      · rw [replaceRuns_neg p [r] false d t hd, List.cons_prefix_cons] at h
        rw [List.cons_prefix_cons]
        exact ⟨h.1, ih w' (fun c hc => hw c (List.mem_cons_of_mem a hc)) h.2⟩

/-- A block without code points of the class that occurs in the output of the
replacement occurs in the input as well. -/
theorem replaceRuns_block (p : Char → Bool) (r : Char) (hr : p r = true) (w : List Char)
    (hw : ∀ c ∈ w, p c = false) (l : List Char) :
    ∀ b : Bool, w <:+: replaceRuns p [r] b l → w <:+: l := by
  induction l with
  | nil =>
    intro b h
    simpa [replaceRuns] using h
  | cons d t ih =>
    intro b h
    by_cases hd : p d = true
    · cases b with
      | true =>
        rw [replaceRuns_pos_true p [r] d t hd] at h
        exact List.infix_cons (ih true h)
      | false =>
        rw [replaceRuns_pos_false p [r] d t hd, List.singleton_append,
          List.infix_cons_iff] at h
        rcases h with h | h
        · cases w with
          | nil => exact List.nil_infix
          | cons a w' =>
            rw [List.cons_prefix_cons] at h
            have ha := hw a (by simp)
            rw [h.1, hr] at ha
            exact absurd ha (by simp)
        · exact List.infix_cons (ih true h)
    · rw [replaceRuns_neg p [r] b d t hd, List.infix_cons_iff] at h
      rcases h with h | h
      · cases w with
        | nil => exact List.nil_infix
        | cons a w' =>
          rw [List.cons_prefix_cons] at h
          have hp' : w' <+: t :=
            replaceRuns_start p r hr t w' (fun c hc => hw c (List.mem_cons_of_mem a hc)) h.2
          have hpre : a :: w' <+: d :: t := by
            rw [List.cons_prefix_cons]
            exact ⟨h.1, hp'⟩
          exact hpre.isInfix
      · exact List.infix_cons (ih false h)

theorem trimSpace_block (s : String) : (TrimSpace s).data <:+: s.data := by
  unfold TrimSpace
  exact ((List.rdropWhile_prefix isUnicodeSpace _).isInfix).trans
    (List.dropWhile_suffix isUnicodeSpace).isInfix

/-- A block without `\s` code points that occurs in the normalised plate occurs in
the plate as it was given. -/
theorem normalizePlate_block (s : String) (opts : CarPlateValidationOptions)
    (w : List Char) (hw : ∀ c ∈ w, isReSpace c = false)
    (h : w <:+: (normalizePlate s opts).data) : w <:+: s.data := by
  obtain ⟨t, b⟩ := opts
  cases b with
  | true => exact h
  | false =>
    rw [normalizePlate_data] at h
    exact (replaceRuns_block isReSpace ' ' (by decide) w hw _ false h).trans
      (trimSpace_block s)

theorem standardShape_contains (gap : List Char → Prop) (l : List Char)
    (h : StandardPlateShape gap l) : tounes.data <:+: l := by
  obtain ⟨d3, g1, g2, d4, rfl, -⟩ := h
  exact ⟨d3 ++ g1, g2 ++ d4, by simp⟩

theorem specialShape_contains (gap : List Char → Prop) (l : List Char)
    (h : SpecialPlateShape gap l) : tounes.data <:+: l := by
  obtain ⟨g1, d3, g2, rfl, -⟩ := h
  exact ⟨"RS".data ++ (g1 ++ (d3 ++ g2)), [], by simp⟩

theorem validateCarPlate_head (s : String) (options : List CarPlateValidationOptions) :
    ValidateCarPlate s options =
      ValidateCarPlate s [options.headD CarPlateValidationOptions.zero] := by
  cases options <;> rfl

/-- A plate that validates holds the word `tounes`. -/
theorem validateCarPlate_contains (s : String) (opts : CarPlateValidationOptions)
    (h : ValidateCarPlate s [opts] = true) : Contains s tounes = true := by
  unfold Contains
  rw [containsList_iff]
  apply normalizePlate_block s opts tounes.data (by decide)
  rw [validateCarPlate_cons] at h
  by_cases he : s = ""
  · rw [if_pos he] at h
    exact absurd h (by simp)
  · rw [if_neg he] at h
    by_cases h1 : opts.Typ = "special"
    · rw [if_pos h1] at h
      by_cases hst : opts.Strict = true
      · rw [if_pos hst] at h
        exact specialShape_contains _ _ ((strictSpecialCarPlateRegex_iff _).1 h)
      · rw [if_neg hst] at h
        exact specialShape_contains _ _ ((specialCarPlateRegex_iff _).1 h)
    · rw [if_neg h1] at h
      by_cases h2 : opts.Typ = "standard" ∨ opts.Typ = ""
      · rw [if_pos h2] at h
        by_cases hst : opts.Strict = true
        · rw [if_pos hst] at h
          exact standardShape_contains _ _ ((strictStandardCarPlateRegex_iff _).1 h)
        · rw [if_neg hst] at h
          exact standardShape_contains _ _ ((standardCarPlateRegex_iff _).1 h)
      · rw [if_neg h2] at h
        exact absurd h (by simp)

theorem plateDetails_spec (s : String) (options : List CarPlateValidationOptions) :
    (ValidateCarPlateWithDetails s options).1 = ValidateCarPlate s options ∧
    ((ValidateCarPlateWithDetails s options).2 = "" ↔
      (ValidateCarPlateWithDetails s options).1 = true) := by
  rw [validateCarPlate_head]
  unfold ValidateCarPlateWithDetails
  simp only []
  generalize options.headD CarPlateValidationOptions.zero = opts
  by_cases he : s = ""
  · subst he
    rw [if_pos rfl]
    exact ⟨rfl, by decide⟩
  · rw [if_neg he]
    by_cases hc : (!Contains s tounes) = true
    · rw [if_pos hc]
      have hv : ValidateCarPlate s [opts] = false := by
        cases hv : ValidateCarPlate s [opts] with
        | false => rfl
        | true =>
          have := validateCarPlate_contains s opts hv
          rw [this] at hc
          exact absurd hc (by simp)
      rw [hv]
      exact ⟨rfl, by decide⟩
    · rw [if_neg hc, validateCarPlate_cons, if_neg he]
      by_cases h1 : opts.Typ = "special"
      · rw [if_pos h1, if_pos h1]
        by_cases hst : opts.Strict = true
        · rw [if_pos hst, if_pos hst]
          cases strictSpecialCarPlateRegex.MatchString (normalizePlate s opts) with
          | false => exact ⟨rfl, by decide⟩
          | true => exact ⟨rfl, by decide⟩
        · rw [if_neg hst, if_neg hst]
          cases specialCarPlateRegex.MatchString (normalizePlate s opts) with
          | false => exact ⟨rfl, by decide⟩
          | true => exact ⟨rfl, by decide⟩
      · rw [if_neg h1, if_neg h1]
        by_cases h2 : opts.Typ = "standard" ∨ opts.Typ = ""
        · rw [if_pos h2, if_pos h2]
          by_cases hst : opts.Strict = true
          · rw [if_pos hst, if_pos hst]
            cases strictStandardCarPlateRegex.MatchString (normalizePlate s opts) with
            | false => exact ⟨rfl, by decide⟩
            | true => exact ⟨rfl, by decide⟩
          · rw [if_neg hst, if_neg hst]
            cases standardCarPlateRegex.MatchString (normalizePlate s opts) with
            | false => exact ⟨rfl, by decide⟩
            | true => exact ⟨rfl, by decide⟩
        · rw [if_neg h2, if_neg h2]
          exact ⟨rfl, by decide⟩

/-! ### Reference tables, governorates, aggregate validator -/

theorem find_unique {α : Type} (p : α → Bool) (target : α) (l : List α)
    (hmem : target ∈ l) (hp : p target = true)
    (huniq : ∀ x ∈ l, p x = true → x = target) : l.find? p = some target := by
  induction l with
  | nil => simp at hmem
  | cons a t ih =>
    by_cases ha : p a = true
    · rw [List.find?_cons_of_pos _ ha, huniq a (by simp) ha]
    · rw [List.find?_cons_of_neg _ ha]
      have hne : target ≠ a := fun e => ha (e ▸ hp)
      have hmem' : target ∈ t := by
        rcases List.mem_cons.1 hmem with h | h
        · exact absurd h hne
        · exact h
      exact ih hmem' (fun x hx => huniq x (List.mem_cons_of_mem a hx))

theorem governorates_distinct :
    ∀ x ∈ Governorates.map Prod.snd, ∀ y ∈ Governorates.map Prod.snd,
      x.PostalCode = y.PostalCode → x = y := by
  decide

theorem governorates_valid :
    ∀ x ∈ Governorates.map Prod.snd, ValidatePostalCode x.PostalCode = true := by
  decide

/-- A postal code of the table is found, in whatever order the table is visited. -/
theorem getGovernorate_of_mem (visited : List Governorate)
    (hperm : visited.Perm (Governorates.map Prod.snd)) (g : Governorate)
    (hg : g ∈ Governorates.map Prod.snd) :
    GetGovernorateFromPostalCodeOver visited g.PostalCode = some g := by
  unfold GetGovernorateFromPostalCodeOver
  rw [governorates_valid g hg]
  simp only [Bool.not_true, Bool.false_eq_true, if_false]
  apply find_unique _ g visited (hperm.mem_iff.2 hg) (by simp)
  intro x hx hpx
  have hx' : x ∈ Governorates.map Prod.snd := hperm.mem_iff.1 hx
  exact governorates_distinct x hx' g hg (by simpa using hpx)

/-- A postal code that is not in the table is not found. -/
theorem getGovernorate_of_not_mem (visited : List Governorate)
    (hperm : visited.Perm (Governorates.map Prod.snd)) (c : String)
    (hc : ∀ g ∈ Governorates.map Prod.snd, g.PostalCode ≠ c) :
    GetGovernorateFromPostalCodeOver visited c = none := by
  unfold GetGovernorateFromPostalCodeOver
  by_cases hv : (!ValidatePostalCode c) = true
  · rw [if_pos hv]
  · rw [if_neg hv, List.find?_eq_none]
    intro x hx
    have := hc x (hperm.mem_iff.1 hx)
    simpa using this

theorem lookup_filter_ne (m : List (String × Bool)) (k k' : String) (h : k' ≠ k) :
    (m.filter (fun e => e.1 != k)).lookup k' = m.lookup k' := by
  induction m with
  | nil => rfl
  | cons e t ih =>
    obtain ⟨a, b⟩ := e
    by_cases ha : a = k
    · subst ha
      have hne : (k' == a) = false := by simpa using h
      simp only [List.filter, bne_self_eq_false, List.lookup, hne]
      exact ih
    · have hk : (a != k) = true := by simpa using ha
      simp only [List.filter, hk, List.lookup]
      rw [ih]

theorem lookup_mapSet (m : List (String × Bool)) (k : String) (v : Bool) (k' : String) :
    (mapSet m k v).lookup k' = if k' = k then some v else m.lookup k' := by
  unfold mapSet
  by_cases h : k' = k
  · subst h
    simp [List.lookup]
  · have hne : (k' == k) = false := by simpa using h
    rw [if_neg h]
    simp only [List.lookup, hne]
    exact lookup_filter_ne m k k' h

/-- One `if value, exists := data[key]; exists` statement of the aggregate
validator, read through `lookup`. -/
theorem lookup_step (results : List (String × Bool)) (key : String) (value : Option String)
    (f : String → Bool) (k' : String) :
    (match value with
      | some x => mapSet results key (f x)
      | none => results).lookup k' =
      if k' = key then
        (match value with
          | some x => some (f x)
          | none => results.lookup k')
      else results.lookup k' := by
  cases value with
  | none =>
    by_cases h : k' = key <;> simp [h]
  | some x =>
    simp only [lookup_mapSet]

/-! ### Thousands separator, 12-hour clock -/

theorem digitChar_isDigit (k : Nat) (h : k < 10) : isDigit (Nat.digitChar k) = true := by
  interval_cases k <;> decide

theorem toDigitsCore_allDigits (fuel : Nat) :
    ∀ (n : Nat) (ds : List Char), AllDigits ds → AllDigits (Nat.toDigitsCore 10 fuel n ds) := by
  induction fuel with
  | zero =>
    intro n ds h
    simpa [Nat.toDigitsCore] using h
  | succ f ih =>
    intro n ds h
    have hd : AllDigits (Nat.digitChar (n % 10) :: ds) := by
      intro c hc
      rcases List.mem_cons.1 hc with rfl | hc
      · exact digitChar_isDigit _ (Nat.mod_lt _ (by decide))
      · exact h c hc
    simp only [Nat.toDigitsCore]
    split
    · exact hd
    · exact ih _ _ hd

theorem toDigitsCore_ne_nil (fuel : Nat) :
    ∀ (n : Nat) (ds : List Char), ds ≠ [] → Nat.toDigitsCore 10 fuel n ds ≠ [] := by
  induction fuel with
  | zero =>
    intro n ds h
    simpa [Nat.toDigitsCore] using h
  | succ f ih =>
    intro n ds _
    simp only [Nat.toDigitsCore]
    split
    · simp
    · exact ih _ _ (by simp)

theorem repr_data (n : Nat) : (Nat.repr n).data = Nat.toDigitsCore 10 (n + 1) n [] := rfl

theorem repr_allDigits (n : Nat) : AllDigits (Nat.repr n).data := by
  rw [repr_data]
  exact toDigitsCore_allDigits _ _ _ (by intro c hc; simp at hc)

theorem repr_ne_nil (n : Nat) : (Nat.repr n).data ≠ [] := by
  rw [repr_data]
  simp only [Nat.toDigitsCore]
  split
  · simp
  · exact toDigitsCore_ne_nil _ _ _ (by simp)

theorem formatInt_ofNat (n : Nat) : FormatInt (n : Int) = Nat.repr n := by
  unfold FormatInt
  rw [if_neg (by omega)]
  rfl

/-- Three digits at a position where the number of digits left is a multiple of 3:
the separator, then the three digits. -/
theorem separatorLoop_three (sep : String) (L i : Nat) (a b c : Char) (rest : List Char)
    (ha : a.toNat < 128) (hb : b.toNat < 128) (hc : c.toNat < 128)
    (hi : 0 < i) (hL : i + 3 ≤ L) (hmod : (L - i) % 3 = 0) :
    separatorLoop sep L i (a :: b :: c :: rest) =
      sep.data ++ a :: b :: c :: separatorLoop sep L (i + 3) rest := by
  have h1 : ¬ (i + 1 > 0 ∧ (L - (i + 1)) % 3 = 0) := by omega
  have h2 : ¬ (i + 1 + 1 > 0 ∧ (L - (i + 1 + 1)) % 3 = 0) := by omega
  simp only [separatorLoop, utf8Len_ascii a ha, utf8Len_ascii b hb, utf8Len_ascii c hc]
  rw [if_pos ⟨hi, hmod⟩, if_neg h1, if_neg h2]
  rfl

/-- The loop over a number of digits that is a multiple of 3, away from the start: a
separator in front of every group of three. -/
theorem separatorLoop_groups (sep : String) (L : Nat) :
    ∀ (k : Nat) (rest : List Char) (i : Nat), (∀ c ∈ rest, c.toNat < 128) →
      rest.length = 3 * k → i + rest.length = L → 0 < i →
      ∃ gs : List (List Char),
        separatorLoop sep L i rest = gs.flatMap (fun g => sep.data ++ g) ∧
        gs.flatMap id = rest ∧ ∀ g ∈ gs, g.length = 3 := by
  intro k
  induction k with
  | zero =>
    intro rest i _ hlen _ _
    have hnil : rest = [] := List.eq_nil_of_length_eq_zero (by simpa using hlen)
    subst hnil
    exact ⟨[], rfl, rfl, by intro g hg; simp at hg⟩
  | succ k ih =>
    intro rest i hascii hlen hL hi
    rcases rest with _ | ⟨a, _ | ⟨b, _ | ⟨c, rest'⟩⟩⟩
    · simp at hlen
    · simp at hlen
      omega
    · simp at hlen
      omega
    · have hlen' : rest'.length = 3 * k := by
        simp only [List.length_cons] at hlen
        omega
      simp only [List.length_cons] at hL
      obtain ⟨gs, hgs, hflat, hthree⟩ := ih rest' (i + 3)
        (fun d hd => hascii d (by simp [hd])) hlen' (by omega) (by omega)
      refine ⟨[a, b, c] :: gs, ?_, ?_, ?_⟩
      · rw [separatorLoop_three sep L i a b c rest' (hascii a (by simp))
          (hascii b (by simp)) (hascii c (by simp)) hi (by omega) (by omega), hgs]
        simp
      · simp [hflat]
      · intro g hg
        rcases List.mem_cons.1 hg with rfl | hg
        · rfl
        · exact hthree g hg

theorem separatorLoop_first1 (sep : String) (L : Nat) (a : Char) (rest : List Char)
    (ha : a.toNat < 128) :
    separatorLoop sep L 0 (a :: rest) = a :: separatorLoop sep L 1 rest := by
  simp only [separatorLoop, utf8Len_ascii a ha]
  rw [if_neg (by omega)]
  rfl

theorem separatorLoop_first2 (sep : String) (L : Nat) (a b : Char) (rest : List Char)
    (ha : a.toNat < 128) (hb : b.toNat < 128) (hmod : (L - 1) % 3 ≠ 0) :
    separatorLoop sep L 0 (a :: b :: rest) = a :: b :: separatorLoop sep L 2 rest := by
  have h1 : ¬ (0 + 1 > 0 ∧ (L - (0 + 1)) % 3 = 0) := by
    rintro ⟨-, h⟩
    exact hmod h
  simp only [separatorLoop, utf8Len_ascii a ha, utf8Len_ascii b hb]
  rw [if_neg (by omega), if_neg h1]
  rfl

theorem separatorLoop_first3 (sep : String) (L : Nat) (a b c : Char) (rest : List Char)
    (ha : a.toNat < 128) (hb : b.toNat < 128) (hc : c.toNat < 128)
    (hmod1 : (L - 1) % 3 ≠ 0) (hmod2 : (L - 2) % 3 ≠ 0) :
    separatorLoop sep L 0 (a :: b :: c :: rest) =
      a :: b :: c :: separatorLoop sep L 3 rest := by
  have h1 : ¬ (0 + 1 > 0 ∧ (L - (0 + 1)) % 3 = 0) := by
    rintro ⟨-, h⟩
    exact hmod1 h
  have h2 : ¬ (0 + 1 + 1 > 0 ∧ (L - (0 + 1 + 1)) % 3 = 0) := by
    rintro ⟨-, h⟩
    exact hmod2 h
  simp only [separatorLoop, utf8Len_ascii a ha, utf8Len_ascii b hb, utf8Len_ascii c hc]
  rw [if_neg (by omega), if_neg h1, if_neg h2]
  rfl

/-- The whole loop over more than three ASCII digits: a first group of 1 to 3
digits, then a separator in front of every group of three. -/
theorem separatorLoop_shape (sep : String) (d : List Char) (hascii : ∀ c ∈ d, c.toNat < 128)
    (hlen : 3 < d.length) :
    ∃ (g0 : List Char) (gs : List (List Char)),
      separatorLoop sep d.length 0 d = g0 ++ gs.flatMap (fun g => sep.data ++ g) ∧
      g0 ++ gs.flatMap id = d ∧ 1 ≤ g0.length ∧ g0.length ≤ 3 ∧
      ∀ g ∈ gs, g.length = 3 := by
  rcases d with _ | ⟨a, _ | ⟨b, _ | ⟨c, rest⟩⟩⟩
  · simp at hlen
  · simp at hlen
  · simp at hlen
  · have ha := hascii a (by simp)
    have hb := hascii b (by simp)
    have hc := hascii c (by simp)
    simp only [List.length_cons] at hlen ⊢
    have hcases : (rest.length + 3) % 3 = 0 ∨ (rest.length + 3) % 3 = 1 ∨
        (rest.length + 3) % 3 = 2 := by omega
    rcases hcases with h0 | h1 | h2
    · -- the first group has three digits
      obtain ⟨gs, hgs, hflat, hthree⟩ := separatorLoop_groups sep (rest.length + 1 + 1 + 1)
        (rest.length / 3) rest 3 (fun x hx => hascii x (by simp [hx])) (by omega) (by omega)
        (by omega)
      refine ⟨[a, b, c], gs, ?_, ?_, by simp, by simp, hthree⟩
      · rw [separatorLoop_first3 sep _ a b c rest ha hb hc (by omega) (by omega), hgs]
        rfl
      · simp [hflat]
    · -- the first group has one digit
      obtain ⟨gs, hgs, hflat, hthree⟩ := separatorLoop_groups sep (rest.length + 1 + 1 + 1)
        ((rest.length + 2) / 3) (b :: c :: rest) 1
        (fun x hx => hascii x (List.mem_cons_of_mem a hx))
        (by simp only [List.length_cons]; omega) (by simp only [List.length_cons]; omega)
        (by omega)
      refine ⟨[a], gs, ?_, ?_, by simp, by simp, hthree⟩
      · rw [separatorLoop_first1 sep _ a (b :: c :: rest) ha, hgs]
        rfl
      · simp [hflat]
    · -- the first group has two digits
      obtain ⟨gs, hgs, hflat, hthree⟩ := separatorLoop_groups sep (rest.length + 1 + 1 + 1)
        ((rest.length + 1) / 3) (c :: rest) 2
        (fun x hx => hascii x (List.mem_cons_of_mem a (List.mem_cons_of_mem b hx)))
        (by simp only [List.length_cons]; omega) (by simp only [List.length_cons]; omega)
        (by omega)
      refine ⟨[a, b], gs, ?_, ?_, by simp, by simp, hthree⟩
      · rw [separatorLoop_first2 sep _ a b (c :: rest) ha hb (by omega), hgs]
        rfl
      · simp [hflat]

theorem filter_groups (g0 : List Char) (gs : List (List Char))
    (h0 : ∀ c ∈ g0, c ≠ '.') (hgs : ∀ g ∈ gs, ∀ c ∈ g, c ≠ '.') :
    (g0 ++ gs.flatMap (fun g => '.' :: g)).filter (fun c => c != '.') =
      g0 ++ gs.flatMap id := by
  rw [List.filter_append]
  have hg0 : g0.filter (fun c => c != '.') = g0 :=
    List.filter_eq_self.2 (fun c hc => by simpa using h0 c hc)
  rw [hg0]
  congr 1
  induction gs with
  | nil => rfl
  | cons g t ih =>
    have hg : g.filter (fun c => c != '.') = g :=
      List.filter_eq_self.2 (fun c hc => by simpa using hgs g (by simp) c hc)
    rw [List.flatMap_cons, List.flatMap_cons, List.filter_append,
      ih (fun g' hg' => hgs g' (List.mem_cons_of_mem g hg'))]
    simp [List.filter, hg]

theorem not_dot_of_isDigit (c : Char) (h : isDigit c = true) : c ≠ '.' := by
  rintro rfl
  exact absurd h (by decide)

/-- The shape of `formatWithThousandsSeparator n "."` for `n >= 0`. -/
theorem formatWithThousandsSeparator_shape (n : Nat) :
    ∃ (g0 : List Char) (gs : List (List Char)),
      (formatWithThousandsSeparator (n : Int) ".").data =
        g0 ++ gs.flatMap (fun g => '.' :: g) ∧
      g0 ++ gs.flatMap id = (Nat.repr n).data ∧ 1 ≤ g0.length ∧ g0.length ≤ 3 ∧
      (∀ g ∈ gs, g.length = 3) ∧ ((Nat.repr n).length ≤ 3 → gs = []) := by
  have hd := repr_allDigits n
  have hlen : len (Nat.repr n) = (Nat.repr n).data.length := len_of_allDigits _ hd
  unfold formatWithThousandsSeparator
  simp only [formatInt_ofNat, hlen]
  by_cases h3 : (Nat.repr n).data.length ≤ 3
  · rw [if_pos h3]
    refine ⟨(Nat.repr n).data, [], by simp, by simp, ?_, h3, by simp, fun _ => rfl⟩
    exact List.length_pos.2 (repr_ne_nil n)
  · rw [if_neg h3]
    obtain ⟨g0, gs, hloop, hcat, h1, h2, hthree⟩ := separatorLoop_shape "."
      (Nat.repr n).data (fun c hc => isDigit_ascii c (hd c hc)) (by omega)
    refine ⟨g0, gs, ?_, hcat, h1, h2, hthree, fun h => absurd h h3⟩
    rw [hloop]
    rfl

theorem formatTime12Hour_eq (h m : Nat) :
    FormatTime12Hour h m =
      Nat.repr (displayHour12 h) ++ ":" ++ sprintf02d m ++ " " ++ periodMarker h := by
  unfold FormatTime12Hour displayHour12 periodMarker
  by_cases h0 : h = 0
  · subst h0
    rfl
  · by_cases h12 : h < 12
    · simp only [h0, h12, if_true, if_false, false_or]
      rw [if_neg (by omega)]
    · by_cases he : h = 12
      · subst he
        rfl
      · simp only [h0, h12, he, if_false, or_self]

theorem sprintf02d_eq (m : Nat) (hm : m < 60) : sprintf02d m = twoDigits m := by
  interval_cases m <;> rfl

/-! ### Car plate information -/

theorem fieldsScan_block (w : List Char) (hw : ∀ c ∈ w, isUnicodeSpace c = false) :
    ∀ cur s : List Char, fieldsScan cur (w ++ s) = fieldsScan (w.reverse ++ cur) s := by
  induction w with
  | nil =>
    intro cur s
    rfl
  | cons a t ih =>
    intro cur s
    have ha : isUnicodeSpace a = false := hw a (by simp)
    have hstep : fieldsScan cur (a :: (t ++ s)) = fieldsScan (a :: cur) (t ++ s) := by
      simp [fieldsScan, ha]
    rw [List.cons_append, hstep, ih (fun c hc => hw c (List.mem_cons_of_mem a hc))]
    simp

theorem fieldsScan_space (cur s : List Char) (hcur : cur ≠ []) :
    fieldsScan cur (' ' :: s) = String.mk cur.reverse :: fieldsScan [] s := by
  have hsp : isUnicodeSpace ' ' = true := by decide
  cases cur with
  | nil => exact absurd rfl hcur
  | cons a t => simp [fieldsScan, hsp]

theorem fieldsScan_end (cur : List Char) (hcur : cur ≠ []) :
    fieldsScan cur [] = [String.mk cur.reverse] := by
  cases cur with
  | nil => exact absurd rfl hcur
  | cons a t => simp [fieldsScan]

/-- A block without white space, followed by a space: one field, then the fields of
the rest. -/
theorem fields_block_space (w s : List Char) (hw : ∀ c ∈ w, isUnicodeSpace c = false)
    (hne : w ≠ []) :
    fieldsScan [] (w ++ ' ' :: s) = String.mk w :: fieldsScan [] s := by
  rw [fieldsScan_block w hw, List.append_nil, fieldsScan_space _ _ (by simpa using hne),
    List.reverse_reverse]

/-- A block without white space, alone: one field. -/
theorem fields_block_end (w : List Char) (hw : ∀ c ∈ w, isUnicodeSpace c = false)
    (hne : w ≠ []) : fieldsScan [] w = [String.mk w] := by
  have h := fieldsScan_block w hw [] []
  rw [List.append_nil, List.append_nil] at h
  rw [h, fieldsScan_end _ (by simpa using hne), List.reverse_reverse]

theorem isDigit_not_space (c : Char) (h : isDigit c = true) : isUnicodeSpace c = false := by
  simp only [isDigit, Bool.and_eq_true, decide_eq_true_eq] at h
  simp only [isUnicodeSpace, Bool.or_eq_false_iff, Bool.and_eq_false_iff,
    decide_eq_false_iff_not, beq_eq_false_iff_ne, ne_eq]
  omega

theorem allDigits_not_space (l : List Char) (h : AllDigits l) :
    ∀ c ∈ l, isUnicodeSpace c = false :=
  fun c hc => isDigit_not_space c (h c hc)

theorem tounes_not_space : ∀ c ∈ tounes.data, isUnicodeSpace c = false := by
  decide

theorem ne_nil_of_length {l : List Char} {n : Nat} (h : l.length = n + 1) : l ≠ [] := by
  intro e
  rw [e] at h
  simp at h

theorem not_space_append {a b : List Char} (ha : ∀ c ∈ a, isUnicodeSpace c = false)
    (hb : ∀ c ∈ b, isUnicodeSpace c = false) : ∀ c ∈ a ++ b, isUnicodeSpace c = false := by
  intro c hc
  rcases List.mem_append.1 hc with h | h
  · exact ha c h
  · exact hb c h

/-- The fields of a normalised standard plate: three when each gap is a space, fewer
otherwise; and the plate does not start with `RS`. -/
theorem standard_fields (N : String) (d3 g1 g2 d4 : List Char)
    (hN : N.data = d3 ++ (g1 ++ (tounes.data ++ (g2 ++ d4))))
    (hl : d3.length = 3) (hd : AllDigits d3) (hg1 : OptionalSpace g1)
    (hg2 : OptionalSpace g2) (hl' : d4.length = 4) (hd' : AllDigits d4) :
    HasPrefix N "RS" = false ∧
    ((g1 = [' '] ∧ g2 = [' '] ∧ Fields N = [String.mk d3, tounes, String.mk d4]) ∨
      (¬ (g1 = [' '] ∧ g2 = [' ']) ∧ (Fields N).length < 3)) := by
  have h3 := allDigits_not_space d3 hd
  have h4 := allDigits_not_space d4 hd'
  have ht := tounes_not_space
  have hne3 : d3 ≠ [] := ne_nil_of_length hl
  have hne4 : d4 ≠ [] := ne_nil_of_length hl'
  have hnet : tounes.data ≠ [] := by decide
  constructor
  · unfold HasPrefix
    rw [hN]
    cases d3 with
    | nil => exact absurd rfl hne3
    | cons a t =>
      have ha : isDigit a = true := hd a (by simp)
      have hR : "RS".data = ['R', 'S'] := rfl
      have hne : ('R' == a) = false := by
        rw [beq_eq_false_iff_ne]
        rintro rfl
        exact absurd ha (by decide)
      rw [hR]
      simp [List.isPrefixOf, hne]
  · unfold Fields
    rw [hN]
    rcases hg1 with rfl | rfl <;> rcases hg2 with rfl | rfl
    · right
      refine ⟨by simp, ?_⟩
      simp only [List.nil_append]
      rw [fields_block_end _ (not_space_append h3 (not_space_append ht h4)) (by simp [hne3])]
      simp
    · right
      refine ⟨by simp, ?_⟩
      have e : d3 ++ ([] ++ (tounes.data ++ ([' '] ++ d4))) =
          (d3 ++ tounes.data) ++ ' ' :: d4 := by simp
      rw [e, fields_block_space _ _ (not_space_append h3 ht) (by simp [hne3]),
        fields_block_end _ h4 hne4]
      simp
    · right
      refine ⟨by simp, ?_⟩
      have e : d3 ++ ([' '] ++ (tounes.data ++ ([] ++ d4))) =
          d3 ++ ' ' :: (tounes.data ++ d4) := by simp
      rw [e, fields_block_space _ _ h3 hne3,
        fields_block_end _ (not_space_append ht h4) (by simp [hnet])]
      simp
    · left
      refine ⟨rfl, rfl, ?_⟩
      have e : d3 ++ ([' '] ++ (tounes.data ++ ([' '] ++ d4))) =
          d3 ++ ' ' :: (tounes.data ++ ' ' :: d4) := by simp
      rw [e, fields_block_space _ _ h3 hne3, fields_block_space _ _ ht hnet,
        fields_block_end _ h4 hne4]

/-- The fields of a normalised special plate: three when each gap is a space, fewer
otherwise; and the plate starts with `RS`. -/
theorem special_fields (N : String) (g1 d3 g2 : List Char)
    (hN : N.data = "RS".data ++ (g1 ++ (d3 ++ (g2 ++ tounes.data))))
    (hg1 : OptionalSpace g1) (hl : d3.length = 3) (hd : AllDigits d3)
    (hg2 : OptionalSpace g2) :
    HasPrefix N "RS" = true ∧
    ((g1 = [' '] ∧ g2 = [' '] ∧ Fields N = ["RS", String.mk d3, tounes]) ∨
      (¬ (g1 = [' '] ∧ g2 = [' ']) ∧ (Fields N).length < 3)) := by
  have h3 := allDigits_not_space d3 hd
  have ht := tounes_not_space
  have hrs : ∀ c ∈ "RS".data, isUnicodeSpace c = false := by decide
  have hne3 : d3 ≠ [] := ne_nil_of_length hl
  have hnet : tounes.data ≠ [] := by decide
  have hners : "RS".data ≠ [] := by decide
  constructor
  · unfold HasPrefix
    rw [hN, List.isPrefixOf_iff_prefix]
    exact List.prefix_append _ _
  · unfold Fields
    rw [hN]
    rcases hg1 with rfl | rfl <;> rcases hg2 with rfl | rfl
    · right
      refine ⟨by simp, ?_⟩
      simp only [List.nil_append]
      rw [fields_block_end _ (not_space_append hrs (not_space_append h3 ht))
        (by simp [hners])]
      simp
    · right
      refine ⟨by simp, ?_⟩
      have e : "RS".data ++ ([] ++ (d3 ++ ([' '] ++ tounes.data))) =
          ("RS".data ++ d3) ++ ' ' :: tounes.data := by simp
      rw [e, fields_block_space _ _ (not_space_append hrs h3) (by simp [hners]),
        fields_block_end _ ht hnet]
      simp
    · right
      refine ⟨by simp, ?_⟩
      have e : "RS".data ++ ([' '] ++ (d3 ++ ([] ++ tounes.data))) =
          "RS".data ++ ' ' :: (d3 ++ tounes.data) := by simp
      rw [e, fields_block_space _ _ hrs hners,
        fields_block_end _ (not_space_append h3 ht) (by simp [hne3])]
      simp
    · left
      refine ⟨rfl, rfl, ?_⟩
      have e : "RS".data ++ ([' '] ++ (d3 ++ ([' '] ++ tounes.data))) =
          "RS".data ++ ' ' :: (d3 ++ ' ' :: tounes.data) := by simp
      rw [e, fields_block_space _ _ hrs hners, fields_block_space _ _ h3 hne3,
        fields_block_end _ ht hnet]

theorem standardShape_mono (l : List Char) (h : StandardPlateShape OneSpace l) :
    StandardPlateShape OptionalSpace l := by
  obtain ⟨d3, g1, g2, d4, hN, hl, hd, hg1, hg2, hl', hd'⟩ := h
  exact ⟨d3, g1, g2, d4, hN, hl, hd, Or.inr hg1, Or.inr hg2, hl', hd'⟩

theorem specialShape_mono (l : List Char) (h : SpecialPlateShape OneSpace l) :
    SpecialPlateShape OptionalSpace l := by
  obtain ⟨g1, d3, g2, hN, hg1, hl, hd, hg2⟩ := h
  exact ⟨g1, d3, g2, hN, Or.inr hg1, hl, hd, Or.inr hg2⟩

/-- What validation tells about the normalised plate. -/
theorem valid_plate_shape (p : String) (opts : CarPlateValidationOptions)
    (h : ValidateCarPlate p [opts] = true) :
    (opts.Typ = "special" ∧ SpecialPlateShape OptionalSpace (normalizePlate p opts).data) ∨
    ((opts.Typ = "standard" ∨ opts.Typ = "") ∧
      StandardPlateShape OptionalSpace (normalizePlate p opts).data) := by
  obtain ⟨t, b⟩ := opts
  rw [validateCarPlate_cons] at h
  by_cases he : p = ""
  · rw [if_pos he] at h
    exact absurd h (by simp)
  · rw [if_neg he] at h
    by_cases h1 : t = "special"
    · left
      refine ⟨h1, ?_⟩
      simp only [h1, if_true] at h ⊢
      cases b with
      | true =>
        simp only [if_true] at h
        exact specialShape_mono _ ((strictSpecialCarPlateRegex_iff _).1 h)
      | false =>
        simp only [Bool.false_eq_true, if_false] at h
        have hsh := (specialCarPlateRegex_iff _).1 h
        rw [normalizePlate_data] at hsh ⊢
        exact (specialShape_normalized _ _).1 hsh
    · right
      simp only [h1, if_false] at h
      by_cases h2 : t = "standard" ∨ t = ""
      · refine ⟨h2, ?_⟩
        rw [if_pos h2] at h
        cases b with
        | true =>
          simp only [if_true] at h
          exact standardShape_mono _ ((strictStandardCarPlateRegex_iff _).1 h)
        | false =>
          simp only [Bool.false_eq_true, if_false] at h
          have hsh := (standardCarPlateRegex_iff _).1 h
          rw [normalizePlate_data] at hsh ⊢
          exact (standardShape_normalized _ _).1 hsh
      · rw [if_neg h2] at h
        exact absurd h (by simp)

theorem getCarPlateInfo_unfold (p : String) (options : List CarPlateValidationOptions) :
    GetCarPlateInfo p options =
      if ValidateCarPlate p options = true then
        if HasPrefix (normalizePlate p (options.headD CarPlateValidationOptions.zero)) "RS"
            = true then
          match Fields (normalizePlate p (options.headD CarPlateValidationOptions.zero)) with
          | a :: b :: c :: _ => some ⟨"special", ⟨a ++ " " ++ b, c, ""⟩⟩
          | _ => none
        else
          match Fields (normalizePlate p (options.headD CarPlateValidationOptions.zero)) with
          | a :: b :: c :: _ => some ⟨"standard", ⟨a, b, c⟩⟩
          | _ => none
      else none := by
  rw [validateCarPlate_head]
  unfold GetCarPlateInfo
  simp only []
  cases ValidateCarPlate p [options.headD CarPlateValidationOptions.zero] with
  | false => rfl
  | true => rfl

/-- The result of `GetCarPlateInfo` on a plate that validates: a record when both
gaps of the normalised plate are spaces, nothing otherwise. -/
theorem getCarPlateInfo_of_valid (p : String) (options : List CarPlateValidationOptions)
    (hv : ValidateCarPlate p options = true) :
    (options.headD CarPlateValidationOptions.zero).Typ = "special" ∧
      (∃ g1 d3 g2 : List Char,
        (normalizePlate p (options.headD CarPlateValidationOptions.zero)).data =
          "RS".data ++ (g1 ++ (d3 ++ (g2 ++ tounes.data))) ∧
        OptionalSpace g1 ∧ d3.length = 3 ∧ AllDigits d3 ∧ OptionalSpace g2 ∧
        GetCarPlateInfo p options =
          if g1 = [' '] ∧ g2 = [' '] then
            some ⟨"special", ⟨String.mk ("RS ".data ++ d3), tounes, ""⟩⟩
          else none) ∨
    ((options.headD CarPlateValidationOptions.zero).Typ = "standard" ∨
        (options.headD CarPlateValidationOptions.zero).Typ = "") ∧
      (∃ d3 g1 g2 d4 : List Char,
        (normalizePlate p (options.headD CarPlateValidationOptions.zero)).data =
          d3 ++ (g1 ++ (tounes.data ++ (g2 ++ d4))) ∧
        d3.length = 3 ∧ AllDigits d3 ∧ OptionalSpace g1 ∧ OptionalSpace g2 ∧
        d4.length = 4 ∧ AllDigits d4 ∧
        GetCarPlateInfo p options =
          if g1 = [' '] ∧ g2 = [' '] then
            some ⟨"standard", ⟨String.mk d3, tounes, String.mk d4⟩⟩
          else none) := by
  have hv' := hv
  rw [validateCarPlate_head] at hv'
  rw [getCarPlateInfo_unfold, if_pos hv]
  generalize hopts : options.headD CarPlateValidationOptions.zero = opts at hv' ⊢
  rcases valid_plate_shape p opts hv' with ⟨ht, g1, d3, g2, hN, hg1, hl, hd, hg2⟩ |
    ⟨ht, d3, g1, g2, d4, hN, hl, hd, hg1, hg2, hl', hd'⟩
  · left
    refine ⟨ht, g1, d3, g2, hN, hg1, hl, hd, hg2, ?_⟩
    obtain ⟨hpre, hf⟩ := special_fields _ g1 d3 g2 hN hg1 hl hd hg2
    rw [if_pos hpre]
    rcases hf with ⟨e1, e2, hf⟩ | ⟨hno, hf⟩
    · rw [if_pos ⟨e1, e2⟩, hf]
      rfl
    · rw [if_neg hno]
      rcases hF : Fields (normalizePlate p opts) with _ | ⟨a, _ | ⟨b, _ | ⟨c, t⟩⟩⟩
      · rfl
      · rfl
      · rfl
      · rw [hF] at hf
        simp only [List.length_cons] at hf
        omega
  · right
    refine ⟨ht, d3, g1, g2, d4, hN, hl, hd, hg1, hg2, hl', hd', ?_⟩
    obtain ⟨hpre, hf⟩ := standard_fields _ d3 g1 g2 d4 hN hl hd hg1 hg2 hl' hd'
    rw [if_neg (by rw [hpre]; simp)]
    rcases hf with ⟨e1, e2, hf⟩ | ⟨hno, hf⟩
    · rw [if_pos ⟨e1, e2⟩, hf]
    · rw [if_neg hno]
      rcases hF : Fields (normalizePlate p opts) with _ | ⟨a, _ | ⟨b, _ | ⟨c, t⟩⟩⟩
      · rfl
      · rfl
      · rfl
      · rw [hF] at hf
        simp only [List.length_cons] at hf
        omega

theorem isDigit_not_reSpace (c : Char) (h : isDigit c = true) : isReSpace c = false := by
  simp only [isDigit, Bool.and_eq_true, decide_eq_true_eq] at h
  simp only [isReSpace, Bool.or_eq_false_iff, beq_eq_false_iff_ne, ne_eq]
  omega

theorem allDigits_not_reSpace (l : List Char) (h : AllDigits l) :
    ∀ c ∈ l, isReSpace c = false :=
  fun c hc => isDigit_not_reSpace c (h c hc)

theorem getCarPlateInfo_of_invalid (p : String) (options : List CarPlateValidationOptions)
    (hv : ValidateCarPlate p options = false) : GetCarPlateInfo p options = none := by
  rw [getCarPlateInfo_unfold, if_neg (by rw [hv]; simp)]

/-- A record is returned exactly for the valid plates whose normalised form has one
space in each gap. -/
theorem getCarPlateInfo_isSome_iff (p : String) (options : List CarPlateValidationOptions) :
    (GetCarPlateInfo p options).isSome = true ↔
      ValidateCarPlate p options = true ∧
        (StandardPlateShape OneSpace
            (normalizePlate p (options.headD CarPlateValidationOptions.zero)).data ∨
          SpecialPlateShape OneSpace
            (normalizePlate p (options.headD CarPlateValidationOptions.zero)).data) := by
  constructor
  · intro h
    cases hv : ValidateCarPlate p options with
    | false =>
      rw [getCarPlateInfo_of_invalid p options hv] at h
      exact absurd h (by simp)
    | true =>
      refine ⟨rfl, ?_⟩
      rcases getCarPlateInfo_of_valid p options hv with
        ⟨-, g1, d3, g2, hN, -, hl, hd, -, hres⟩ |
        ⟨-, d3, g1, g2, d4, hN, hl, hd, -, -, hl', hd', hres⟩
      · right
        by_cases hg : g1 = [' '] ∧ g2 = [' ']
        · exact ⟨g1, d3, g2, hN, hg.1, hl, hd, hg.2⟩
        · rw [hres, if_neg hg] at h
          exact absurd h (by simp)
      · left
        by_cases hg : g1 = [' '] ∧ g2 = [' ']
        · exact ⟨d3, g1, g2, d4, hN, hl, hd, hg.1, hg.2, hl', hd'⟩
        · rw [hres, if_neg hg] at h
          exact absurd h (by simp)
  · rintro ⟨hv, hsh⟩
    rw [getCarPlateInfo_unfold, if_pos hv]
    rcases hsh with ⟨d3, g1, g2, d4, hN, hl, hd, hg1, hg2, hl', hd'⟩ |
      ⟨g1, d3, g2, hN, hg1, hl, hd, hg2⟩
    · obtain ⟨hpre, hf⟩ := standard_fields _ d3 g1 g2 d4 hN hl hd (Or.inr hg1)
        (Or.inr hg2) hl' hd'
      rw [if_neg (by rw [hpre]; simp)]
      rcases hf with ⟨-, -, hf⟩ | ⟨hno, -⟩
      · rw [hf]
        rfl
      · exact absurd ⟨hg1, hg2⟩ hno
    · obtain ⟨hpre, hf⟩ := special_fields _ g1 d3 g2 hN (Or.inr hg1) hl hd (Or.inr hg2)
      rw [if_pos hpre]
      rcases hf with ⟨-, -, hf⟩ | ⟨hno, -⟩
      · rw [hf]
        rfl
      · exact absurd ⟨hg1, hg2⟩ hno

/-! ### Messages of the detailed phone validator -/

theorem replaceAll_trim_digits (s : String) :
    ReplaceAllClass isNonDigit (TrimPrefix s "+216") "" = String.mk (phoneDigits s) := by
  rw [String.ext_iff, replaceAllClass_nonDigit, trimPrefix_filter_digits]

theorem phoneDigits_allDigits (s : String) : AllDigits (phoneDigits s) := by
  rw [← trimPrefix_filter_digits]
  intro c hc
  exact (List.mem_filter.1 hc).2

/-- The three tests that the detailed validator makes on the normalised number. -/
theorem phoneDetails_tests (n : String) (hd : AllDigits n.data) :
    (if len n ≠ 8 then (false, "Phone number must be exactly 8 digits")
      else if (!phoneRegex.MatchString n) = true then
        (false, "Phone number must start with 2-9 and contain only digits")
      else
        match byteString0 n with
        | none => (false, "Phone number prefix is not valid for Tunisian carriers")
        | some pfx =>
          if ValidPrefixes.any (fun validPrefix => pfx == validPrefix) = true then
            (true, "")
          else (false, "Phone number prefix is not valid for Tunisian carriers")) =
    if n.data.length ≠ 8 then (false, "Phone number must be exactly 8 digits")
    else if StartsWithOneOf ['0', '1'] n.data then
      (false, "Phone number must start with 2-9 and contain only digits")
    else if StartsWithCarrierDigit n.data then (true, "")
    else (false, "Phone number prefix is not valid for Tunisian carriers") := by
  rw [len_of_allDigits n hd]
  by_cases hl : n.data.length ≠ 8
  · rw [if_pos hl, if_pos hl]
  · rw [if_neg hl, if_neg hl]
    have hl8 : n.data.length = 8 := not_not.1 hl
    obtain ⟨c, t, hn⟩ : ∃ c t, n.data = c :: t := by
      cases hdat : n.data with
      | nil => rw [hdat] at hl8; simp at hl8
      | cons c t => exact ⟨c, t, rfl⟩
    have hc : isDigit c = true := hd c (by rw [hn]; simp)
    have ht : t.length = 7 := by
      rw [hn] at hl8
      simpa using hl8
    have htd : AllDigits t := fun x hx => hd x (by rw [hn]; exact List.mem_cons_of_mem c hx)
    have hb : byteString0 n = some (String.mk [c]) :=
      byteString0_of_digit_head n c (by rw [hn]; rfl) hc
    have h01 : StartsWithOneOf ['0', '1'] n.data ↔ c = '0' ∨ c = '1' := by
      rw [hn]
      simp [StartsWithOneOf, eq_comm]
    have hcar : StartsWithCarrierDigit n.data ↔ c = '2' ∨ c = '4' ∨ c = '5' ∨ c = '9' := by
      rw [hn]
      simp [StartsWithCarrierDigit]
    by_cases hz : c = '0' ∨ c = '1'
    · have hm : ¬ phoneRegex.MatchString n = true := by
        intro hmatch
        obtain ⟨c', t', hn', hc', -⟩ := (phoneRegex_iff n.data).1 hmatch
        rw [hn, List.cons.injEq] at hn'
        rw [← hn'.1] at hc'
        rcases hz with rfl | rfl
        · exact absurd hc' (by decide)
        · exact absurd hc' (by decide)
      have hnm : (!phoneRegex.MatchString n) = true := by simpa using hm
      rw [if_pos hnm, if_pos (h01.2 hz)]
    · have h29 : isTwoNine c = true := by
        simp only [isDigit, Bool.and_eq_true, decide_eq_true_eq] at hc
        simp only [isTwoNine, Bool.and_eq_true, decide_eq_true_eq]
        refine ⟨?_, hc.2⟩
        by_contra hlt
        apply hz
        have h48 : c.toNat = 48 ∨ c.toNat = 49 := by omega
        rcases h48 with h | h
        · left
          exact Char.ext (by
            have : c.val.toNat = 48 := h
            exact UInt32.ext (by simpa using this))
        · right
          exact Char.ext (by
            have : c.val.toNat = 49 := h
            exact UInt32.ext (by simpa using this))
      have hm : phoneRegex.MatchString n = true :=
        (phoneRegex_iff n.data).2 ⟨c, t, hn, h29, ht, htd⟩
      have hnm : ¬ (!phoneRegex.MatchString n) = true := by simp [hm]
      rw [if_neg hnm, if_neg (fun h => hz (h01.1 h)), hb]
      dsimp only
      by_cases hv : c = '2' ∨ c = '4' ∨ c = '5' ∨ c = '9'
      · rw [if_pos ((validPrefix_iff c).2 hv), if_pos (hcar.2 hv)]
      · rw [if_neg (fun h => hv ((validPrefix_iff c).1 h)), if_neg (fun h => hv (hcar.1 h))]

/-- The detailed phone validator without the option `Strict`. -/
theorem phoneDetails_nonstrict (s : String) (options : List PhoneNumberValidationOptions)
    (hne : s ≠ "")
    (hns : (options.headD PhoneNumberValidationOptions.zero).Strict = false) :
    ValidatePhoneNumberWithDetails s options =
      if (phoneDigits s).length ≠ 8 then (false, "Phone number must be exactly 8 digits")
      else if StartsWithOneOf ['0', '1'] (phoneDigits s) then
        (false, "Phone number must start with 2-9 and contain only digits")
      else if StartsWithCarrierDigit (phoneDigits s) then (true, "")
      else (false, "Phone number prefix is not valid for Tunisian carriers") := by
  have h := phoneDetails_tests (String.mk (phoneDigits s)) (phoneDigits_allDigits s)
  rw [← h]
  unfold ValidatePhoneNumberWithDetails
  rw [if_neg hne]
  simp only []
  rw [hns]
  simp only [Bool.false_and, Bool.false_eq_true, if_false, Bool.not_false, if_true]
  rw [replaceAll_trim_digits]

/-- What passes the strict pattern is, once a leading `+216` is removed, a match of
the plain pattern. -/
theorem strict_normalized (s : String) (h : strictPhoneRegex.MatchString s = true) :
    phoneRegex.MatchString (TrimPrefix s "+216") = true := by
  obtain ⟨u, v, hs, hu, hv⟩ := (strictPhoneRegex_iff s.data).1 h
  rcases hu with rfl | rfl
  · have hs' : s = String.mk ("+216".data ++ v) := by
      rw [String.ext_iff]
      exact hs
    rw [hs', trimPrefix_append]
    exact hv
  · rw [List.nil_append] at hs
    have hhead : ∀ c ∈ s.data.head?, isDigit c = true := by
      obtain ⟨c, t, hvc, hc, -⟩ := (phoneRegex_iff v).1 hv
      intro x hx
      rw [hs, hvc] at hx
      simp only [List.head?_cons, Option.mem_def, Option.some.injEq] at hx
      rw [← hx]
      exact isTwoNine_isDigit c hc
    rw [trimPrefix_of_digit_head s hhead]
    show phoneRegex.matchList s.data = true
    rw [hs]
    exact hv

theorem not_zeroOne_of_phoneRegex (l : List Char) (h : phoneRegex.matchList l = true) :
    ¬ StartsWithOneOf ['0', '1'] l := by
  obtain ⟨c, t, hl, hc, -⟩ := (phoneRegex_iff l).1 h
  rintro ⟨x, hx, hhead⟩
  rw [hl] at hhead
  simp only [List.head?_cons, Option.some.injEq] at hhead
  subst hhead
  simp only [List.mem_cons, List.mem_singleton, List.not_mem_nil, or_false] at hx
  rcases hx with rfl | rfl
  · exact absurd hc (by decide)
  · exact absurd hc (by decide)

/-- The detailed phone validator with the option `Strict`. -/
theorem phoneDetails_strict (s : String) (options : List PhoneNumberValidationOptions)
    (hs : (options.headD PhoneNumberValidationOptions.zero).Strict = true) :
    ValidatePhoneNumberWithDetails s options =
      if s = "" then (false, "Phone number cannot be empty")
      else if ¬ strictPhoneRegex.MatchString s = true then
        (false, "Phone number format is invalid in strict mode")
      else if StartsWithCarrierDigit (afterCountryCode s) then (true, "")
      else (false, "Phone number prefix is not valid for Tunisian carriers") := by
  unfold ValidatePhoneNumberWithDetails
  by_cases he : s = ""
  · rw [if_pos he, if_pos he]
  · rw [if_neg he, if_neg he]
    simp only []
    rw [hs]
    simp only [Bool.true_and, Bool.not_true, Bool.false_eq_true, if_false]
    by_cases hm : strictPhoneRegex.MatchString s = true
    · have hnm : ¬ (!strictPhoneRegex.MatchString s) = true := by simp [hm]
      rw [if_neg hnm, if_neg (not_not.2 hm)]
      have hp := strict_normalized s hm
      obtain ⟨hl, hd⟩ := allDigits_of_phoneRegex _ hp
      rw [phoneDetails_tests _ hd, if_neg (not_not.2 hl),
        if_neg (not_zeroOne_of_phoneRegex _ hp), trimPrefix_data]
    · have hnm : (!strictPhoneRegex.MatchString s) = true := by simpa using hm
      rw [if_pos hnm, if_pos hm]

/-! ### Carriers -/

theorem carrier_of_digit_unique (c : Char) (a b : Carrier)
    (ha : ((c = '2' ∨ c = '5') ∧ a = ⟨"Ooredoo Tunisia", ["2", "5"]⟩) ∨
      (c = '4' ∧ a = ⟨"Orange Tunisia", ["4"]⟩) ∨
      (c = '9' ∧ a = ⟨"Tunisie Telecom", ["9"]⟩))
    (hb : ((c = '2' ∨ c = '5') ∧ b = ⟨"Ooredoo Tunisia", ["2", "5"]⟩) ∨
      (c = '4' ∧ b = ⟨"Orange Tunisia", ["4"]⟩) ∨
      (c = '9' ∧ b = ⟨"Tunisie Telecom", ["9"]⟩)) : a = b := by
  rcases ha with ⟨h1 | h1, rfl⟩ | ⟨h1, rfl⟩ | ⟨h1, rfl⟩ <;>
    rcases hb with ⟨h2 | h2, rfl⟩ | ⟨h2, rfl⟩ | ⟨h2, rfl⟩ <;>
    first
    | rfl
    | (subst h1; exact absurd h2 (by decide))

/-- The result of `GetCarrierInfo` on a number that validates depends neither on the
order in which the carriers are visited nor on the mode of validation. -/
theorem getCarrierInfo_order (visited visited' : List Carrier)
    (hperm : visited.Perm (Carriers.map Prod.snd))
    (hperm' : visited'.Perm (Carriers.map Prod.snd)) (p : String)
    (options options' : List PhoneNumberValidationOptions)
    (hv : ValidatePhoneNumber p options = true)
    (hv' : ValidatePhoneNumber p options' = true) :
    GetCarrierInfoOver visited p options = GetCarrierInfoOver visited' p options' := by
  obtain ⟨c, carrier, hc, hres, hcar⟩ := getCarrierInfo_of_valid visited hperm p options hv
  obtain ⟨c', carrier', hc', hres', hcar'⟩ :=
    getCarrierInfo_of_valid visited' hperm' p options' hv'
  rw [hc, Option.some.injEq] at hc'
  subst hc'
  rw [hres, hres', carrier_of_digit_unique c carrier carrier' hcar hcar']

/-- A number that validates in strict mode validates with the default options. -/
theorem default_of_strict (s : String) (h : ValidatePhoneNumber s [⟨true⟩] = true) :
    ValidatePhoneNumber s [] = true :=
  (validatePhone_default_iff s).2 (valid_normalized s ⟨true⟩ h).2

/-- A digit of a carrier is the prefix of exactly one entry of the table. -/
theorem carrier_count (c : Char) (hc : c = '2' ∨ c = '4' ∨ c = '5' ∨ c = '9') :
    ((Carriers.map Prod.snd).filter
      (fun carrier => decide (String.mk [c] ∈ carrier.Prefixes))).length = 1 := by
  rcases hc with rfl | rfl | rfl | rfl <;> decide

/-! ### Messages of the detailed RIB validator, consistency of the formatters -/

theorem ribDetails_cases (r : String) :
    ValidateRIBWithDetails r =
      if r = "" then (false, "RIB cannot be empty")
      else if len r ≠ 20 then (false, "RIB must be exactly 20 digits")
      else if ¬ AllDigits r.data then (false, "RIB must contain only digits")
      else if ¬ ∃ e ∈ Banks, e.2.Code = String.mk (r.data.take 2) then
        (false, "Bank code not recognized")
      else (true, "") := by
  unfold ValidateRIBWithDetails
  by_cases he : r = ""
  · rw [if_pos he, if_pos he]
  · rw [if_neg he, if_neg he]
    by_cases hl : len r ≠ 20
    · rw [if_pos hl, if_pos hl]
    · rw [if_neg hl, if_neg hl]
      have hl20 : len r = 20 := not_not.1 hl
      by_cases hd : AllDigits r.data
      · have hm : ribRegex.MatchString r = true := by
          refine (ribRegex_iff r.data).2 ⟨?_, hd⟩
          rw [← len_of_allDigits r hd]
          exact hl20
        have hnm : ¬ (!ribRegex.MatchString r) = true := by simp [hm]
        rw [if_neg hnm, if_neg (not_not.2 hd)]
        dsimp only
        have hiff := lookup_isSome_iff Banks banks_key_eq_code (sliceTo r 2)
        by_cases hex : ∃ e ∈ Banks, e.2.Code = String.mk (r.data.take 2)
        · have hsome : (BanksLookup (sliceTo r 2)).isSome = true := hiff.2 hex
          have hnone : ¬ (BanksLookup (sliceTo r 2)).isNone = true := by
            rw [Option.isNone_iff_eq_none]
            intro hn
            rw [hn] at hsome
            exact absurd hsome (by simp)
          rw [if_neg hnone, if_neg (not_not.2 hex)]
        · have hnone : (BanksLookup (sliceTo r 2)).isNone = true := by
            cases hb : BanksLookup (sliceTo r 2) with
            | none => rfl
            | some b =>
              exfalso
              apply hex
              apply hiff.1
              show (BanksLookup (sliceTo r 2)).isSome = true
              rw [hb]
              rfl
          rw [if_pos hnone, if_pos hex]
      · have hm : ¬ ribRegex.MatchString r = true :=
          fun h => hd ((ribRegex_iff r.data).1 h).2
        have hnm : (!ribRegex.MatchString r) = true := by simpa using hm
        rw [if_pos hnm, if_pos hd]

theorem length_le_sum_utf8Len (l : List Char) : l.length ≤ (l.map utf8Len).sum := by
  induction l with
  | nil => simp
  | cons c t ih =>
    have hc : 1 ≤ utf8Len c := by
      unfold utf8Len
      simp only []
      split_ifs <;> omega
    simp only [List.length_cons, List.map_cons, List.sum_cons]
    omega

theorem length_le_len (s : String) : s.data.length ≤ len s :=
  length_le_sum_utf8Len s.data

theorem slice_five_eight (n : String) (h : len n = 8) : slice n 5 8 = sliceFrom n 5 := by
  unfold slice sliceFrom
  rw [List.take_of_length_le]
  have := length_le_len n
  rw [List.length_drop]
  omega

theorem international_assoc (a b c : String) :
    CountryCode ++ " " ++ a ++ " " ++ b ++ " " ++ c =
      "+216 " ++ (a ++ " " ++ b ++ " " ++ c) := by
  have h : CountryCode ++ " " = "+216 " := by decide
  rw [h]
  simp only [String.append_assoc]

/-- The four formatters on an input that does not validate. -/
theorem formatters_of_invalid (p : String) (h : ValidatePhoneNumber p [] = false) :
    FormatPhoneNumber p = ("", some ("invalid phone number: " ++ p)) ∧
    FormatPhoneNumberNational p = ("", some ("invalid phone number: " ++ p)) ∧
    FormatPhoneNumberCompact p = ("", some ("invalid phone number: " ++ p)) ∧
    NormalizePhoneNumber p = ("", some ("invalid phone number: " ++ p)) := by
  unfold FormatPhoneNumber FormatPhoneNumberNational FormatPhoneNumberCompact
    NormalizePhoneNumber
  simp [h]

/-- The four formatters on an input that validates: they share the test on the
number of bytes of the cleaned input. -/
theorem formatters_of_valid (p : String) (hv : ValidatePhoneNumber p [] = true) :
    (len (cleanPhoneNumber p) ≠ 8 ∧
      FormatPhoneNumber p =
        ("", some "phone number must be exactly 8 digits after cleaning") ∧
      FormatPhoneNumberNational p =
        ("", some "phone number must be exactly 8 digits after cleaning") ∧
      FormatPhoneNumberCompact p =
        ("", some "phone number must be exactly 8 digits after cleaning") ∧
      NormalizePhoneNumber p =
        ("", some "phone number must be exactly 8 digits after cleaning")) ∨
    (len (cleanPhoneNumber p) = 8 ∧
      FormatPhoneNumber p =
        (CountryCode ++ " " ++ sliceTo (cleanPhoneNumber p) 2 ++ " " ++
          slice (cleanPhoneNumber p) 2 5 ++ " " ++ sliceFrom (cleanPhoneNumber p) 5,
          none) ∧
      FormatPhoneNumberNational p =
        (sliceTo (cleanPhoneNumber p) 2 ++ " " ++ slice (cleanPhoneNumber p) 2 5 ++ " " ++
          sliceFrom (cleanPhoneNumber p) 5, none) ∧
      FormatPhoneNumberCompact p = (CountryCode ++ cleanPhoneNumber p, none) ∧
      NormalizePhoneNumber p = (cleanPhoneNumber p, none)) := by
  have hnv : ¬ (!ValidatePhoneNumber p []) = true := by simp [hv]
  unfold FormatPhoneNumber FormatPhoneNumberNational FormatPhoneNumberCompact
    NormalizePhoneNumber
  simp only [if_neg hnv]
  by_cases hl : len (cleanPhoneNumber p) ≠ 8
  · left
    simp only [if_pos hl]
    refine ⟨hl, ?_⟩
    simp only [and_self]
  · right
    simp only [if_neg hl]
    refine ⟨not_not.1 hl, ?_⟩
    simp only [and_self]

/-! ### Components of a RIB and of a tax identifier, checksum -/

theorem checked_sliceTo_le (s : String) (n : Nat) (h : n ≤ len s) :
    Checked.sliceTo s n = some (sliceTo s n) := by
  unfold Checked.sliceTo
  rw [if_pos h]

theorem checked_slice_le (s : String) (i j : Nat) (h : i ≤ j ∧ j ≤ len s) :
    Checked.slice s i j = some (slice s i j) := by
  unfold Checked.slice
  rw [if_pos h]

theorem checked_sliceFrom_le (s : String) (i : Nat) (h : i ≤ len s) :
    Checked.sliceFrom s i = some (sliceFrom s i) := by
  unfold Checked.sliceFrom
  rw [if_pos h]

theorem allDigits_take (l : List Char) (n : Nat) (h : AllDigits l) : AllDigits (l.take n) :=
  fun c hc => h c (List.mem_of_mem_take hc)

theorem allDigits_drop (l : List Char) (n : Nat) (h : AllDigits l) : AllDigits (l.drop n) :=
  fun c hc => h c (List.mem_of_mem_drop hc)

theorem rib_split (l : List Char) :
    l.take 2 ++ (l.drop 2).take 3 ++ (l.drop 5).take 13 ++ l.drop 18 = l := by
  have h1 : l.take 2 ++ (l.drop 2).take 3 = l.take 5 := (List.take_add l 2 3).symm
  have h2 : l.take 5 ++ (l.drop 5).take 13 = l.take 18 := (List.take_add l 5 13).symm
  rw [h1, h2, List.take_append_drop]

theorem extractRIBComponents_of_invalid (r : String) (hv : ValidateRIB r = false) :
    ExtractRIBComponents r =
      ([], some ("invalid RIB: " ++ (ValidateRIBWithDetails r).2)) := by
  have h1 : (ValidateRIBWithDetails r).1 = false := by
    rw [(ribDetails_spec r).1]
    exact hv
  unfold ExtractRIBComponents
  simp only [h1, Bool.not_false, if_true]

theorem extractRIBComponents_of_valid (r : String) (hv : ValidateRIB r = true) :
    ExtractRIBComponents r =
      ([("key", sliceFrom r 18), ("accountNumber", slice r 5 18),
        ("branchCode", slice r 2 5), ("bankCode", sliceTo r 2)], none) := by
  have h1 : (ValidateRIBWithDetails r).1 = true := by
    rw [(ribDetails_spec r).1]
    exact hv
  unfold ExtractRIBComponents
  simp only [h1, Bool.not_true, Bool.false_eq_true, if_false]
  rfl

theorem checked_extractRIBComponents (r : String) :
    Checked.ExtractRIBComponents r = some (ExtractRIBComponents r) := by
  unfold Checked.ExtractRIBComponents ExtractRIBComponents
  rw [checked_validateRIBWithDetails]
  simp only [Option.some_bind]
  cases h1 : (ValidateRIBWithDetails r).1 with
  | false => simp
  | true =>
    have hv : ValidateRIB r = true := by
      rw [← (ribDetails_spec r).1]
      exact h1
    obtain ⟨hl, hd, -⟩ := (validateRIB_iff r).1 hv
    have hlen : len r = 20 := by
      rw [len_of_allDigits r hd]
      exact hl
    rw [checked_sliceTo_le r 2 (by omega), checked_slice_le r 2 5 ⟨by omega, by omega⟩,
      checked_slice_le r 5 18 ⟨by omega, by omega⟩, checked_sliceFrom_le r 18 (by omega)]
    simp

theorem bytes_ascii (l : List Char) (h : ∀ c ∈ l, c.toNat < 128) :
    l.flatMap utf8Bytes = l.map Char.toNat := by
  induction l with
  | nil => rfl
  | cons c t ih =>
    have hc : utf8Bytes c = [c.toNat] := by
      unfold utf8Bytes
      simp only []
      rw [if_pos (h c (by simp))]
    rw [List.flatMap_cons, hc, ih (fun x hx => h x (List.mem_cons_of_mem c hx))]
    rfl

theorem byteStringAt_ascii (s : String) (i : Nat) (c : Char)
    (h : ∀ x ∈ s.data, x.toNat < 128) (hget : s.data[i]? = some c) :
    byteStringAt s i = some (String.mk [c]) := by
  unfold byteStringAt
  rw [bytes_ascii s.data h, List.getElem?_map, hget]
  simp only [Option.map_some', Char.ofNat_toNat]
  rfl

/-- The two ways of reading the first byte agree. -/
theorem byteStringAt_zero (s : String) : byteStringAt s 0 = byteString0 s := by
  unfold byteStringAt byteString0
  cases hdat : s.data with
  | nil => rfl
  | cons c t =>
    simp only [List.flatMap_cons]
    unfold utf8Bytes utf8LeadByte
    simp only []
    split_ifs <;> simp

theorem taxShape_ascii (l : List Char) (h : TaxShape l) : ∀ c ∈ l, c.toNat < 128 := by
  obtain ⟨num, t1, t2, t3, sq, hs, -, hnum, h1, h2, h3, -, hsq⟩ := h
  intro c hc
  rw [hs] at hc
  simp only [List.mem_append, List.mem_cons] at hc
  rcases hc with hc | rfl | rfl | rfl | rfl | rfl | rfl | hc
  · exact isDigit_ascii c (hnum c hc)
  · exact isUpper_ascii _ h1
  · decide
  · exact isUpper_ascii _ h2
  · decide
  · exact isUpper_ascii _ h3
  · decide
  · exact isDigit_ascii c (hsq c hc)

theorem seven_elems (l : List Char) (h : l.length = 7) :
    ∃ a b c d e f g : Char, l = [a, b, c, d, e, f, g] := by
  match l, h with
  | [a, b, c, d, e, f, g], _ => exact ⟨a, b, c, d, e, f, g, rfl⟩

theorem three_elems (l : List Char) (h : l.length = 3) : ∃ a b c : Char, l = [a, b, c] := by
  match l, h with
  | [a, b, c], _ => exact ⟨a, b, c, rfl⟩

/-- What `ExtractTaxIDComponents` reads in a string that has the layout of a tax
identifier; none of its reads is out of range. -/
theorem extractTaxIDComponents_of_shape (t : String) (num : List Char) (t1 t2 t3 : Char)
    (sq : List Char) (ht : t.data = num ++ t1 :: '/' :: t2 :: '/' :: t3 :: '/' :: sq)
    (hnum : num.length = 7) (hsq : sq.length = 3) (hshape : TaxShape t.data) :
    ExtractTaxIDComponents t =
      ([("sequence", String.mk sq), ("type3", String.mk [t3]), ("type2", String.mk [t2]),
        ("type1", String.mk [t1]), ("number", String.mk num)], none) ∧
    Checked.ExtractTaxIDComponents t = some (ExtractTaxIDComponents t) := by
  have hv : ValidateTaxID t = true := (validateTaxID_iff t).2 hshape
  have hascii := taxShape_ascii t.data hshape
  have hlen : len t = 16 := len_of_taxShape t hshape
  obtain ⟨n1, n2, n3, n4, n5, n6, n7, rfl⟩ := seven_elems num hnum
  obtain ⟨s1, s2, s3, rfl⟩ := three_elems sq hsq
  have hb7 : byteStringAt t 7 = some (String.mk [t1]) :=
    byteStringAt_ascii t 7 t1 hascii (by rw [ht]; rfl)
  have hb9 : byteStringAt t 9 = some (String.mk [t2]) :=
    byteStringAt_ascii t 9 t2 hascii (by rw [ht]; rfl)
  have hb11 : byteStringAt t 11 = some (String.mk [t3]) :=
    byteStringAt_ascii t 11 t3 hascii (by rw [ht]; rfl)
  have hto : sliceTo t 7 = String.mk [n1, n2, n3, n4, n5, n6, n7] := by
    unfold sliceTo
    rw [ht]
    rfl
  have hfrom : sliceFrom t 13 = String.mk [s1, s2, s3] := by
    unfold sliceFrom
    rw [ht]
    rfl
  have hres : ExtractTaxIDComponents t =
      ([("sequence", String.mk [s1, s2, s3]), ("type3", String.mk [t3]),
        ("type2", String.mk [t2]), ("type1", String.mk [t1]),
        ("number", String.mk [n1, n2, n3, n4, n5, n6, n7])], none) := by
    unfold ExtractTaxIDComponents
    simp only [hv, Bool.not_true, Bool.false_eq_true, if_false]
    rw [hb7, hb9, hb11, hto, hfrom]
    rfl
  refine ⟨hres, ?_⟩
  rw [hres]
  unfold Checked.ExtractTaxIDComponents
  simp only [hv, Bool.not_true, Bool.false_eq_true, if_false]
  rw [checked_sliceTo_le t 7 (by omega), checked_sliceFrom_le t 13 (by omega), hb7, hb9,
    hb11, hto, hfrom]
  rfl

theorem extractTaxIDComponents_of_invalid (t : String) (hv : ValidateTaxID t = false) :
    ExtractTaxIDComponents t = ([], some "invalid Tax ID format") ∧
    Checked.ExtractTaxIDComponents t = some (ExtractTaxIDComponents t) := by
  unfold Checked.ExtractTaxIDComponents ExtractTaxIDComponents
  simp only [hv, Bool.not_false, if_true, and_self]

theorem parseDigits_foldl (l : List Char) :
    ∀ acc : Nat, l.foldl (fun n c => n * 10 + (c.toNat - 48)) acc =
      acc * 10 ^ l.length + decimalValue l := by
  induction l with
  | nil =>
    intro acc
    simp [decimalValue]
  | cons c t ih =>
    intro acc
    simp only [List.foldl_cons, List.length_cons, decimalValue]
    rw [ih]
    ring

/-- The loop of the parser computes the number that the digits write. -/
theorem parseDigits_eq (l : List Char) : parseDigits l = decimalValue l := by
  unfold parseDigits
  rw [parseDigits_foldl]
  simp

theorem decimalValue_lt (l : List Char) (h : AllDigits l) :
    decimalValue l < 10 ^ l.length := by
  induction l with
  | nil => simp [decimalValue]
  | cons c t ih =>
    have hc : isDigit c = true := h c (by simp)
    simp only [isDigit, Bool.and_eq_true, decide_eq_true_eq] at hc
    have hd : c.toNat - 48 ≤ 9 := by omega
    have ht := ih (fun x hx => h x (List.mem_cons_of_mem c hx))
    have hmul : (c.toNat - 48) * 10 ^ t.length ≤ 9 * 10 ^ t.length :=
      Nat.mul_le_mul_right _ hd
    simp only [decimalValue, List.length_cons, pow_succ]
    linarith

/-- `ParseInt` on a non-empty string of digits whose value is in range. -/
theorem parseInt_digits (l : List Char) (bits : Nat) (hne : l ≠ []) (hd : AllDigits l)
    (hlt : decimalValue l < 2 ^ (bits - 1)) :
    ParseInt (String.mk l) bits = some (decimalValue l : Int) := by
  cases l with
  | nil => exact absurd rfl hne
  | cons c rest =>
    have hc : isDigit c = true := hd c (by simp)
    have hplus : (c == '+') = false := by
      rw [beq_eq_false_iff_ne]
      rintro rfl
      exact absurd hc (by decide)
    have hminus : (c == '-') = false := by
      rw [beq_eq_false_iff_ne]
      rintro rfl
      exact absurd hc (by decide)
    have hall : (c :: rest).all isDigit = true := List.all_eq_true.2 hd
    have hge : ¬ parseDigits (c :: rest) ≥ 2 ^ (bits - 1) := by
      rw [parseDigits_eq]
      omega
    unfold ParseInt
    simp only [hplus, hminus, Bool.or_self, Bool.false_eq_true, if_false, hall,
      List.isEmpty_cons, Bool.not_true, Bool.not_false, Bool.true_and, Bool.false_and,
      decide_eq_true_eq, hge]
    rw [parseDigits_eq]

theorem toInt_small (intSize : Nat) (h : intSize = 32 ∨ intSize = 64) (x : Int)
    (h0 : 0 ≤ x) (h1 : x < 97) : toInt intSize x = x := by
  unfold toInt
  rcases h with rfl | rfl
  · norm_num
    omega
  · norm_num
    omega

/-- The checksum test on a RIB that validates: neither conversion fails, and the
test compares the 18-digit number modulo 97 with the 2-digit number. -/
theorem validateRIBChecksumOn_of_valid (intSize : Nat) (h : intSize = 32 ∨ intSize = 64)
    (r : String) (hv : ValidateRIB r = true) :
    Atoi intSize (sliceFrom r 18) = some (decimalValue (r.data.drop 18) : Int) ∧
    ParseInt (sliceTo r 18) 64 = some (decimalValue (r.data.take 18) : Int) ∧
    decimalValue (r.data.take 18) < 2 ^ 63 ∧ decimalValue (r.data.drop 18) < 100 ∧
    ValidateRIBChecksumOn intSize r =
      decide (decimalValue (r.data.take 18) % 97 = decimalValue (r.data.drop 18)) ∧
    Checked.ValidateRIBChecksumOn intSize r = some (ValidateRIBChecksumOn intSize r) := by
  obtain ⟨hl, hd, -⟩ := (validateRIB_iff r).1 hv
  have hl' : r.data.length = 20 := hl
  have hlen : len r = 20 := by
    rw [len_of_allDigits r hd]
    exact hl'
  have hdrop : (r.data.drop 18).length = 2 := by
    rw [List.length_drop, hl']
  have htake : (r.data.take 18).length = 18 := by
    rw [List.length_take, hl']
    rfl
  have hkey100 : decimalValue (r.data.drop 18) < 100 := by
    have := decimalValue_lt _ (allDigits_drop r.data 18 hd)
    rw [hdrop] at this
    exact this
  have hacc : decimalValue (r.data.take 18) < 10 ^ 18 := by
    have := decimalValue_lt _ (allDigits_take r.data 18 hd)
    rw [htake] at this
    exact this
  have hacc63 : decimalValue (r.data.take 18) < 2 ^ 63 := by
    have h1018 : (10 : Nat) ^ 18 < 2 ^ 63 := by norm_num
    omega
  have hkeyfit : decimalValue (r.data.drop 18) < 2 ^ (intSize - 1) := by
    have h231 : (100 : Nat) ≤ 2 ^ (intSize - 1) := by
      rcases h with rfl | rfl <;> norm_num
    omega
  have hatoi : Atoi intSize (sliceFrom r 18) = some (decimalValue (r.data.drop 18) : Int) := by
    unfold Atoi sliceFrom
    exact parseInt_digits _ intSize (by intro e; rw [e] at hdrop; simp at hdrop)
      (allDigits_drop r.data 18 hd) hkeyfit
  have hparse : ParseInt (sliceTo r 18) 64 = some (decimalValue (r.data.take 18) : Int) := by
    unfold sliceTo
    exact parseInt_digits _ 64 (by intro e; rw [e] at htake; simp at htake)
      (allDigits_take r.data 18 hd) hacc63
  have hmod : ((decimalValue (r.data.take 18) : Int).tmod 97) =
      ((decimalValue (r.data.take 18) % 97 : Nat) : Int) := by
    rw [Int.ofNat_tmod]
    rfl
  have hsmall : toInt intSize ((decimalValue (r.data.take 18) : Int).tmod 97) =
      ((decimalValue (r.data.take 18) % 97 : Nat) : Int) := by
    rw [hmod]
    apply toInt_small intSize h
    · exact Int.ofNat_nonneg _
    · have : decimalValue (r.data.take 18) % 97 < 97 := Nat.mod_lt _ (by norm_num)
      exact_mod_cast this
  have hres : ValidateRIBChecksumOn intSize r =
      decide (decimalValue (r.data.take 18) % 97 = decimalValue (r.data.drop 18)) := by
    unfold ValidateRIBChecksumOn
    simp only [hv, Bool.not_true, Bool.false_eq_true, if_false, hatoi, hparse, hsmall]
    rw [Bool.eq_iff_iff]
    simp only [beq_iff_eq, decide_eq_true_eq]
    exact Nat.cast_inj
  refine ⟨hatoi, hparse, hacc63, hkey100, hres, ?_⟩
  rw [hres]
  unfold Checked.ValidateRIBChecksumOn
  rw [checked_validateRIB, checked_sliceFrom_le r 18 (by omega),
    checked_sliceTo_le r 18 (by omega)]
  simp only [Option.some_bind, hv, Bool.not_true, Bool.false_eq_true, if_false, hatoi,
    hparse, hsmall]
  congr 1
  rw [Bool.eq_iff_iff]
  simp only [beq_iff_eq, decide_eq_true_eq]
  exact Nat.cast_inj

theorem validateRIBChecksumOn_of_invalid (intSize : Nat) (r : String)
    (hv : ValidateRIB r = false) :
    ValidateRIBChecksumOn intSize r = false ∧
    Checked.ValidateRIBChecksumOn intSize r = some (ValidateRIBChecksumOn intSize r) := by
  unfold Checked.ValidateRIBChecksumOn ValidateRIBChecksumOn
  rw [checked_validateRIB]
  simp only [hv, Bool.not_false, if_true, Option.some_bind, and_self]

/-! ### Non-strict plates, stated on the plate as given -/

/-- What `ReplaceAllString` does to a block without code points of the class. -/
theorem replaceRuns_keep (p : Char → Bool) (repl : List Char) (w : List Char)
    (hw : ∀ c ∈ w, p c = false) (hne : w ≠ []) :
    ∀ (b : Bool) (s : List Char),
      replaceRuns p repl b (w ++ s) = w ++ replaceRuns p repl false s := by
  induction w with
  | nil => exact absurd rfl hne
  | cons a t ih =>
    intro b s
    have ha : ¬ p a = true := by simp [hw a (by simp)]
    rw [List.cons_append, replaceRuns_neg p repl b a _ ha]
    cases t with
    | nil => rfl
    | cons a' t' =>
      rw [ih (fun c hc => hw c (List.mem_cons_of_mem a hc)) (by simp) false s]
      rfl

theorem replaceRuns_run (p : Char → Bool) (repl : List Char) (g : List Char)
    (hg : ∀ c ∈ g, p c = true) (s : List Char) :
    replaceRuns p repl true (g ++ s) = replaceRuns p repl true s := by
  induction g with
  | nil => rfl
  | cons d t ih =>
    rw [List.cons_append, replaceRuns_pos_true p repl d _ (hg d (by simp)),
      ih (fun c hc => hg c (List.mem_cons_of_mem d hc))]

/-- What `ReplaceAllString` does to a gap followed by a block: the gap becomes the
replacement when it is not empty. -/
theorem replaceRuns_gap (p : Char → Bool) (repl : List Char) (g w : List Char)
    (hg : ∀ c ∈ g, p c = true) (hw : ∀ c ∈ w, p c = false) (hne : w ≠ [])
    (s : List Char) :
    replaceRuns p repl false (g ++ (w ++ s)) =
      (if g = [] then [] else repl) ++ (w ++ replaceRuns p repl false s) := by
  cases g with
  | nil =>
    rw [if_pos rfl, List.nil_append, List.nil_append, replaceRuns_keep p repl w hw hne]
  | cons d t =>
    rw [if_neg (by simp), List.cons_append, replaceRuns_pos_false p repl d _ (hg d (by simp)),
      replaceRuns_run p repl t (fun c hc => hg c (List.mem_cons_of_mem d hc)),
      replaceRuns_keep p repl w hw hne]

theorem replaceRuns_eq_nil (p : Char → Bool) (r : Char) (l : List Char)
    (h : replaceRuns p [r] false l = []) : l = [] := by
  cases l with
  | nil => rfl
  | cons d t =>
    by_cases hd : p d = true
    · rw [replaceRuns_pos_false p [r] d t hd] at h
      simp at h
    · rw [replaceRuns_neg p [r] false d t hd] at h
      simp at h

theorem replaceRuns_head_true (p : Char → Bool) (r : Char) (l : List Char) :
    ∀ c ∈ (replaceRuns p [r] true l).head?, p c = false := by
  induction l with
  | nil =>
    intro c hc
    simp [replaceRuns] at hc
  | cons d t ih =>
    intro c hc
    by_cases hd : p d = true
    · rw [replaceRuns_pos_true p [r] d t hd] at hc
      exact ih c hc
    · rw [replaceRuns_neg p [r] true d t hd] at hc
      simp only [List.head?_cons, Option.mem_def, Option.some.injEq] at hc
      subst hc
      simpa using hd

/-- A block of the output of `ReplaceAllString` that holds no code point of the class
comes from the same block of the input, after a run of the class when the scan is
inside a match. -/
theorem replaceRuns_inv_block (p : Char → Bool) (r : Char) (hr : p r = true)
    (l : List Char) :
    ∀ (b : Bool) (w rest : List Char), (∀ c ∈ w, p c = false) → w ≠ [] →
      replaceRuns p [r] b l = w ++ rest →
      ∃ g l', l = g ++ (w ++ l') ∧ (∀ c ∈ g, p c = true) ∧ (b = false → g = []) ∧
        replaceRuns p [r] false l' = rest := by
  induction l with
  | nil =>
    intro b w rest _ hne h
    cases w with
    | nil => exact absurd rfl hne
    | cons a t => simp [replaceRuns] at h
  | cons d t ih =>
    intro b w rest hw hne h
    cases w with
    | nil => exact absurd rfl hne
    | cons a w' =>
      have ha : p a = false := hw a (by simp)
      by_cases hd : p d = true
      · cases b with
        | true =>
          rw [replaceRuns_pos_true p [r] d t hd] at h
          obtain ⟨g, l', hl, hg, -, hrest⟩ := ih true (a :: w') rest hw hne h
          refine ⟨d :: g, l', by rw [hl]; rfl, ?_, fun hb => absurd hb (by simp), hrest⟩
          intro c hc
          rcases List.mem_cons.1 hc with rfl | hc
          · exact hd
          · exact hg c hc
        | false =>
          rw [replaceRuns_pos_false p [r] d t hd] at h
          simp only [List.singleton_append, List.cons_append, List.cons.injEq] at h
          rw [h.1] at hr
          rw [hr] at ha
          exact absurd ha (by simp)
      · rw [replaceRuns_neg p [r] b d t hd] at h
        simp only [List.cons_append, List.cons.injEq] at h
        obtain ⟨hda, h⟩ := h
        subst hda
        cases w' with
        | nil =>
          exact ⟨[], t, rfl, fun c hc => absurd hc (by simp), fun _ => rfl, h⟩
        | cons a' w'' =>
          obtain ⟨g, l', hl, -, hgnil, hrest⟩ :=
            ih false (a' :: w'') rest (fun c hc => hw c (List.mem_cons_of_mem d hc))
              (by simp) h
          have hg := hgnil rfl
          subst hg
          refine ⟨[], l', ?_, fun c hc => absurd hc (by simp), fun _ => rfl, hrest⟩
          rw [hl]
          rfl

/-- The same for a block that follows a gap of the output. -/
theorem replaceRuns_inv_gap (p : Char → Bool) (r : Char) (hr : p r = true)
    (l g' w rest : List Char) (hg' : ∀ c ∈ g', p c = true) (hw : ∀ c ∈ w, p c = false)
    (hne : w ≠ []) (h : replaceRuns p [r] false l = g' ++ (w ++ rest)) :
    ∃ g l', l = g ++ (w ++ l') ∧ (∀ c ∈ g, p c = true) ∧
      replaceRuns p [r] false l' = rest := by
  cases g' with
  | nil =>
    obtain ⟨g, l', hl, hg, -, hrest⟩ := replaceRuns_inv_block p r hr l false w rest hw hne h
    exact ⟨g, l', hl, hg, hrest⟩
  | cons x g'' =>
    have hx : p x = true := hg' x (by simp)
    cases l with
    | nil => simp [replaceRuns] at h
    | cons d t =>
      by_cases hd : p d = true
      · rw [replaceRuns_pos_false p [r] d t hd] at h
        simp only [List.singleton_append, List.cons_append, List.cons.injEq] at h
        obtain ⟨-, h⟩ := h
        rw [List.nil_append] at h
        have hhead := replaceRuns_head_true p r t
        cases g'' with
        | nil =>
          obtain ⟨g, l', hl, hg, -, hrest⟩ :=
            replaceRuns_inv_block p r hr t true w rest hw hne h
          refine ⟨d :: g, l', by rw [hl]; rfl, ?_, hrest⟩
          intro c hc
          rcases List.mem_cons.1 hc with rfl | hc
          · exact hd
          · exact hg c hc
        | cons y g3 =>
          have hy : p y = true := hg' y (by simp)
          have := hhead y (by rw [h]; rfl)
          rw [hy] at this
          exact absurd this (by simp)
      · rw [replaceRuns_neg p [r] false d t hd] at h
        simp only [List.cons_append, List.cons.injEq] at h
        rw [h.1] at hd
        exact absurd hx hd

/-- Collapsing the runs of the class turns a text into three given blocks with gaps
of the class between them exactly when the text is these blocks with gaps of the
class between them. -/
theorem replaceRuns_three_blocks (p : Char → Bool) (r : Char) (hr : p r = true)
    (w1 w2 w3 : List Char) (h1 : ∀ c ∈ w1, p c = false) (h2 : ∀ c ∈ w2, p c = false)
    (h3 : ∀ c ∈ w3, p c = false) (n1 : w1 ≠ []) (n2 : w2 ≠ []) (n3 : w3 ≠ [])
    (l : List Char) :
    (∃ g1 g2 : List Char, (∀ c ∈ g1, p c = true) ∧ (∀ c ∈ g2, p c = true) ∧
      replaceRuns p [r] false l = w1 ++ (g1 ++ (w2 ++ (g2 ++ w3)))) ↔
    (∃ g1 g2 : List Char, (∀ c ∈ g1, p c = true) ∧ (∀ c ∈ g2, p c = true) ∧
      l = w1 ++ (g1 ++ (w2 ++ (g2 ++ w3)))) := by
  constructor
  · rintro ⟨g1', g2', hg1', hg2', h⟩
    obtain ⟨g0, l1, hl, -, hg0, hrest1⟩ :=
      replaceRuns_inv_block p r hr l false w1 _ h1 n1 h
    have hg0' := hg0 rfl
    subst hg0'
    obtain ⟨g1, l2, hl1, hg1, hrest2⟩ :=
      replaceRuns_inv_gap p r hr l1 g1' w2 _ hg1' h2 n2 hrest1
    have hrest2' : replaceRuns p [r] false l2 = g2' ++ (w3 ++ []) := by
      rw [hrest2, List.append_nil]
    obtain ⟨g2, l3, hl2, hg2, hrest3⟩ :=
      replaceRuns_inv_gap p r hr l2 g2' w3 _ hg2' h3 n3 hrest2'
    have hl3 := replaceRuns_eq_nil p r l3 hrest3
    subst hl3
    refine ⟨g1, g2, hg1, hg2, ?_⟩
    rw [hl, hl1, hl2]
    simp
  · rintro ⟨g1, g2, hg1, hg2, rfl⟩
    refine ⟨if g1 = [] then [] else [r], if g2 = [] then [] else [r], ?_, ?_, ?_⟩
    · intro c hc
      split_ifs at hc
      · simp at hc
      · simp only [List.mem_singleton] at hc
        rw [hc]
        exact hr
    · intro c hc
      split_ifs at hc
      · simp at hc
      · simp only [List.mem_singleton] at hc
        rw [hc]
        exact hr
    · have e3 : g2 ++ w3 = g2 ++ (w3 ++ []) := by simp
      rw [replaceRuns_keep p [r] w1 h1 n1, replaceRuns_gap p [r] g1 w2 hg1 h2 n2, e3,
        replaceRuns_gap p [r] g2 w3 hg2 h3 n3]
      simp [replaceRuns]

theorem dropWhile_lead (sp : Char → Bool) (lead : List Char) (a : Char) (rest : List Char)
    (hlead : ∀ c ∈ lead, sp c = true) (ha : sp a = false) :
    (lead ++ a :: rest).dropWhile sp = a :: rest := by
  induction lead with
  | nil => simp [List.dropWhile, ha]
  | cons d t ih =>
    rw [List.cons_append, List.dropWhile_cons_of_pos (hlead d (by simp)),
      ih (fun c hc => hlead c (List.mem_cons_of_mem d hc))]

/-- Trimming a text that is a core between two margins of the class, the core
starting and ending outside the class, gives the core. -/
theorem trim_core (sp : Char → Bool) (lead trail mid : List Char) (a z : Char)
    (hlead : ∀ c ∈ lead, sp c = true) (htrail : ∀ c ∈ trail, sp c = true)
    (ha : sp a = false) (hz : sp z = false) :
    ((lead ++ ((a :: (mid ++ [z])) ++ trail)).dropWhile sp).rdropWhile sp =
      a :: (mid ++ [z]) := by
  have h1 : lead ++ ((a :: (mid ++ [z])) ++ trail) = lead ++ a :: ((mid ++ [z]) ++ trail) := by
    simp
  rw [h1, dropWhile_lead sp lead a _ hlead ha]
  unfold List.rdropWhile
  have h2 : (a :: (mid ++ [z] ++ trail)).reverse = trail.reverse ++ z :: (a :: mid).reverse := by
    simp
  rw [h2, dropWhile_lead sp trail.reverse z _ (fun c hc => htrail c (List.mem_reverse.1 hc)) hz]
  simp

/-- A text is its trimmed form between two margins of the class. -/
theorem trim_margins (sp : Char → Bool) (l : List Char) :
    ∃ lead trail, l = lead ++ ((l.dropWhile sp).rdropWhile sp ++ trail) ∧
      (∀ c ∈ lead, sp c = true) ∧ (∀ c ∈ trail, sp c = true) := by
  refine ⟨l.takeWhile sp, ((l.dropWhile sp).reverse.takeWhile sp).reverse, ?_, ?_, ?_⟩
  · unfold List.rdropWhile
    rw [← List.reverse_append, List.takeWhile_append_dropWhile, List.reverse_reverse,
      List.takeWhile_append_dropWhile]
  · intro c hc
    exact List.mem_takeWhile_imp hc
  · intro c hc
    exact List.mem_takeWhile_imp (List.mem_reverse.1 hc)

theorem tounes_not_reSpace : ∀ c ∈ tounes.data, isReSpace c = false := by
  decide

theorem standardShape_collapse (l : List Char) :
    StandardPlateShape ReSpaces (replaceRuns isReSpace [' '] false l) ↔
      StandardPlateShape ReSpaces l := by
  constructor
  · rintro ⟨d3, g1, g2, d4, hN, hl, hd, hg1, hg2, hl', hd'⟩
    obtain ⟨e1, e2, he1, he2, hl0⟩ :=
      (replaceRuns_three_blocks isReSpace ' ' (by decide) d3 tounes.data d4
        (allDigits_not_reSpace d3 hd) tounes_not_reSpace (allDigits_not_reSpace d4 hd')
        (ne_nil_of_length hl) (by decide) (ne_nil_of_length hl') l).1
        ⟨g1, g2, hg1, hg2, hN⟩
    exact ⟨d3, e1, e2, d4, hl0, hl, hd, he1, he2, hl', hd'⟩
  · rintro ⟨d3, g1, g2, d4, hN, hl, hd, hg1, hg2, hl', hd'⟩
    obtain ⟨e1, e2, he1, he2, hl0⟩ :=
      (replaceRuns_three_blocks isReSpace ' ' (by decide) d3 tounes.data d4
        (allDigits_not_reSpace d3 hd) tounes_not_reSpace (allDigits_not_reSpace d4 hd')
        (ne_nil_of_length hl) (by decide) (ne_nil_of_length hl') l).2
        ⟨g1, g2, hg1, hg2, hN⟩
    exact ⟨d3, e1, e2, d4, hl0, hl, hd, he1, he2, hl', hd'⟩

theorem specialShape_collapse (l : List Char) :
    SpecialPlateShape ReSpaces (replaceRuns isReSpace [' '] false l) ↔
      SpecialPlateShape ReSpaces l := by
  constructor
  · rintro ⟨g1, d3, g2, hN, hg1, hl, hd, hg2⟩
    obtain ⟨e1, e2, he1, he2, hl0⟩ :=
      (replaceRuns_three_blocks isReSpace ' ' (by decide) "RS".data d3 tounes.data
        (by decide) (allDigits_not_reSpace d3 hd) tounes_not_reSpace (by decide)
        (ne_nil_of_length hl) (by decide) l).1 ⟨g1, g2, hg1, hg2, hN⟩
    exact ⟨e1, d3, e2, hl0, he1, hl, hd, he2⟩
  · rintro ⟨g1, d3, g2, hN, hg1, hl, hd, hg2⟩
    obtain ⟨e1, e2, he1, he2, hl0⟩ :=
      (replaceRuns_three_blocks isReSpace ' ' (by decide) "RS".data d3 tounes.data
        (by decide) (allDigits_not_reSpace d3 hd) tounes_not_reSpace (by decide)
        (ne_nil_of_length hl) (by decide) l).2 ⟨g1, g2, hg1, hg2, hN⟩
    exact ⟨e1, d3, e2, hl0, he1, hl, hd, he2⟩

/-- A layout whose texts start and end outside white space holds of the trimmed text
exactly when the text is such a core between two margins of white space. -/
theorem padded_iff_trim (shape : List Char → Prop)
    (hshape : ∀ core, shape core →
      ∃ a mid z, core = a :: (mid ++ [z]) ∧ isUnicodeSpace a = false ∧
        isUnicodeSpace z = false)
    (s : String) : shape (TrimSpace s).data ↔ Padded shape s.data := by
  constructor
  · intro h
    obtain ⟨lead, trail, hl, h1, h2⟩ := trim_margins isUnicodeSpace s.data
    exact ⟨lead, (TrimSpace s).data, trail, hl, h1, h2, h⟩
  · rintro ⟨lead, core, trail, hs, h1, h2, hc⟩
    obtain ⟨a, mid, z, hcore, ha, hz⟩ := hshape core hc
    have ht : (TrimSpace s).data = core := by
      show (s.data.dropWhile isUnicodeSpace).rdropWhile isUnicodeSpace = core
      rw [hs, hcore]
      exact trim_core isUnicodeSpace lead trail mid a z h1 h2 ha hz
    rw [ht]
    exact hc

theorem standardShape_ends (core : List Char) (h : StandardPlateShape ReSpaces core) :
    ∃ a mid z, core = a :: (mid ++ [z]) ∧ isUnicodeSpace a = false ∧
      isUnicodeSpace z = false := by
  obtain ⟨d3, g1, g2, d4, hN, hl, hd, -, -, hl', hd'⟩ := h
  obtain ⟨a, b, c, rfl⟩ := three_elems d3 hl
  rcases List.eq_nil_or_concat d4 with h4 | ⟨d4', z, h4⟩
  · rw [h4] at hl'
    simp at hl'
  · refine ⟨a, [b, c] ++ (g1 ++ (tounes.data ++ (g2 ++ d4'))), z, ?_, ?_, ?_⟩
    · rw [hN, h4]
      simp
    · exact isDigit_not_space a (hd a (by simp))
    · exact isDigit_not_space z (hd' z (by rw [h4]; simp))

theorem specialShape_ends (core : List Char) (h : SpecialPlateShape ReSpaces core) :
    ∃ a mid z, core = a :: (mid ++ [z]) ∧ isUnicodeSpace a = false ∧
      isUnicodeSpace z = false := by
  obtain ⟨g1, d3, g2, hN, -, -, -, -⟩ := h
  rcases List.eq_nil_or_concat tounes.data with h4 | ⟨w, z, h4⟩
  · exact absurd h4 (by decide)
  · refine ⟨'R', 'S' :: (g1 ++ (d3 ++ (g2 ++ w))), z, ?_, by decide, ?_⟩
    · rw [hN, h4]
      have hR : "RS".data = ['R', 'S'] := rfl
      rw [hR]
      simp
    · exact tounes_not_space z (by rw [h4]; simp)

/-- The trimming and collapsing of the specification on two inputs: margins vanish,
every run of white space becomes one space, and a text without white space is left as
it is. -/
theorem collapseWhitespace_samples :
    collapseWhitespace isReSpace "  123 \t x  4567 ".data = "123 x 4567".data ∧
    collapseWhitespace isUnicodeSpace " \u00a0123 \t x  4567\x0b".data = "123 x 4567".data ∧
    collapseWhitespace isUnicodeSpace "123x4567".data = "123x4567".data := by
  refine ⟨by decide, by decide, by decide⟩

/-- Non-strict validation of a standard plate, on the plate as given: margins of
white space, 3 digits, a gap of `\s` code points, the word `tounes`, a gap, 4 digits. -/
theorem validateCarPlate_standard_padded (p : String) (t : String)
    (ht : t = "standard" ∨ t = "") :
    ValidateCarPlate p [⟨t, false⟩] = true ↔
      Padded (StandardPlateShape ReSpaces) p.data := by
  rw [validateCarPlate_standard_iff p t ht, normalizePlate_data, ← standardShape_normalized,
    standardShape_collapse, padded_iff_trim _ standardShape_ends]

/-- Non-strict validation of a special plate, on the plate as given. -/
theorem validateCarPlate_special_padded (p : String) :
    ValidateCarPlate p [⟨"special", false⟩] = true ↔
      Padded (SpecialPlateShape ReSpaces) p.data := by
  rw [validateCarPlate_special_iff p, normalizePlate_data, ← specialShape_normalized,
    specialShape_collapse, padded_iff_trim _ specialShape_ends]

/-! ## Claims -/

/-- C1: `ValidateCIN s` is true exactly when `s` consists of 8 ASCII digits the first
of which is `0` or `1`; the listed sample inputs are accepted and rejected as stated. -/
theorem C1_ValidateCIN_iff (s : String) :
    (ValidateCIN s = true ↔
      s.length = 8 ∧ AllDigits s.data ∧
        (s.data.head? = some '0' ∨ s.data.head? = some '1')) ∧
    ValidateCIN "01234567" = true ∧ ValidateCIN "12345678" = true ∧
    ValidateCIN "22345678" = false ∧ ValidateCIN "1234567" = false ∧
    ValidateCIN "123456789" = false ∧ ValidateCIN "1234567a" = false ∧
    ValidateCIN "1234 5678" = false ∧ ValidateCIN "" = false := by
  refine ⟨?_, by decide, by decide, by decide, by decide, by decide, by decide,
    by decide, by decide⟩
  unfold ValidateCIN
  by_cases he : s = ""
  · subst he
    simp [AllDigits]
  · rw [if_neg he]
    simp only [Regex.MatchString, cinRegex, Regex.cat, Regex.matchList_seq_eps_right,
      reDigit, String.length]
    rw [matchList_seq_cls_iff]
    constructor
    · rintro ⟨c, t, hs, hc, ht⟩
      rw [Regex.matchList_seq_eps_right] at ht
      obtain ⟨hl, hall⟩ := (Regex.matchList_rep_cls_iff _ _ _).1 ht
      rw [hs]
      refine ⟨by simp [hl], ?_, ?_⟩
      · intro d hd
        rcases List.mem_cons.1 hd with rfl | hd
        · rcases (isZeroOne_iff d).1 hc with rfl | rfl <;> decide
        · exact hall d hd
      · simpa using (isZeroOne_iff c).1 hc
    · rintro ⟨hl, hall, hh⟩
      cases hd : s.data with
      | nil => rw [hd] at hl; simp at hl
      | cons c t =>
        rw [hd] at hl hall hh
        refine ⟨c, t, rfl, (isZeroOne_iff c).2 (by simpa using hh), ?_⟩
        rw [Regex.matchList_seq_eps_right]
        exact (Regex.matchList_rep_cls_iff _ _ _).2
          ⟨by simpa using hl, fun d hd => hall d (List.mem_cons_of_mem c hd)⟩

/-- C2: with default options `ValidatePhoneNumber s` is true exactly when the digits
left after removing one leading `+216` and deleting every non-digit are 8 digits the
first of which is 2, 4, 5 or 9; the listed sample inputs behave as stated. -/
theorem C2_ValidatePhoneNumber_default_iff (s : String) :
    (ValidatePhoneNumber s [] = true ↔
      (phoneDigits s).length = 8 ∧ AllDigits (phoneDigits s) ∧
        StartsWithCarrierDigit (phoneDigits s)) ∧
    ValidatePhoneNumber "20123456" [] = true ∧
    ValidatePhoneNumber "+21620123456" [] = true ∧
    ValidatePhoneNumber "20 123 456" [] = true ∧
    ValidatePhoneNumber "10123456" [] = false ∧
    ValidatePhoneNumber "2012345" [] = false ∧
    ValidatePhoneNumber "201234567" [] = false := by
  refine ⟨?_, by decide, by decide, by decide, by decide, by decide, by decide⟩
  have key := phone_checks_iff (ReplaceAllClass isNonDigit (TrimPrefix s "+216") "")
  rw [replaceAllClass_nonDigit, trimPrefix_filter_digits] at key
  rw [← key]
  by_cases he : s = ""
  · subst he
    simp only [ValidatePhoneNumber, if_true]
    constructor
    · intro h
      exact absurd h (by simp)
    · rintro ⟨h, -⟩
      exact absurd h (by decide)
  · simp only [ValidatePhoneNumber, if_neg he, List.headD, PhoneNumberValidationOptions.zero,
      Bool.false_and, Bool.not_false, if_true]
    by_cases hm : phoneRegex.MatchString
        (ReplaceAllClass isNonDigit (TrimPrefix s "+216") "") = true
    · simp [hm]
    · simp [hm]

/-- C3: in strict mode `ValidatePhoneNumber s` is true exactly when `s` is an optional
`+216` followed by 8 ASCII digits the first of which is 2, 4, 5 or 9; an input that
holds any code point other than a digit or `+` is rejected, and the listed sample
inputs behave as stated. -/
theorem C3_ValidatePhoneNumber_strict_iff (s : String) :
    (ValidatePhoneNumber s [⟨true⟩] = true ↔
      ∃ d : List Char, (s.data = d ∨ s.data = "+216".data ++ d) ∧
        d.length = 8 ∧ AllDigits d ∧ StartsWithCarrierDigit d) ∧
    (ValidatePhoneNumber s [⟨true⟩] &&
      s.data.any (fun c => !isDigit c && c != '+')) = false ∧
    ValidatePhoneNumber "20 123 456" [⟨true⟩] = false ∧
    ValidatePhoneNumber "20-123-456" [⟨true⟩] = false ∧
    ValidatePhoneNumber "+21620123456" [⟨true⟩] = true := by
  refine ⟨validatePhone_strict_iff s, ?_, by decide, by decide, by decide⟩
  rw [Bool.and_eq_false_iff]
  by_cases hv : ValidatePhoneNumber s [⟨true⟩] = true
  · right
    obtain ⟨d, hsd, -, hd, -⟩ := (validatePhone_strict_iff s).1 hv
    rw [List.any_eq_false]
    intro c hc
    have hcd : isDigit c = true ∨ c = '+' := by
      rcases hsd with hsd | hsd
      · rw [hsd] at hc
        exact Or.inl (hd c hc)
      · rw [hsd, List.mem_append] at hc
        rcases hc with hc | hc
        · have h4 : c = '+' ∨ c = '2' ∨ c = '1' ∨ c = '6' := by simpa using hc
          rcases h4 with rfl | rfl | rfl | rfl
          · exact Or.inr rfl
          · exact Or.inl (by decide)
          · exact Or.inl (by decide)
          · exact Or.inl (by decide)
        · exact Or.inl (hd c hc)
    rcases hcd with h | h
    · simp [h]
    · simp [h]
  · left
    simpa using hv

/-- C4: `ValidateRIB s` is true exactly when `s` is 20 ASCII digits whose first two
characters are the code of an entry of the `Banks` table; the two sample inputs
behave as stated. -/
theorem C4_ValidateRIB_iff (s : String) :
    (ValidateRIB s = true ↔
      s.length = 20 ∧ AllDigits s.data ∧
        ∃ e ∈ Banks, e.2.Code = String.mk (s.data.take 2)) ∧
    ValidateRIB "01234567890123456789" = true ∧
    ValidateRIB "99234567890123456789" = false :=
  ⟨validateRIB_iff s, by decide, by decide⟩

/-- C5 as stated fails: `1234567A/P/M/000` is accepted by `ValidateTaxID`, yet it has
16 characters, so it is not "exactly 15 characters" of the required layout. -/
theorem C5_counterexample :
    ¬ (ValidateTaxID "1234567A/P/M/000" = true ↔
        "1234567A/P/M/000".length = 15 ∧ TaxShape "1234567A/P/M/000".data) := by
  intro h
  have h15 := (h.1 (by decide)).1
  exact absurd h15 (by decide)

/-- C5 amended: `ValidateTaxID s` is true exactly when `s` is 16 characters of the
layout 7 digits, letter, `/`, letter, `/`, letter, `/`, 3 digits; the sample inputs
behave as stated. -/
theorem C5_ValidateTaxID_iff (s : String) :
    (ValidateTaxID s = true ↔ s.length = 16 ∧ TaxShape s.data) ∧
    ValidateTaxID "1234567A/P/M/000" = true ∧
    ValidateTaxID "1234567A/P/M/00" = false ∧
    ValidateTaxID "123456A/P/M/000" = false := by
  refine ⟨?_, by decide, by decide, by decide⟩
  rw [validateTaxID_iff]
  constructor
  · intro h
    exact ⟨taxShape_length _ h, h⟩
  · intro h
    exact h.2

/-- C6: `ValidatePostalCode s` is true exactly when `s` is 4 ASCII digits, whatever
sequence of governorates the loop visits; `9999` and `1001` are accepted although no
entry of the `Governorates` table has that postal code. -/
theorem C6_ValidatePostalCode_iff (s : String) (visited : List Governorate) :
    (ValidatePostalCodeOver visited s = true ↔ s.length = 4 ∧ AllDigits s.data) ∧
    (ValidatePostalCode s = true ↔ s.length = 4 ∧ AllDigits s.data) ∧
    ValidatePostalCode "9999" = true ∧ ValidatePostalCode "1001" = true ∧
    (∀ e ∈ Governorates, e.2.PostalCode ≠ "9999" ∧ e.2.PostalCode ≠ "1001") := by
  have key : ∀ v : List Governorate,
      ValidatePostalCodeOver v s = true ↔ s.length = 4 ∧ AllDigits s.data := by
    intro v
    unfold ValidatePostalCodeOver
    by_cases he : s = ""
    · subst he
      simp
    · rw [if_neg he]
      by_cases hm : postalCodeRegex.MatchString s = true
      · have hm' := (postalCodeRegex_iff s.data).1 hm
        simp only [hm, Bool.not_true, Bool.false_eq_true, if_false, ite_self, true_iff]
        exact hm'
      · have hm' : ¬ (s.data.length = 4 ∧ AllDigits s.data) :=
          fun h => hm ((postalCodeRegex_iff s.data).2 h)
        simp only [hm, Bool.not_false, if_true, String.length]
        constructor
        · intro h
          exact absurd h (by simp)
        · intro h
          exact absurd h hm'
  exact ⟨key visited, key _, by decide, by decide, by decide⟩

/-- C7 as stated fails, whether white space is read as that of `unicode.IsSpace` or as
the class `\s`: the plate written without any white space, `123` followed by the word
`tounes` and `4567`, is accepted with default options, although trimming and
collapsing leave it as it is, without white space between its three parts. -/
theorem C7_counterexample :
    ¬ (ValidateCarPlate ("123" ++ tounes ++ "4567") [] = true ↔
        StandardPlateShape Whitespace
          (collapseWhitespace isUnicodeSpace ("123" ++ tounes ++ "4567").data)) ∧
    ¬ (ValidateCarPlate ("123" ++ tounes ++ "4567") [] = true ↔
        StandardPlateShape Whitespace
          (collapseWhitespace isReSpace ("123" ++ tounes ++ "4567").data)) := by
  constructor
  · intro h
    have h13 := standardShape_whitespace_length _ (h.1 (by decide))
    exact absurd h13 (by decide)
  · intro h
    have h13 := standardShape_whitespace_length _ (h.1 (by decide))
    exact absurd h13 (by decide)

/-- C7 amended: with default options `ValidateCarPlate p` is true exactly when `p` is:
any number of code points that are white space for `unicode.IsSpace`, 3 digits, any
number (possibly none) of code points of the class `\s` (space, tab, line feed, form
feed, carriage return), the word `tounes`, again any number of code points of `\s`,
4 digits, and any number of code points of white space.  The spaced and the unspaced
sample plates are accepted; a no-break space or a vertical tab is accepted around the
plate and rejected inside it; white space inside a group of digits is rejected. -/
theorem C7_ValidateCarPlate_default_iff (p : String) :
    (ValidateCarPlate p [] = true ↔ Padded (StandardPlateShape ReSpaces) p.data) ∧
    ValidateCarPlate ("123 " ++ tounes ++ " 4567") [] = true ∧
    ValidateCarPlate ("  123 \t " ++ tounes ++ "   4567 ") [] = true ∧
    ValidateCarPlate ("123" ++ tounes ++ "4567") [] = true ∧
    ValidateCarPlate ("\u00a0\x0b123\n" ++ tounes ++ "\r\x0c4567\x0b\u00a0") [] = true ∧
    ValidateCarPlate ("123\u00a0" ++ tounes ++ " 4567") [] = false ∧
    ValidateCarPlate ("123 " ++ tounes ++ "\x0b4567") [] = false ∧
    ValidateCarPlate ("1 2 3 " ++ tounes ++ " 4 5\t6 7") [] = false ∧
    ValidateCarPlate ("123 " ++ tounes ++ " 4567 x") [] = false :=
  ⟨validateCarPlate_standard_padded p "" (Or.inr rfl), by decide, by decide, by decide,
    by decide, by decide, by decide, by decide, by decide⟩

/-- C8 as stated fails, whether white space is read as that of `unicode.IsSpace` or as
the class `\s`: the special plate written without any white space, `RS123` followed by
the word `tounes`, is accepted for the special type, although trimming and collapsing
leave it as it is. -/
theorem C8_counterexample :
    ¬ (ValidateCarPlate ("RS123" ++ tounes) [⟨"special", false⟩] = true ↔
        SpecialPlateShape Whitespace
          (collapseWhitespace isUnicodeSpace ("RS123" ++ tounes).data)) ∧
    ¬ (ValidateCarPlate ("RS123" ++ tounes) [⟨"special", false⟩] = true ↔
        SpecialPlateShape Whitespace
          (collapseWhitespace isReSpace ("RS123" ++ tounes).data)) := by
  constructor
  · intro h
    have h11 := specialShape_whitespace_length _ (h.1 (by decide))
    exact absurd h11 (by decide)
  · intro h
    have h11 := specialShape_whitespace_length _ (h.1 (by decide))
    exact absurd h11 (by decide)

/-- C8 amended: for the special type in non-strict mode `ValidateCarPlate p` is true
exactly when `p` is: any number of code points that are white space for
`unicode.IsSpace`, `RS`, any number (possibly none) of code points of the class `\s`
(space, tab, line feed, form feed, carriage return), 3 digits, again any number of
code points of `\s`, the word `tounes`, and any number of code points of white space;
no plate is accepted both for the special and for the default type.  A no-break space
is accepted around the plate and rejected inside it; white space inside `RS` or inside
the digits is rejected. -/
theorem C8_ValidateCarPlate_special_iff (p : String) :
    (ValidateCarPlate p [⟨"special", false⟩] = true ↔
      Padded (SpecialPlateShape ReSpaces) p.data) ∧
    (ValidateCarPlate p [⟨"special", false⟩] && ValidateCarPlate p []) = false ∧
    ValidateCarPlate ("RS 123 " ++ tounes) [⟨"special", false⟩] = true ∧
    ValidateCarPlate ("RS 123 " ++ tounes) [] = false ∧
    ValidateCarPlate ("RS123" ++ tounes) [⟨"special", false⟩] = true ∧
    ValidateCarPlate ("\u00a0 RS \t123\n\n" ++ tounes ++ "\x0b")
      [⟨"special", false⟩] = true ∧
    ValidateCarPlate ("RS\u00a0123 " ++ tounes) [⟨"special", false⟩] = false ∧
    ValidateCarPlate ("R S 1 2 3" ++ tounes) [⟨"special", false⟩] = false ∧
    ValidateCarPlate ("123 " ++ tounes ++ " 4567") [⟨"special", false⟩] = false := by
  refine ⟨validateCarPlate_special_padded p, ?_, by decide, by decide, by decide,
    by decide, by decide, by decide, by decide⟩
  rw [Bool.and_eq_false_iff]
  by_cases hsp : ValidateCarPlate p [⟨"special", false⟩] = true
  · right
    by_contra hst
    have hst' : ValidateCarPlate p [⟨"", false⟩] = true := by simpa using hst
    obtain ⟨g1, d3, g2, hN, -, -, -, -⟩ := (validateCarPlate_special_iff p).1 hsp
    obtain ⟨e3, f1, f2, e4, hN', hl, hd, -, -, -, -⟩ :=
      (validateCarPlate_standard_iff p "" (Or.inr rfl)).1 hst'
    have hsame : (normalizePlate p ⟨"special", false⟩).data =
        (normalizePlate p ⟨"", false⟩).data := rfl
    rw [hsame, hN'] at hN
    cases e3 with
    | nil => simp at hl
    | cons a t =>
      have hR : "RS".data = ['R', 'S'] := rfl
      rw [hR] at hN
      simp only [List.cons_append, List.cons.injEq] at hN
      have ha := hd a (by simp)
      rw [hN.1] at ha
      exact absurd ha (by decide)
  · left
    simpa using hsp

/-- C9: in strict mode the plate is matched as given (nothing is trimmed or
collapsed); it is accepted for the standard or empty type exactly when it is 3
digits, one space, the word `tounes`, one space, 4 digits, and for the special type
exactly when it is `RS`, one space, 3 digits, one space, the word `tounes`.  The plate
with doubled spaces is rejected in strict mode and accepted in non-strict mode. -/
theorem C9_ValidateCarPlate_strict_iff (p : String) :
    (∀ t : String, normalizePlate p ⟨t, true⟩ = p) ∧
    (ValidateCarPlate p [⟨"standard", true⟩] = true ↔ StandardPlateShape OneSpace p.data) ∧
    (ValidateCarPlate p [⟨"", true⟩] = true ↔ StandardPlateShape OneSpace p.data) ∧
    (ValidateCarPlate p [⟨"special", true⟩] = true ↔ SpecialPlateShape OneSpace p.data) ∧
    ValidateCarPlate ("123  " ++ tounes ++ "  4567") [⟨"", true⟩] = false ∧
    ValidateCarPlate ("123  " ++ tounes ++ "  4567") [] = true ∧
    ValidateCarPlate ("123 " ++ tounes ++ " 4567") [⟨"", true⟩] = true ∧
    ValidateCarPlate (" 123 " ++ tounes ++ " 4567") [⟨"", true⟩] = false :=
  ⟨fun _ => rfl,
    validateCarPlate_strict_standard_iff p "standard" (Or.inl rfl),
    validateCarPlate_strict_standard_iff p "" (Or.inr rfl),
    validateCarPlate_strict_special_iff p,
    by decide, by decide, by decide, by decide⟩

/-- C10: when the requested type is none of the empty string, `standard` and
`special`, `ValidateCarPlate` returns false for every plate, in strict and in
non-strict mode. -/
theorem C10_ValidateCarPlate_unknown_type (p : String) (opts : CarPlateValidationOptions)
    (rest : List CarPlateValidationOptions)
    (h1 : opts.Typ ≠ "") (h2 : opts.Typ ≠ "standard") (h3 : opts.Typ ≠ "special") :
    ValidateCarPlate p (opts :: rest) = false := by
  rw [validateCarPlate_cons]
  by_cases he : p = ""
  · rw [if_pos he]
  · rw [if_neg he, if_neg h3, if_neg]
    rintro (h | h)
    · exact h2 h
    · exact h1 h

/-- C10 at concrete inputs: a well-formed standard plate asked for with the type
`diplomatic` is rejected in non-strict and in strict mode. -/
theorem C10_witness :
    (("diplomatic" : String) ≠ "" ∧ ("diplomatic" : String) ≠ "standard" ∧
      ("diplomatic" : String) ≠ "special") ∧
    ValidateCarPlate ("123 " ++ tounes ++ " 4567") [⟨"diplomatic", false⟩] = false ∧
    ValidateCarPlate ("123 " ++ tounes ++ " 4567") [⟨"diplomatic", true⟩] = false :=
  ⟨by decide,
    C10_ValidateCarPlate_unknown_type _ ⟨"diplomatic", false⟩ []
      (by decide) (by decide) (by decide),
    C10_ValidateCarPlate_unknown_type _ ⟨"diplomatic", true⟩ []
      (by decide) (by decide) (by decide)⟩

/-- C11: on the empty string each of the six validators returns false, whatever the
options, and each detailed validator returns false together with a message that is
not empty. -/
theorem C11_empty_input_fails (popts : List PhoneNumberValidationOptions)
    (copts : List CarPlateValidationOptions) :
    (ValidateCIN "" = false ∧ ValidatePhoneNumber "" popts = false ∧
      ValidateTaxID "" = false ∧ ValidateRIB "" = false ∧
      ValidatePostalCode "" = false ∧ ValidateCarPlate "" copts = false) ∧
    ((ValidateCINWithDetails "").1 = false ∧ (ValidateCINWithDetails "").2 ≠ "") ∧
    ((ValidatePhoneNumberWithDetails "" popts).1 = false ∧
      (ValidatePhoneNumberWithDetails "" popts).2 ≠ "") ∧
    ((ValidateTaxIDWithDetails "").1 = false ∧ (ValidateTaxIDWithDetails "").2 ≠ "") ∧
    ((ValidateRIBWithDetails "").1 = false ∧ (ValidateRIBWithDetails "").2 ≠ "") ∧
    ((ValidatePostalCodeWithDetails "").1 = false ∧
      (ValidatePostalCodeWithDetails "").2 ≠ "") ∧
    ((ValidateCarPlateWithDetails "" copts).1 = false ∧
      (ValidateCarPlateWithDetails "" copts).2 ≠ "") := by
  have hp : ValidatePhoneNumberWithDetails "" popts =
      (false, "Phone number cannot be empty") := rfl
  have hc : ValidateCarPlateWithDetails "" copts = (false, "Car plate cannot be empty") :=
    rfl
  refine ⟨⟨rfl, rfl, rfl, rfl, rfl, rfl⟩, ⟨rfl, by decide⟩, ?_, ⟨rfl, by decide⟩,
    ⟨rfl, by decide⟩, ⟨rfl, by decide⟩, ?_⟩
  · rw [hp]
    exact ⟨rfl, by decide⟩
  · rw [hc]
    exact ⟨rfl, by decide⟩

/-- C14: `ValidateCINWithDetails s` returns the message for the empty string when `s`
is empty, the message for the length when `len(s)` (the number of bytes of `s`) is not
8, the message for the format when `s` has length 8 and is not `0` or `1` followed by
7 digits, and `(true, "")` otherwise; the cases of the test table are evaluated. -/
theorem C14_ValidateCINWithDetails_cases (s : String) :
    (ValidateCINWithDetails s =
      if s = "" then (false, "CIN cannot be empty")
      else if len s ≠ 8 then (false, "CIN must be exactly 8 digits")
      else if ¬ CinShape s then
        (false, "CIN must start with 0 or 1 and contain only digits")
      else (true, "")) ∧
    ValidateCINWithDetails "12345678" = (true, "") ∧
    ValidateCINWithDetails "" = (false, "CIN cannot be empty") ∧
    ValidateCINWithDetails "1234567" = (false, "CIN must be exactly 8 digits") ∧
    ValidateCINWithDetails "123456789" = (false, "CIN must be exactly 8 digits") ∧
    ValidateCINWithDetails "2234567a" =
      (false, "CIN must start with 0 or 1 and contain only digits") :=
  ⟨validateCINWithDetails_eq s, by decide, by decide, by decide, by decide, by decide⟩

/-- C15 as stated fails: `20+123456` passes `ValidatePhoneNumber` (its digits are
`20123456`), yet `FormatPhoneNumber` keeps the `+`, finds 9 characters and returns an
error. -/
theorem C15_counterexample :
    ¬ (ValidatePhoneNumber "20+123456" [] = true →
        ∃ d1 d2 d3 d4 d5 d6 d7 d8 : Char,
          phoneDigits "20+123456" = [d1, d2, d3, d4, d5, d6, d7, d8] ∧
          FormatPhoneNumber "20+123456" = (international d1 d2 d3 d4 d5 d6 d7 d8, none)) := by
  intro h
  obtain ⟨d1, d2, d3, d4, d5, d6, d7, d8, -, hf⟩ := h (by decide)
  have herr : (FormatPhoneNumber "20+123456").2 =
      some "phone number must be exactly 8 digits after cleaning" := by decide
  rw [hf] at herr
  exact absurd herr (by simp)

/-- C15 amended: for every `p` that passes `ValidatePhoneNumber` and holds no `+`
other than that of a leading `+216`, `FormatPhoneNumber p` succeeds and returns `+216 `
followed by `d1d2`, a space, `d3d4d5`, a space, `d6d7d8`, where `d1..d8` are the digits
left of `p` once a leading `+216` and all non-digits are removed. -/
theorem C15_FormatPhoneNumber_valid (p : String) (hv : ValidatePhoneNumber p [] = true)
    (hplus : '+' ∉ afterCountryCode p) :
    ∃ d1 d2 d3 d4 d5 d6 d7 d8 : Char,
      phoneDigits p = [d1, d2, d3, d4, d5, d6, d7, d8] ∧
      FormatPhoneNumber p = (international d1 d2 d3 d4 d5 d6 d7 d8, none) :=
  formatPhoneNumber_of_no_plus p hv hplus

/-- C15 at a concrete input: `+216 20-123-456` is formatted as `+216 20 123 456`. -/
theorem C15_witness :
    ValidatePhoneNumber "+216 20-123-456" [] = true ∧
    '+' ∉ afterCountryCode "+216 20-123-456" ∧
    FormatPhoneNumber "+216 20-123-456" = ("+216 20 123 456", none) ∧
    ∃ d1 d2 d3 d4 d5 d6 d7 d8 : Char,
      phoneDigits "+216 20-123-456" = [d1, d2, d3, d4, d5, d6, d7, d8] ∧
      FormatPhoneNumber "+216 20-123-456" = (international d1 d2 d3 d4 d5 d6 d7 d8, none) :=
  ⟨by decide, by decide, by decide,
    C15_FormatPhoneNumber_valid "+216 20-123-456" (by decide) (by decide)⟩

/-- C16: when `ValidatePhoneNumber p` is false, each of the four phone formatters
returns the empty string together with the error `invalid phone number: p`. -/
theorem C16_formatters_reject_invalid (p : String) (h : ValidatePhoneNumber p [] = false) :
    FormatPhoneNumber p = ("", some ("invalid phone number: " ++ p)) ∧
    FormatPhoneNumberNational p = ("", some ("invalid phone number: " ++ p)) ∧
    FormatPhoneNumberCompact p = ("", some ("invalid phone number: " ++ p)) ∧
    NormalizePhoneNumber p = ("", some ("invalid phone number: " ++ p)) := by
  unfold FormatPhoneNumber FormatPhoneNumberNational FormatPhoneNumberCompact
    NormalizePhoneNumber
  simp [h]

/-- C16 at the inputs of the test table: `10123456`, the empty string and `2012345`
are invalid and every formatter returns an error with the empty string. -/
theorem C16_witness :
    (ValidatePhoneNumber "10123456" [] = false ∧
      (FormatPhoneNumber "10123456").1 = "" ∧ (FormatPhoneNumber "10123456").2 ≠ none ∧
      (NormalizePhoneNumber "10123456").1 = "" ∧
      (NormalizePhoneNumber "10123456").2 ≠ none) ∧
    (FormatPhoneNumber "" = ("", some "invalid phone number: ") ∧
      FormatPhoneNumberNational "" = ("", some "invalid phone number: ") ∧
      FormatPhoneNumberCompact "" = ("", some "invalid phone number: ") ∧
      NormalizePhoneNumber "" = ("", some "invalid phone number: ")) ∧
    (FormatPhoneNumber "2012345" = ("", some "invalid phone number: 2012345") ∧
      FormatPhoneNumberNational "2012345" = ("", some "invalid phone number: 2012345") ∧
      FormatPhoneNumberCompact "2012345" = ("", some "invalid phone number: 2012345") ∧
      NormalizePhoneNumber "2012345" = ("", some "invalid phone number: 2012345")) := by
  have h1 := C16_formatters_reject_invalid "10123456" (by decide)
  refine ⟨⟨by decide, ?_, ?_, ?_, ?_⟩,
    C16_formatters_reject_invalid "" (by decide),
    C16_formatters_reject_invalid "2012345" (by decide)⟩
  · rw [h1.1]
  · rw [h1.1]
    simp
  · rw [h1.2.2.2]
  · rw [h1.2.2.2]
    simp

/-- C17: for a string `d` of 8 ASCII digits that starts with 2, 4, 5 or 9,
`FormatPhoneNumber d` and `FormatPhoneNumber ("+216" ++ d)` both succeed with `+216 `,
`d[0:2]`, a space, `d[2:5]`, a space, `d[5:8]`, and `NormalizePhoneNumber` applied to
that string succeeds and returns `d`. -/
theorem C17_format_then_normalize (d : String) (hl : d.length = 8)
    (hd : AllDigits d.data) (hs : StartsWithCarrierDigit d.data) :
    ∃ d1 d2 d3 d4 d5 d6 d7 d8 : Char,
      d.data = [d1, d2, d3, d4, d5, d6, d7, d8] ∧
      FormatPhoneNumber d = (international d1 d2 d3 d4 d5 d6 d7 d8, none) ∧
      FormatPhoneNumber ("+216" ++ d) = (international d1 d2 d3 d4 d5 d6 d7 d8, none) ∧
      NormalizePhoneNumber (international d1 d2 d3 d4 d5 d6 d7 d8) = (d, none) := by
  obtain ⟨d1, d2, d3, d4, d5, d6, d7, d8, hdata⟩ := eight_digits d.data hl
  have hd' := hd
  rw [hdata] at hd' hs
  have h1 : isDigit d1 = true := hd' d1 (by simp)
  have h2 : isDigit d2 = true := hd' d2 (by simp)
  have h3 : isDigit d3 = true := hd' d3 (by simp)
  have h4 : isDigit d4 = true := hd' d4 (by simp)
  have h5 : isDigit d5 = true := hd' d5 (by simp)
  have h6 : isDigit d6 = true := hd' d6 (by simp)
  have h7 : isDigit d7 = true := hd' d7 (by simp)
  have h8 : isDigit d8 = true := hd' d8 (by simp)
  have hfilter : d.data.filter isDigit = [d1, d2, d3, d4, d5, d6, d7, d8] := by
    rw [hdata]
    simp [List.filter, h1, h2, h3, h4, h5, h6, h7, h8]
  have hnoplus : '+' ∉ d.data := fun hm => not_plus_of_isDigit '+' (hd '+' hm) rfl
  have hdeq : d = String.mk [d1, d2, d3, d4, d5, d6, d7, d8] := by
    rw [String.ext_iff]
    exact hdata
  -- the bare number
  have hbare := phone_of_rest d d.data d1 d2 d3 d4 d5 d6 d7 d8
    (afterCountryCode_of_digit_head d (by
      intro c hc
      exact hd c (List.mem_of_mem_head? hc)))
    hfilter hnoplus hs
  -- the number with its country code
  have hcc : "+216" ++ d = String.mk ("+216".data ++ d.data) := rfl
  have hwith := phone_of_rest ("+216" ++ d) d.data d1 d2 d3 d4 d5 d6 d7 d8
    (by rw [hcc, afterCountryCode_append]) hfilter hnoplus hs
  -- the formatted number
  have hint : international d1 d2 d3 d4 d5 d6 d7 d8 =
      String.mk ("+216".data ++
        [' ', d1, d2, ' ', d3, d4, d5, ' ', d6, d7, d8]) := rfl
  have hfmt := phone_of_rest (international d1 d2 d3 d4 d5 d6 d7 d8)
    [' ', d1, d2, ' ', d3, d4, d5, ' ', d6, d7, d8] d1 d2 d3 d4 d5 d6 d7 d8
    (by rw [hint, afterCountryCode_append])
    (by
      have hsp : isDigit ' ' = false := by decide
      simp [List.filter, h1, h2, h3, h4, h5, h6, h7, h8, hsp])
    (by
      simp only [List.mem_cons, List.mem_singleton, List.not_mem_nil, or_false, not_or]
      exact ⟨by decide, (not_plus_of_isDigit d1 h1).symm, (not_plus_of_isDigit d2 h2).symm,
        by decide, (not_plus_of_isDigit d3 h3).symm, (not_plus_of_isDigit d4 h4).symm,
        (not_plus_of_isDigit d5 h5).symm, by decide, (not_plus_of_isDigit d6 h6).symm,
        (not_plus_of_isDigit d7 h7).symm, (not_plus_of_isDigit d8 h8).symm⟩)
    hs
  refine ⟨d1, d2, d3, d4, d5, d6, d7, d8, hdata, hbare.2.1, hwith.2.1, ?_⟩
  rw [hfmt.2.2, ← hdeq]

/-- C17 at the number of the test table: `20123456` and `+21620123456` are formatted
as `+216 20 123 456`, which `NormalizePhoneNumber` takes back to `20123456`. -/
theorem C17_witness :
    FormatPhoneNumber "20123456" = ("+216 20 123 456", none) ∧
    FormatPhoneNumber "+21620123456" = ("+216 20 123 456", none) ∧
    NormalizePhoneNumber "+216 20 123 456" = ("20123456", none) ∧
    ∃ d1 d2 d3 d4 d5 d6 d7 d8 : Char,
      "20123456".data = [d1, d2, d3, d4, d5, d6, d7, d8] ∧
      FormatPhoneNumber "20123456" = (international d1 d2 d3 d4 d5 d6 d7 d8, none) ∧
      FormatPhoneNumber ("+216" ++ "20123456") =
        (international d1 d2 d3 d4 d5 d6 d7 d8, none) ∧
      NormalizePhoneNumber (international d1 d2 d3 d4 d5 d6 d7 d8) = ("20123456", none) :=
  ⟨by decide, by decide, by decide,
    C17_format_then_normalize "20123456" (by decide) (by decide) (by decide)⟩

/-- C18 fails on the code: `+ 216+++12345` passes `ValidatePhoneNumber` (its digits
are `21612345`) and `NormalizePhoneNumber` succeeds on it, but the string it returns,
`+++12345`, is not made of 8 digits. -/
theorem C18_normalize_returns_non_digits :
    ValidatePhoneNumber "+ 216+++12345" [] = true ∧
    NormalizePhoneNumber "+ 216+++12345" = ("+++12345", none) ∧
    ¬ AllDigits "+++12345".data := by
  refine ⟨by decide, by decide, by decide⟩

/-- C19: in whatever order the `Carriers` map is visited, `GetCarrierInfo` returns a
result exactly when `ValidatePhoneNumber` accepts the number with the same options;
the `Prefix` of the result is the first digit of the normalised number, and its
`Carrier` is the record of Ooredoo Tunisia for 2 and 5, of Orange Tunisia for 4 and of
Tunisie Telecom for 9. -/
theorem C19_GetCarrierInfo (visited : List Carrier) (p : String)
    (options : List PhoneNumberValidationOptions)
    (hperm : visited.Perm (Carriers.map Prod.snd)) :
    (GetCarrierInfoOver visited p options).isSome = ValidatePhoneNumber p options ∧
    ∀ info, GetCarrierInfoOver visited p options = some info →
      ∃ c, (phoneDigits p).head? = some c ∧ info.Prefix = String.mk [c] ∧
        (((c = '2' ∨ c = '5') ∧ info.Carrier = ⟨"Ooredoo Tunisia", ["2", "5"]⟩) ∨
          (c = '4' ∧ info.Carrier = ⟨"Orange Tunisia", ["4"]⟩) ∨
          (c = '9' ∧ info.Carrier = ⟨"Tunisie Telecom", ["9"]⟩)) := by
  cases hv : ValidatePhoneNumber p options with
  | false =>
    rw [getCarrierInfo_of_invalid visited p options hv]
    refine ⟨rfl, ?_⟩
    intro info hinfo
    exact absurd hinfo (by simp)
  | true =>
    obtain ⟨c, carrier, hhead, hget, hcar⟩ := getCarrierInfo_of_valid visited hperm p options hv
    rw [hget]
    refine ⟨rfl, ?_⟩
    intro info hinfo
    simp only [Option.some.injEq] at hinfo
    subst hinfo
    exact ⟨c, hhead, rfl, hcar⟩

/-- C19 at concrete inputs: with the carriers visited in reverse order `40123456`
still yields Orange Tunisia, and the cases of the test table hold for the table
order. -/
theorem C19_witness :
    ((Carriers.map Prod.snd).reverse.Perm (Carriers.map Prod.snd)) ∧
    GetCarrierInfoOver (Carriers.map Prod.snd).reverse "40123456" [] =
      some ⟨⟨"Orange Tunisia", ["4"]⟩, "4"⟩ ∧
    GetCarrierInfo "20123456" [] = some ⟨⟨"Ooredoo Tunisia", ["2", "5"]⟩, "2"⟩ ∧
    GetCarrierInfo "90123456" [] = some ⟨⟨"Tunisie Telecom", ["9"]⟩, "9"⟩ ∧
    GetCarrierInfo "+21650123456" [⟨true⟩] = some ⟨⟨"Ooredoo Tunisia", ["2", "5"]⟩, "5"⟩ ∧
    GetCarrierInfo "10123456" [] = none ∧ GetCarrierInfo "" [] = none ∧
    ((GetCarrierInfoOver (Carriers.map Prod.snd).reverse "40123456" []).isSome =
        ValidatePhoneNumber "40123456" [] ∧
      ∀ info, GetCarrierInfoOver (Carriers.map Prod.snd).reverse "40123456" [] = some info →
        ∃ c, (phoneDigits "40123456").head? = some c ∧ info.Prefix = String.mk [c] ∧
          (((c = '2' ∨ c = '5') ∧ info.Carrier = ⟨"Ooredoo Tunisia", ["2", "5"]⟩) ∨
            (c = '4' ∧ info.Carrier = ⟨"Orange Tunisia", ["4"]⟩) ∨
            (c = '9' ∧ info.Carrier = ⟨"Tunisie Telecom", ["9"]⟩))) :=
  ⟨List.reverse_perm _, by decide, by decide, by decide, by decide, by decide, by decide,
    C19_GetCarrierInfo (Carriers.map Prod.snd).reverse "40123456" [] (List.reverse_perm _)⟩

/-- C20: `GetBankFromRIB r` returns a result exactly when `ValidateRIB r` is true; the
`Code` of the result is the first two characters of `r`, its `Bank` is the entry of
the `Banks` table for that code, and the `Code` of that bank is the same code.  For
`01234567890123456789` the bank is Banque Centrale de Tunisie with code `01`. -/
theorem C20_GetBankFromRIB (r : String) :
    (GetBankFromRIB r).isSome = ValidateRIB r ∧
    (∀ info, GetBankFromRIB r = some info →
      info.Code = String.mk (r.data.take 2) ∧
      BanksLookup info.Code = some info.Bank ∧ (info.Code, info.Bank) ∈ Banks ∧
      info.Bank.Code = info.Code) ∧
    GetBankFromRIB "01234567890123456789" =
      some ⟨⟨"Banque Centrale de Tunisie", "01"⟩, "01"⟩ := by
  refine ⟨?_, ?_, by decide⟩
  · rw [getBankFromRIB_eq]
    cases hv : ValidateRIB r with
    | false => simp
    | true =>
      have hl := validateRIB_lookup r hv
      simp only [if_true, Option.isSome_map']
      exact hl
  · intro info hinfo
    rw [getBankFromRIB_eq] at hinfo
    by_cases hv : ValidateRIB r = true
    · rw [if_pos hv] at hinfo
      cases hb : BanksLookup (sliceTo r 2) with
      | none =>
        rw [hb] at hinfo
        exact absurd hinfo (by simp)
      | some bank =>
        rw [hb] at hinfo
        simp only [Option.map_some', Option.some.injEq] at hinfo
        subst hinfo
        have hmem : (sliceTo r 2, bank) ∈ Banks := lookup_mem Banks _ _ hb
        exact ⟨rfl, hb, hmem, (banks_key_eq_code _ hmem).symm⟩
    · rw [if_neg hv] at hinfo
      exact absurd hinfo (by simp)

/-- C12: none of the functions that index or slice a string or a list raises.  For
every input, every options value and every order of visit of the carriers, the
transcription that keeps run-time panics apart returns a value, and that value is the
one of the total function: `normalizedNumber[0]` is read only from a non-empty string,
`rib[:2]` is taken only from a string of at least 2 bytes, and `parts[0..2]` are read
only from a list of at least 3 parts. -/
theorem C12_no_runtime_failure (s : String) (popts : List PhoneNumberValidationOptions)
    (copts : List CarPlateValidationOptions) (visited : List Carrier) :
    Checked.ValidatePhoneNumber s popts = some (ValidatePhoneNumber s popts) ∧
    Checked.ValidatePhoneNumberWithDetails s popts =
      some (ValidatePhoneNumberWithDetails s popts) ∧
    Checked.GetCarrierInfoOver visited s popts = some (GetCarrierInfoOver visited s popts) ∧
    Checked.ValidateRIB s = some (ValidateRIB s) ∧
    Checked.ValidateRIBWithDetails s = some (ValidateRIBWithDetails s) ∧
    Checked.GetBankFromRIB s = some (GetBankFromRIB s) ∧
    Checked.GetCarPlateInfo s copts = some (GetCarPlateInfo s copts) :=
  ⟨checked_validatePhoneNumber s popts, checked_validatePhoneNumberWithDetails s popts,
    checked_getCarrierInfoOver visited s popts, checked_validateRIB s,
    checked_validateRIBWithDetails s, checked_getBankFromRIB s,
    checked_getCarPlateInfo s copts⟩

/-- C13 fails on the code for the tax identifier: `ValidateTaxID` accepts
`1234567A/P/M/000`, while `ValidateTaxIDWithDetails` rejects it (and every other
input) because it asks for 15 bytes where the layout has 16.  For the five other
kinds the detailed validator returns the boolean of the plain validator, and the
message is empty exactly when that boolean is true. -/
theorem C13_details_agree_except_taxID (s : String)
    (popts : List PhoneNumberValidationOptions) (copts : List CarPlateValidationOptions) :
    (ValidateTaxID "1234567A/P/M/000" = true ∧
      ValidateTaxIDWithDetails "1234567A/P/M/000" =
        (false, "Tax ID must be exactly 15 characters long")) ∧
    (ValidateTaxIDWithDetails s).1 = false ∧
    ((ValidateCINWithDetails s).1 = ValidateCIN s ∧
      ((ValidateCINWithDetails s).2 = "" ↔ (ValidateCINWithDetails s).1 = true)) ∧
    ((ValidatePhoneNumberWithDetails s popts).1 = ValidatePhoneNumber s popts ∧
      ((ValidatePhoneNumberWithDetails s popts).2 = "" ↔
        (ValidatePhoneNumberWithDetails s popts).1 = true)) ∧
    ((ValidateRIBWithDetails s).1 = ValidateRIB s ∧
      ((ValidateRIBWithDetails s).2 = "" ↔ (ValidateRIBWithDetails s).1 = true)) ∧
    ((ValidatePostalCodeWithDetails s).1 = ValidatePostalCode s ∧
      ((ValidatePostalCodeWithDetails s).2 = "" ↔
        (ValidatePostalCodeWithDetails s).1 = true)) ∧
    ((ValidateCarPlateWithDetails s copts).1 = ValidateCarPlate s copts ∧
      ((ValidateCarPlateWithDetails s copts).2 = "" ↔
        (ValidateCarPlateWithDetails s copts).1 = true)) :=
  ⟨⟨by decide, by decide⟩, validateTaxIDWithDetails_false s, cinDetails_spec s,
    phoneDetails_spec s popts, ribDetails_spec s, postalDetails_spec s,
    plateDetails_spec s copts⟩

/-- C21: in whatever order the `Governorates` map is visited,
`GetGovernorateFromPostalCode c` returns a record exactly when an entry of the table
has the postal code `c`; the record is an entry of the table with that postal code,
it is the one found in the order of the table, and every other input gives the
`nil` result.  For `1000` the record is Tunis, region North. -/
theorem C21_GetGovernorateFromPostalCode (visited : List Governorate) (c : String)
    (hperm : visited.Perm (Governorates.map Prod.snd)) :
    ((GetGovernorateFromPostalCodeOver visited c).isSome = true ↔
      ∃ e ∈ Governorates, e.2.PostalCode = c) ∧
    (∀ g, GetGovernorateFromPostalCodeOver visited c = some g →
      g ∈ Governorates.map Prod.snd ∧ g.PostalCode = c) ∧
    GetGovernorateFromPostalCodeOver visited c = GetGovernorateFromPostalCode c ∧
    ((¬ ∃ e ∈ Governorates, e.2.PostalCode = c) →
      GetGovernorateFromPostalCodeOver visited c = none) ∧
    GetGovernorateFromPostalCode "1000" = some ⟨"Tunis", "1000", "North"⟩ ∧
    GetGovernorateFromPostalCode "9999" = none := by
  by_cases hex : ∃ g ∈ Governorates.map Prod.snd, g.PostalCode = c
  · obtain ⟨g, hg, rfl⟩ := hex
    have hres := getGovernorate_of_mem visited hperm g hg
    have htab := getGovernorate_of_mem (Governorates.map Prod.snd) (List.Perm.refl _) g hg
    have hentry : ∃ e ∈ Governorates, e.2.PostalCode = g.PostalCode := by
      obtain ⟨e, he, heg⟩ := List.mem_map.1 hg
      exact ⟨e, he, by rw [heg]⟩
    refine ⟨?_, ?_, ?_, ?_, by decide, by decide⟩
    · rw [hres]
      exact ⟨fun _ => hentry, fun _ => rfl⟩
    · intro g' hg'
      rw [hres] at hg'
      simp only [Option.some.injEq] at hg'
      subst hg'
      exact ⟨hg, rfl⟩
    · rw [hres]
      exact htab.symm
    · intro hno
      exact absurd hentry hno
  · have hnone : ∀ g ∈ Governorates.map Prod.snd, g.PostalCode ≠ c :=
      fun g hg hc => hex ⟨g, hg, hc⟩
    have hres := getGovernorate_of_not_mem visited hperm c hnone
    have htab := getGovernorate_of_not_mem (Governorates.map Prod.snd) (List.Perm.refl _) c
      hnone
    have hentry : ¬ ∃ e ∈ Governorates, e.2.PostalCode = c := by
      rintro ⟨e, he, hc⟩
      exact hnone e.2 (List.mem_map.2 ⟨e, he, rfl⟩) hc
    refine ⟨?_, ?_, ?_, ?_, by decide, by decide⟩
    · rw [hres]
      exact ⟨fun h => absurd h (by simp), fun h => absurd h hentry⟩
    · intro g hg
      rw [hres] at hg
      exact absurd hg (by simp)
    · rw [hres]
      exact htab.symm
    · intro _
      exact hres

/-- C21 at concrete inputs: with the table visited in reverse order, `1000` still
gives Tunis and the 4-digit code `1001`, which is not in the table, gives nothing. -/
theorem C21_witness :
    GetGovernorateFromPostalCodeOver (Governorates.map Prod.snd).reverse "1000" =
      some ⟨"Tunis", "1000", "North"⟩ ∧
    GetGovernorateFromPostalCodeOver (Governorates.map Prod.snd).reverse "1001" = none ∧
    ValidatePostalCode "1001" = true ∧
    GetGovernorateFromPostalCodeOver (Governorates.map Prod.snd).reverse "1000" =
      GetGovernorateFromPostalCode "1000" := by
  have h := C21_GetGovernorateFromPostalCode (Governorates.map Prod.snd).reverse "1000"
    (List.reverse_perm _)
  exact ⟨by decide, by decide, by decide, h.2.2.1⟩

/-- C24: the result of `IsValidTunisianData` has a value under a key exactly when the
key is one of `cin`, `phone`, `taxID`, `rib`, `postal`, `carPlate` and the input has a
value under it, and that value is the result of the matching validator with default
options.  The input with `cin` = `bad` and `phone` = `20123456` gives `cin` false and
`phone` true, and nothing else. -/
theorem C24_IsValidTunisianData (data : List (String × String)) (key : String) :
    (IsValidTunisianData data).lookup key =
      (if key = "cin" then (data.lookup "cin").map ValidateCIN
      else if key = "phone" then
        (data.lookup "phone").map (fun phone => ValidatePhoneNumber phone [])
      else if key = "taxID" then (data.lookup "taxID").map ValidateTaxID
      else if key = "rib" then (data.lookup "rib").map ValidateRIB
      else if key = "postal" then (data.lookup "postal").map ValidatePostalCode
      else if key = "carPlate" then
        (data.lookup "carPlate").map (fun plate => ValidateCarPlate plate [])
      else none) ∧
    IsValidTunisianData [("cin", "bad"), ("phone", "20123456")] =
      [("phone", true), ("cin", false)] ∧
    IsValidTunisianData [("cin", "bad"), ("unknown", "12345678"), ("phone", "20123456")] =
      [("phone", true), ("cin", false)] := by
  refine ⟨?_, by decide, by decide⟩
  unfold IsValidTunisianData
  simp only [lookup_step]
  by_cases h1 : key = "cin"
  · subst h1
    cases data.lookup "cin" <;> simp [List.lookup]
  · by_cases h2 : key = "phone"
    · subst h2
      cases data.lookup "phone" <;> cases data.lookup "cin" <;> simp [List.lookup]
    · by_cases h3 : key = "taxID"
      · subst h3
        cases data.lookup "taxID" <;> cases data.lookup "phone" <;>
          cases data.lookup "cin" <;> simp [List.lookup]
      · by_cases h4 : key = "rib"
        · subst h4
          cases data.lookup "rib" <;> cases data.lookup "taxID" <;>
            cases data.lookup "phone" <;> cases data.lookup "cin" <;> simp [List.lookup]
        · by_cases h5 : key = "postal"
          · subst h5
            cases data.lookup "postal" <;> cases data.lookup "rib" <;>
              cases data.lookup "taxID" <;> cases data.lookup "phone" <;>
              cases data.lookup "cin" <;> simp [List.lookup]
          · by_cases h6 : key = "carPlate"
            · subst h6
              cases data.lookup "carPlate" <;> cases data.lookup "postal" <;>
                cases data.lookup "rib" <;> cases data.lookup "taxID" <;>
                cases data.lookup "phone" <;> cases data.lookup "cin" <;>
                simp [List.lookup]
            · simp [h1, h2, h3, h4, h5, h6, List.lookup]

/-- C28: `FormatCurrency` returns what `FormatCurrencyCompact` returns, one space and
a suffix: the ISO code `TND` exactly when the option `Code` is set and `Symbol` is
not, the symbol in every other case (no options, no flag, `Symbol`, or both).  This
holds whatever the meaning of the operations on `float64`. -/
theorem C28_FormatCurrency_suffix (ops : Float64Ops) (amount : ops.F)
    (options : List CurrencyFormatOptions) :
    FormatCurrency ops amount options =
      FormatCurrencyCompact ops amount ++ " " ++
        currencySuffix (options.headD CurrencyFormatOptions.zero) ∧
    FormatCurrency ops amount [] =
      FormatCurrencyCompact ops amount ++ " " ++ "دينار تونسي" ∧
    FormatCurrency ops amount [⟨false, false⟩] =
      FormatCurrencyCompact ops amount ++ " " ++ "دينار تونسي" ∧
    FormatCurrency ops amount [⟨true, false⟩] =
      FormatCurrencyCompact ops amount ++ " " ++ "دينار تونسي" ∧
    FormatCurrency ops amount [⟨true, true⟩] =
      FormatCurrencyCompact ops amount ++ " " ++ "دينار تونسي" ∧
    FormatCurrency ops amount [⟨false, true⟩] =
      FormatCurrencyCompact ops amount ++ " " ++ "TND" := by
  refine ⟨?_, rfl, rfl, rfl, rfl, rfl⟩
  unfold FormatCurrency FormatCurrencyCompact
  simp only []
  generalize options.headD CurrencyFormatOptions.zero = opts
  obtain ⟨sym, code⟩ := opts
  cases sym <;> cases code <;> rfl

/-- C30: in `Banks` every key equals the `Code` of its entry and is made of 2 ASCII
digits, and no two entries share a key or a code; in `Governorates` there are 24
entries, whose postal codes are pairwise distinct and made of 4 ASCII digits. -/
theorem C30_tables_unique_codes :
    (∀ e ∈ Banks, e.1 = e.2.Code ∧ e.1.length = 2 ∧ AllDigits e.1.data) ∧
    (Banks.map (fun e => e.1)).Nodup ∧ (Banks.map (fun e => e.2.Code)).Nodup ∧
    Governorates.length = 24 ∧
    (Governorates.map (fun e => e.2.PostalCode)).Nodup ∧
    (∀ e ∈ Governorates, e.2.PostalCode.length = 4 ∧ AllDigits e.2.PostalCode.data) ∧
    (Governorates.map (fun e => e.1)).Nodup := by
  refine ⟨by decide, by decide, by decide, by decide, by decide, by decide, by decide⟩

/-- C27: for `n >= 0`, `formatWithThousandsSeparator n "."` is a first group of 1 to
3 digits followed by groups of exactly 3 digits, each with a `.` in front; the groups
put together, which is also what is left when the separators are deleted, are the
decimal digits of `n`; and when `n` has at most 3 digits the result is these digits
without any separator. -/
theorem C27_formatWithThousandsSeparator (n : Nat) :
    (∃ (g0 : List Char) (gs : List (List Char)),
      (formatWithThousandsSeparator (n : Int) ".").data =
        g0 ++ gs.flatMap (fun g => '.' :: g) ∧
      g0 ++ gs.flatMap id = (Nat.repr n).data ∧ 1 ≤ g0.length ∧ g0.length ≤ 3 ∧
      (∀ g ∈ gs, g.length = 3)) ∧
    AllDigits (Nat.repr n).data ∧
    (formatWithThousandsSeparator (n : Int) ".").data.filter (fun c => c != '.') =
      (Nat.repr n).data ∧
    ((Nat.repr n).length ≤ 3 → formatWithThousandsSeparator (n : Int) "." = Nat.repr n) ∧
    formatWithThousandsSeparator 0 "." = "0" ∧
    formatWithThousandsSeparator 999 "." = "999" ∧
    formatWithThousandsSeparator 1000 "." = "1.000" ∧
    formatWithThousandsSeparator 12345 "." = "12.345" ∧
    formatWithThousandsSeparator 1234567 "." = "1.234.567" := by
  obtain ⟨g0, gs, hout, hcat, h1, h2, hthree, hshort⟩ := formatWithThousandsSeparator_shape n
  have hd := repr_allDigits n
  have hg0 : ∀ c ∈ g0, c ≠ '.' := by
    intro c hc
    exact not_dot_of_isDigit c (hd c (by rw [← hcat]; simp [hc]))
  have hgs : ∀ g ∈ gs, ∀ c ∈ g, c ≠ '.' := by
    intro g hg c hc
    refine not_dot_of_isDigit c (hd c ?_)
    rw [← hcat, List.mem_append, List.mem_flatMap]
    exact Or.inr ⟨g, hg, hc⟩
  refine ⟨⟨g0, gs, hout, hcat, h1, h2, hthree⟩, hd, ?_, ?_, by decide, by decide,
    by decide, by decide, by decide⟩
  · rw [hout, filter_groups g0 gs hg0 hgs, hcat]
  · intro hle
    have hnil := hshort hle
    subst hnil
    rw [String.ext_iff, hout, ← hcat]
    rfl

/-- C29: for an hour `h` below 24 and a minute `m` below 60, `FormatTime12Hour`
renders the hour of the 12-hour clock (12 for 0 and 12, `h` for 1 to 11, `h - 12` for
13 to 23, so always from 1 to 12), a colon, the minute on two digits, a space and the
marker, which is the morning marker exactly when `h < 12`. -/
theorem C29_FormatTime12Hour (h m : Nat) (hh : h < 24) (hm : m < 60) :
    FormatTime12Hour h m =
      Nat.repr (displayHour12 h) ++ ":" ++ twoDigits m ++ " " ++ periodMarker h ∧
    1 ≤ displayHour12 h ∧ displayHour12 h ≤ 12 ∧
    (periodMarker h = "صباحاً" ↔ h < 12) ∧ (periodMarker h = "مساءً" ↔ 12 ≤ h) := by
  refine ⟨?_, ?_, ?_, ?_, ?_⟩
  · rw [formatTime12Hour_eq, sprintf02d_eq m hm]
  · unfold displayHour12
    split_ifs <;> omega
  · unfold displayHour12
    split_ifs <;> omega
  · unfold periodMarker
    by_cases h12 : h < 12
    · rw [if_pos h12]
      exact ⟨fun _ => h12, fun _ => rfl⟩
    · rw [if_neg h12]
      exact ⟨fun e => absurd e (by decide), fun e => absurd e h12⟩
  · unfold periodMarker
    by_cases h12 : h < 12
    · rw [if_pos h12]
      exact ⟨fun e => absurd e (by decide), fun e => absurd e (by omega)⟩
    · rw [if_neg h12]
      exact ⟨fun _ => by omega, fun _ => rfl⟩

/-- C29 at concrete times: midnight, a morning hour, noon and an afternoon hour. -/
theorem C29_witness :
    FormatTime12Hour 0 5 = "12:05 صباحاً" ∧ FormatTime12Hour 10 30 = "10:30 صباحاً" ∧
    FormatTime12Hour 12 0 = "12:00 مساءً" ∧ FormatTime12Hour 14 30 = "2:30 مساءً" ∧
    FormatTime12Hour 23 59 = "11:59 مساءً" ∧
    (FormatTime12Hour 14 30 =
        Nat.repr (displayHour12 14) ++ ":" ++ twoDigits 30 ++ " " ++ periodMarker 14 ∧
      1 ≤ displayHour12 14 ∧ displayHour12 14 ≤ 12 ∧
      (periodMarker 14 = "صباحاً" ↔ 14 < 12) ∧ (periodMarker 14 = "مساءً" ↔ 12 ≤ 14)) :=
  ⟨by decide, by decide, by decide, by decide, by decide,
    C29_FormatTime12Hour 14 30 (by decide) (by decide)⟩

/-- C22 fails on the code: the plate `123`, `tounes`, `4567` written without spaces
passes `ValidateCarPlate`, and so does the special plate `RS123`, `tounes` with the type
`special`, but `GetCarPlateInfo` returns `nil` for both, because it splits the
normalised plate at white space and finds fewer than 3 parts.  What the code does: a
record is returned exactly when the plate validates and its normalised form has one
space in each of its two gaps; in particular every plate that does not validate gives
`nil`. -/
theorem C22_GetCarPlateInfo_nil_for_valid_plate (p : String)
    (options : List CarPlateValidationOptions) :
    (ValidateCarPlate ("123" ++ tounes ++ "4567") [] = true ∧
      GetCarPlateInfo ("123" ++ tounes ++ "4567") [] = none) ∧
    (ValidateCarPlate ("RS123" ++ tounes) [⟨"special", false⟩] = true ∧
      GetCarPlateInfo ("RS123" ++ tounes) [⟨"special", false⟩] = none) ∧
    ((GetCarPlateInfo p options).isSome = true ↔
      ValidateCarPlate p options = true ∧
        (StandardPlateShape OneSpace
            (normalizePlate p (options.headD CarPlateValidationOptions.zero)).data ∨
          SpecialPlateShape OneSpace
            (normalizePlate p (options.headD CarPlateValidationOptions.zero)).data)) ∧
    ((GetCarPlateInfo p options = none ∧ ValidateCarPlate p options = true) ∨
      (GetCarPlateInfo p options).isSome = ValidateCarPlate p options) :=
  ⟨⟨by decide, by decide⟩, ⟨by decide, by decide⟩, getCarPlateInfo_isSome_iff p options, by
    cases hv : ValidateCarPlate p options with
    | false =>
      right
      rw [getCarPlateInfo_of_invalid p options hv]
      rfl
    | true =>
      cases hres : GetCarPlateInfo p options with
      | none => exact Or.inl ⟨rfl, rfl⟩
      | some info => exact Or.inr rfl⟩

/-- C23: whenever `GetCarPlateInfo` returns a record, the type requested in the
options is `special` and the record is that of a special plate (type `special`,
prefix `RS`, a space and the plate's 3 digits, region `tounes`, empty suffix), or the
type requested is `standard` or empty and the record is that of a standard plate
(type `standard`, prefix the plate's 3 digits, region `tounes`, suffix the plate's 4
digits). -/
theorem C23_GetCarPlateInfo_record (p : String) (options : List CarPlateValidationOptions)
    (info : CarPlateInfo) (h : GetCarPlateInfo p options = some info) :
    ((options.headD CarPlateValidationOptions.zero).Typ = "special" ∧
      info.Typ = "special" ∧ info.Components.Region = tounes ∧
      info.Components.Suffix = "" ∧
      SpecialRecord p (options.headD CarPlateValidationOptions.zero) info) ∨
    (((options.headD CarPlateValidationOptions.zero).Typ = "standard" ∨
        (options.headD CarPlateValidationOptions.zero).Typ = "") ∧
      info.Typ = "standard" ∧ info.Components.Region = tounes ∧
      StandardRecord p (options.headD CarPlateValidationOptions.zero) info) := by
  have hv : ValidateCarPlate p options = true := by
    cases hv : ValidateCarPlate p options with
    | false =>
      rw [getCarPlateInfo_of_invalid p options hv] at h
      exact absurd h (by simp)
    | true => rfl
  rcases getCarPlateInfo_of_valid p options hv with
    ⟨ht, g1, d3, g2, hN, -, hl, hd, -, hres⟩ |
    ⟨ht, d3, g1, g2, d4, hN, hl, hd, -, -, hl', hd', hres⟩
  · left
    by_cases hg : g1 = [' '] ∧ g2 = [' ']
    · rw [hres, if_pos hg, Option.some.injEq] at h
      obtain ⟨rfl, rfl⟩ := hg
      subst h
      refine ⟨ht, rfl, rfl, rfl, d3, hl, hd, hN, ?_, rfl⟩
      refine normalizePlate_block p (options.headD CarPlateValidationOptions.zero) d3
          (allDigits_not_reSpace d3 hd) ?_
      exact ⟨"RS ".data, ' ' :: tounes.data, by rw [hN]; rfl⟩
    · rw [hres, if_neg hg] at h
      exact absurd h (by simp)
  · right
    by_cases hg : g1 = [' '] ∧ g2 = [' ']
    · rw [hres, if_pos hg, Option.some.injEq] at h
      obtain ⟨rfl, rfl⟩ := hg
      subst h
      refine ⟨ht, rfl, rfl, d3, d4, hl, hd, hl', hd', hN, ?_, ?_, rfl⟩
      · refine normalizePlate_block p (options.headD CarPlateValidationOptions.zero) d3
          (allDigits_not_reSpace d3 hd) ?_
        exact ⟨[], ' ' :: (tounes.data ++ ' ' :: d4), by rw [hN]; rfl⟩
      · refine normalizePlate_block p (options.headD CarPlateValidationOptions.zero) d4
          (allDigits_not_reSpace d4 hd') ?_
        exact ⟨d3 ++ ' ' :: (tounes.data ++ [' ']), [], by rw [hN]; simp⟩
    · rw [hres, if_neg hg] at h
      exact absurd h (by simp)

/-- C23 at concrete inputs: a standard plate with wide gaps and default options, and a
special plate with the type `special`. -/
theorem C23_witness :
    GetCarPlateInfo ("123  " ++ tounes ++ " 4567") [] =
      some ⟨"standard", ⟨"123", tounes, "4567"⟩⟩ ∧
    StandardRecord ("123  " ++ tounes ++ " 4567") CarPlateValidationOptions.zero
      ⟨"standard", ⟨"123", tounes, "4567"⟩⟩ ∧
    GetCarPlateInfo ("RS 123 " ++ tounes) [⟨"special", false⟩] =
      some ⟨"special", ⟨"RS 123", tounes, ""⟩⟩ ∧
    SpecialRecord ("RS 123 " ++ tounes) ⟨"special", false⟩
      ⟨"special", ⟨"RS 123", tounes, ""⟩⟩ :=
  ⟨by decide,
    ((C23_GetCarPlateInfo_record ("123  " ++ tounes ++ " 4567") []
      ⟨"standard", ⟨"123", tounes, "4567"⟩⟩ (by decide)).resolve_left
        (fun hc => absurd hc.1 (by decide))).2.2.2,
    by decide,
    ((C23_GetCarPlateInfo_record ("RS 123 " ++ tounes) [⟨"special", false⟩]
      ⟨"special", ⟨"RS 123", tounes, ""⟩⟩ (by decide)).resolve_right
        (fun hc => absurd hc.1 (by decide))).2.2.2.2⟩

/-- C34: for a non-empty input and options without `Strict`, with `n` the digits left
of the input once a leading `+216` is removed and every non-digit deleted,
`ValidatePhoneNumberWithDetails` returns the message on the number of digits when `n`
has not 8 digits, the message on the format when `n` has 8 digits and starts with 0
or 1, the message on the carrier prefix when it starts with 3, 6, 7 or 8, and
success when it starts with 2, 4, 5 or 9; these four cases cover every input. -/
theorem C34_phone_messages_default (s : String)
    (options : List PhoneNumberValidationOptions) (hne : s ≠ "")
    (hns : (options.headD PhoneNumberValidationOptions.zero).Strict = false) :
    AllDigits (phoneDigits s) ∧
    ((phoneDigits s).length ≠ 8 →
      ValidatePhoneNumberWithDetails s options =
        (false, "Phone number must be exactly 8 digits")) ∧
    ((phoneDigits s).length = 8 → StartsWithOneOf ['0', '1'] (phoneDigits s) →
      ValidatePhoneNumberWithDetails s options =
        (false, "Phone number must start with 2-9 and contain only digits")) ∧
    ((phoneDigits s).length = 8 → StartsWithOneOf ['3', '6', '7', '8'] (phoneDigits s) →
      ValidatePhoneNumberWithDetails s options =
        (false, "Phone number prefix is not valid for Tunisian carriers")) ∧
    ((phoneDigits s).length = 8 → StartsWithOneOf ['2', '4', '5', '9'] (phoneDigits s) →
      ValidatePhoneNumberWithDetails s options = (true, "")) ∧
    ((phoneDigits s).length = 8 →
      StartsWithOneOf ['0', '1', '2', '3', '4', '5', '6', '7', '8', '9'] (phoneDigits s)) := by
  have heq := phoneDetails_nonstrict s options hne hns
  have hd := phoneDigits_allDigits s
  refine ⟨hd, ?_, ?_, ?_, ?_, ?_⟩
  · intro hl
    rw [heq, if_pos hl]
  · intro hl h01
    rw [heq, if_neg (not_not.2 hl), if_pos h01]
  · rintro hl ⟨c, hc, hhead⟩
    have h01 : ¬ StartsWithOneOf ['0', '1'] (phoneDigits s) := by
      rintro ⟨x, hx, hx'⟩
      rw [hhead, Option.some.injEq] at hx'
      subst hx'
      revert hx
      simp only [List.mem_cons, List.mem_singleton, List.not_mem_nil, or_false] at hc ⊢
      rcases hc with rfl | rfl | rfl | rfl <;> decide
    have hcar : ¬ StartsWithCarrierDigit (phoneDigits s) := by
      unfold StartsWithCarrierDigit
      rw [hhead]
      simp only [Option.some.injEq]
      simp only [List.mem_cons, List.mem_singleton, List.not_mem_nil, or_false] at hc
      rcases hc with rfl | rfl | rfl | rfl <;> decide
    rw [heq, if_neg (not_not.2 hl), if_neg h01, if_neg hcar]
  · rintro hl ⟨c, hc, hhead⟩
    have h01 : ¬ StartsWithOneOf ['0', '1'] (phoneDigits s) := by
      rintro ⟨x, hx, hx'⟩
      rw [hhead, Option.some.injEq] at hx'
      subst hx'
      revert hx
      simp only [List.mem_cons, List.mem_singleton, List.not_mem_nil, or_false] at hc ⊢
      rcases hc with rfl | rfl | rfl | rfl <;> decide
    have hcar : StartsWithCarrierDigit (phoneDigits s) := by
      unfold StartsWithCarrierDigit
      rw [hhead]
      simp only [Option.some.injEq]
      simpa only [List.mem_cons, List.mem_singleton, List.not_mem_nil, or_false] using hc
    rw [heq, if_neg (not_not.2 hl), if_neg h01, if_pos hcar]
  · intro hl
    cases hdat : phoneDigits s with
    | nil => rw [hdat] at hl; simp at hl
    | cons c t =>
      have hc : isDigit c = true := hd c (by rw [hdat]; simp)
      simp only [isDigit, Bool.and_eq_true, decide_eq_true_eq] at hc
      refine ⟨c, ?_, rfl⟩
      have hval : c = Char.ofNat c.toNat := by simp
      have hcases : c.toNat = 48 ∨ c.toNat = 49 ∨ c.toNat = 50 ∨ c.toNat = 51 ∨
          c.toNat = 52 ∨ c.toNat = 53 ∨ c.toNat = 54 ∨ c.toNat = 55 ∨ c.toNat = 56 ∨
          c.toNat = 57 := by omega
      rw [hval]
      rcases hcases with h | h | h | h | h | h | h | h | h | h <;> rw [h] <;> decide

/-- C34 at concrete inputs: one input for each of the four cases, all in the default
mode. -/
theorem C34_witness :
    ValidatePhoneNumberWithDetails "+216 20 123" [] =
      (false, "Phone number must be exactly 8 digits") ∧
    ValidatePhoneNumberWithDetails "+216 10-123-456" [] =
      (false, "Phone number must start with 2-9 and contain only digits") ∧
    ValidatePhoneNumberWithDetails "(30) 123 456" [⟨false⟩] =
      (false, "Phone number prefix is not valid for Tunisian carriers") ∧
    ValidatePhoneNumberWithDetails "+216 20 123 456" [] = (true, "") :=
  ⟨(C34_phone_messages_default "+216 20 123" [] (by decide) rfl).2.1 (by decide),
    (C34_phone_messages_default "+216 10-123-456" [] (by decide) rfl).2.2.1 (by decide)
      (by decide),
    (C34_phone_messages_default "(30) 123 456" [⟨false⟩] (by decide) rfl).2.2.2.1
      (by decide) (by decide),
    (C34_phone_messages_default "+216 20 123 456" [] (by decide) rfl).2.2.2.2.1
      (by decide) (by decide)⟩

/-- C36: a number that validates in strict mode validates with the default options,
and `GetCarrierInfo` returns for it the same record (carrier and prefix) in both
modes, in whatever order the `Carriers` map is visited in each call.  The converse
fails: `20 123 456` validates by default and not in strict mode. -/
theorem C36_strict_implies_default (visited visited' : List Carrier) (s : String)
    (hperm : visited.Perm (Carriers.map Prod.snd))
    (hperm' : visited'.Perm (Carriers.map Prod.snd))
    (h : ValidatePhoneNumber s [⟨true⟩] = true) :
    ValidatePhoneNumber s [] = true ∧
    (GetCarrierInfoOver visited s [⟨true⟩]).isSome = true ∧
    GetCarrierInfoOver visited s [⟨true⟩] = GetCarrierInfoOver visited' s [] ∧
    GetCarrierInfo s [⟨true⟩] = GetCarrierInfo s [] ∧
    (ValidatePhoneNumber "20 123 456" [] = true ∧
      ValidatePhoneNumber "20 123 456" [⟨true⟩] = false) := by
  have hdef := default_of_strict s h
  refine ⟨hdef, ?_, getCarrierInfo_order visited visited' hperm hperm' s _ _ h hdef,
    getCarrierInfo_order _ _ (List.Perm.refl _) (List.Perm.refl _) s _ _ h hdef,
    by decide, by decide⟩
  obtain ⟨c, carrier, -, hres, -⟩ := getCarrierInfo_of_valid visited hperm s _ h
  rw [hres]
  rfl

/-- C36 at a concrete input: the international form of a number of Ooredoo, with the
carriers visited in two different orders. -/
theorem C36_witness :
    ValidatePhoneNumber "+21620123456" [⟨true⟩] = true ∧
    ValidatePhoneNumber "+21620123456" [] = true ∧
    GetCarrierInfoOver (Carriers.map Prod.snd).reverse "+21620123456" [⟨true⟩] =
      GetCarrierInfoOver (Carriers.map Prod.snd) "+21620123456" [] ∧
    GetCarrierInfo "+21620123456" [] = some ⟨⟨"Ooredoo Tunisia", ["2", "5"]⟩, "2"⟩ := by
  have h := C36_strict_implies_default (Carriers.map Prod.snd).reverse
    (Carriers.map Prod.snd) "+21620123456" (List.reverse_perm _) (List.Perm.refl _)
    (by decide)
  exact ⟨by decide, h.1, h.2.2.1, by decide⟩

/-- C38: with the option `Strict`, `ValidatePhoneNumberWithDetails` reports the empty
input, then the input that does not match the strict pattern, then the prefix that
is not one of 2, 4, 5, 9, and succeeds otherwise; an input that matches the strict
pattern is, once a leading `+216` is removed, a digit from 2 to 9 followed by 7
digits, so the messages on the number of digits and on the format are never
returned. -/
theorem C38_phone_messages_strict (s : String)
    (options : List PhoneNumberValidationOptions)
    (hs : (options.headD PhoneNumberValidationOptions.zero).Strict = true) :
    (ValidatePhoneNumberWithDetails s options =
      if s = "" then (false, "Phone number cannot be empty")
      else if ¬ strictPhoneRegex.MatchString s = true then
        (false, "Phone number format is invalid in strict mode")
      else if StartsWithCarrierDigit (afterCountryCode s) then (true, "")
      else (false, "Phone number prefix is not valid for Tunisian carriers")) ∧
    (strictPhoneRegex.MatchString s = true →
      ∃ c t, afterCountryCode s = c :: t ∧ isTwoNine c = true ∧ t.length = 7 ∧
        AllDigits t) ∧
    (ValidatePhoneNumberWithDetails s options).2 ≠
      "Phone number must be exactly 8 digits" ∧
    (ValidatePhoneNumberWithDetails s options).2 ≠
      "Phone number must start with 2-9 and contain only digits" := by
  have heq := phoneDetails_strict s options hs
  refine ⟨heq, ?_, ?_, ?_⟩
  · intro hm
    have hp := strict_normalized s hm
    rw [← trimPrefix_data]
    exact (phoneRegex_iff _).1 hp
  · rw [heq]
    split_ifs <;> decide
  · rw [heq]
    split_ifs <;> decide

/-- C38 at concrete inputs in strict mode: a number that passes, an input with
spaces, a prefix that no carrier has, a number that is too short. -/
theorem C38_witness :
    ValidatePhoneNumberWithDetails "+21620123456" [⟨true⟩] = (true, "") ∧
    ValidatePhoneNumberWithDetails "20 123 456" [⟨true⟩] =
      (false, "Phone number format is invalid in strict mode") ∧
    ValidatePhoneNumberWithDetails "30123456" [⟨true⟩] =
      (false, "Phone number prefix is not valid for Tunisian carriers") ∧
    ValidatePhoneNumberWithDetails "2012345" [⟨true⟩] =
      (false, "Phone number format is invalid in strict mode") ∧
    (ValidatePhoneNumberWithDetails "2012345" [⟨true⟩]).2 ≠
      "Phone number must be exactly 8 digits" :=
  ⟨by decide, by decide, by decide, by decide,
    (C38_phone_messages_strict "2012345" [⟨true⟩] rfl).2.2.1⟩

/-- C39: no prefix occurs twice in the `Carriers` table, so the prefix lists of two
entries have nothing in common, and a prefix belongs to some entry exactly when it is
in `ValidPrefixes`; hence for a number that validates, exactly one entry has the
first digit of the normalised number among its prefixes, and `GetCarrierInfo` returns
the same record in whatever order the map is visited. -/
theorem C39_carriers_partition (visited : List Carrier)
    (hperm : visited.Perm (Carriers.map Prod.snd)) :
    (Carriers.flatMap (fun e => e.2.Prefixes)).Nodup ∧
    Carriers.Pairwise (fun a b => ∀ x ∈ a.2.Prefixes, x ∉ b.2.Prefixes) ∧
    (∀ x, (∃ e ∈ Carriers, x ∈ e.2.Prefixes) ↔ x ∈ ValidPrefixes) ∧
    ValidPrefixes = ["2", "4", "5", "9"] ∧
    ∀ (p : String) (options : List PhoneNumberValidationOptions),
      ValidatePhoneNumber p options = true →
        (∃ c, (phoneDigits p).head? = some c ∧
          (visited.filter
            (fun carrier => decide (String.mk [c] ∈ carrier.Prefixes))).length = 1) ∧
        GetCarrierInfoOver visited p options = GetCarrierInfo p options ∧
        (GetCarrierInfoOver visited p options).isSome = true := by
  refine ⟨by decide, by decide, ?_, rfl, ?_⟩
  · intro x
    constructor
    · rintro ⟨e, he, hx⟩
      simp only [Carriers, List.mem_cons, List.mem_singleton, List.not_mem_nil,
        or_false] at he
      rcases he with rfl | rfl | rfl
      · simp only [List.mem_cons, List.mem_singleton, List.not_mem_nil, or_false] at hx
        rcases hx with rfl | rfl <;> decide
      · simp only [List.mem_cons, List.mem_singleton, List.not_mem_nil, or_false] at hx
        subst hx
        decide
      · simp only [List.mem_cons, List.mem_singleton, List.not_mem_nil, or_false] at hx
        subst hx
        decide
    · intro hx
      simp only [ValidPrefixes, List.mem_cons, List.mem_singleton, List.not_mem_nil,
        or_false] at hx
      rcases hx with rfl | rfl | rfl | rfl
      · exact ⟨("OOREDOO", ⟨"Ooredoo Tunisia", ["2", "5"]⟩), by decide, by decide⟩
      · exact ⟨("ORANGE", ⟨"Orange Tunisia", ["4"]⟩), by decide, by decide⟩
      · exact ⟨("OOREDOO", ⟨"Ooredoo Tunisia", ["2", "5"]⟩), by decide, by decide⟩
      · exact ⟨("TELECOM", ⟨"Tunisie Telecom", ["9"]⟩), by decide, by decide⟩
  · intro p options hv
    obtain ⟨c, carrier, hc, hres, hcar⟩ := getCarrierInfo_of_valid visited hperm p options hv
    refine ⟨⟨c, hc, ?_⟩,
      getCarrierInfo_order visited _ hperm (List.Perm.refl _) p options options hv hv, ?_⟩
    · rw [(hperm.filter _).length_eq]
      apply carrier_count
      rcases hcar with ⟨h | h, -⟩ | ⟨h, -⟩ | ⟨h, -⟩
      · exact Or.inl h
      · exact Or.inr (Or.inr (Or.inl h))
      · exact Or.inr (Or.inl h)
      · exact Or.inr (Or.inr (Or.inr h))
    · rw [hres]
      rfl

/-- C39 at a concrete input: a number of Orange, with the carriers visited in the
reverse order of the table. -/
theorem C39_witness :
    ValidatePhoneNumber "40 123 456" [] = true ∧
    GetCarrierInfoOver (Carriers.map Prod.snd).reverse "40 123 456" [] =
      GetCarrierInfo "40 123 456" [] ∧
    GetCarrierInfo "40 123 456" [] = some ⟨⟨"Orange Tunisia", ["4"]⟩, "4"⟩ :=
  ⟨by decide,
    ((C39_carriers_partition (Carriers.map Prod.snd).reverse
      (List.reverse_perm _)).2.2.2.2 "40 123 456" [] (by decide)).2.1,
    by decide⟩

/-- C35: `ValidateRIBWithDetails` reports, in this order, the empty input, the input
whose length (the `len` of Go, a number of bytes) is not 20, the input of length 20
that has a code point other than an ASCII digit, the 20 digits whose first two are
not the code of an entry of `Banks`, and succeeds otherwise. -/
theorem C35_ValidateRIBWithDetails_cases (r : String) :
    (ValidateRIBWithDetails r =
      if r = "" then (false, "RIB cannot be empty")
      else if len r ≠ 20 then (false, "RIB must be exactly 20 digits")
      else if ¬ AllDigits r.data then (false, "RIB must contain only digits")
      else if ¬ ∃ e ∈ Banks, e.2.Code = String.mk (r.data.take 2) then
        (false, "Bank code not recognized")
      else (true, "")) ∧
    ValidateRIBWithDetails "" = (false, "RIB cannot be empty") ∧
    ValidateRIBWithDetails "0123456789" = (false, "RIB must be exactly 20 digits") ∧
    ValidateRIBWithDetails "0123456789012345678é" =
      (false, "RIB must be exactly 20 digits") ∧
    ValidateRIBWithDetails "0123456789012345678a" =
      (false, "RIB must contain only digits") ∧
    ValidateRIBWithDetails "99345678901234567890" = (false, "Bank code not recognized") ∧
    ValidateRIBWithDetails "01234567890123456789" = (true, "") :=
  ⟨ribDetails_cases r, by decide, by decide, by decide, by decide, by decide, by decide⟩

/-- C37: the four phone formatters return the same error or all succeed; when they
succeed, with `n` the result of `NormalizePhoneNumber`, which has 8 bytes, the
compact form is `+216` followed by `n`, the national form is `n[0:2]`, `n[2:5]` and
`n[5:8]` with one space between them, and the international form is `+216`, a space
and the national form. -/
theorem C37_formatters_consistent (p : String) :
    (FormatPhoneNumber p).2 = (NormalizePhoneNumber p).2 ∧
    (FormatPhoneNumberNational p).2 = (NormalizePhoneNumber p).2 ∧
    (FormatPhoneNumberCompact p).2 = (NormalizePhoneNumber p).2 ∧
    ((NormalizePhoneNumber p).2 = none →
      len (NormalizePhoneNumber p).1 = 8 ∧
      FormatPhoneNumberCompact p = ("+216" ++ (NormalizePhoneNumber p).1, none) ∧
      FormatPhoneNumberNational p =
        (slice (NormalizePhoneNumber p).1 0 2 ++ " " ++
          slice (NormalizePhoneNumber p).1 2 5 ++ " " ++
          slice (NormalizePhoneNumber p).1 5 8, none) ∧
      FormatPhoneNumber p = ("+216 " ++ (FormatPhoneNumberNational p).1, none)) ∧
    (FormatPhoneNumber "20 123 456" = ("+216 20 123 456", none) ∧
      FormatPhoneNumberNational "20 123 456" = ("20 123 456", none) ∧
      FormatPhoneNumberCompact "20 123 456" = ("+21620123456", none) ∧
      NormalizePhoneNumber "20 123 456" = ("20123456", none)) ∧
    (FormatPhoneNumber "20+123456" =
        ("", some "phone number must be exactly 8 digits after cleaning") ∧
      NormalizePhoneNumber "20+123456" =
        ("", some "phone number must be exactly 8 digits after cleaning")) := by
  refine ⟨?_, ?_, ?_, ?_, ⟨by decide, by decide, by decide, by decide⟩,
    ⟨by decide, by decide⟩⟩
  · cases hv : ValidatePhoneNumber p [] with
    | false =>
      obtain ⟨h1, -, -, h4⟩ := formatters_of_invalid p hv
      rw [h1, h4]
    | true =>
      rcases formatters_of_valid p hv with ⟨-, h1, -, -, h4⟩ | ⟨-, h1, -, -, h4⟩ <;>
        rw [h1, h4]
  · cases hv : ValidatePhoneNumber p [] with
    | false =>
      obtain ⟨-, h2, -, h4⟩ := formatters_of_invalid p hv
      rw [h2, h4]
    | true =>
      rcases formatters_of_valid p hv with ⟨-, -, h2, -, h4⟩ | ⟨-, -, h2, -, h4⟩ <;>
        rw [h2, h4]
  · cases hv : ValidatePhoneNumber p [] with
    | false =>
      obtain ⟨-, -, h3, h4⟩ := formatters_of_invalid p hv
      rw [h3, h4]
    | true =>
      rcases formatters_of_valid p hv with ⟨-, -, -, h3, h4⟩ | ⟨-, -, -, h3, h4⟩ <;>
        rw [h3, h4]
  · intro hnone
    cases hv : ValidatePhoneNumber p [] with
    | false =>
      obtain ⟨-, -, -, h4⟩ := formatters_of_invalid p hv
      rw [h4] at hnone
      exact absurd hnone (by simp)
    | true =>
      rcases formatters_of_valid p hv with ⟨-, -, -, -, h4⟩ | ⟨hl, h1, h2, h3, h4⟩
      · rw [h4] at hnone
        exact absurd hnone (by simp)
      · rw [h1, h2, h3, h4]
        dsimp only
        refine ⟨hl, rfl, ?_, ?_⟩
        · rw [slice_five_eight _ hl]
          rfl
        · rw [international_assoc]

/-- C31: `ExtractRIBComponents` returns an error exactly when `ValidateRIB` is false
(the message is that of `ValidateRIBWithDetails` after `invalid RIB: `, with the
`nil` map); otherwise it returns the map with the four entries `bankCode`,
`branchCode`, `accountNumber` and `key`, of 2, 3, 13 and 2 bytes, which put together
in that order give the input back.  None of its slices is out of range. -/
theorem C31_ExtractRIBComponents (r : String) :
    ((ExtractRIBComponents r).2 ≠ none ↔ ValidateRIB r = false) ∧
    (ValidateRIB r = false →
      ExtractRIBComponents r =
        ([], some ("invalid RIB: " ++ (ValidateRIBWithDetails r).2))) ∧
    (ValidateRIB r = true →
      ∃ bankCode branchCode accountNumber key : String,
        ExtractRIBComponents r =
          ([("key", key), ("accountNumber", accountNumber), ("branchCode", branchCode),
            ("bankCode", bankCode)], none) ∧
        (∀ k, (ExtractRIBComponents r).1.lookup k =
          if k = "bankCode" then some bankCode
          else if k = "branchCode" then some branchCode
          else if k = "accountNumber" then some accountNumber
          else if k = "key" then some key
          else none) ∧
        len bankCode = 2 ∧ len branchCode = 3 ∧ len accountNumber = 13 ∧ len key = 2 ∧
        bankCode ++ branchCode ++ accountNumber ++ key = r) ∧
    Checked.ExtractRIBComponents r = some (ExtractRIBComponents r) ∧
    ExtractRIBComponents "01234567890123456789" =
      ([("key", "89"), ("accountNumber", "5678901234567"), ("branchCode", "234"),
        ("bankCode", "01")], none) ∧
    ExtractRIBComponents "0123456789" =
      ([], some "invalid RIB: RIB must be exactly 20 digits") := by
  refine ⟨?_, extractRIBComponents_of_invalid r, ?_, checked_extractRIBComponents r,
    by decide, by decide⟩
  · cases hv : ValidateRIB r with
    | false =>
      rw [extractRIBComponents_of_invalid r hv]
      exact ⟨fun _ => rfl, fun _ => by simp⟩
    | true =>
      rw [extractRIBComponents_of_valid r hv]
      exact ⟨fun h => absurd rfl h, fun h => absurd h (by simp)⟩
  · intro hv
    obtain ⟨hl, hd, -⟩ := (validateRIB_iff r).1 hv
    have hl' : r.data.length = 20 := hl
    have hres := extractRIBComponents_of_valid r hv
    refine ⟨sliceTo r 2, slice r 2 5, slice r 5 18, sliceFrom r 18, hres, ?_, ?_, ?_, ?_,
      ?_, ?_⟩
    · intro k
      rw [hres]
      by_cases h1 : k = "bankCode"
      · subst h1
        simp [List.lookup]
      · by_cases h2 : k = "branchCode"
        · subst h2
          simp [List.lookup]
        · by_cases h3 : k = "accountNumber"
          · subst h3
            simp [List.lookup]
          · by_cases h4 : k = "key"
            · subst h4
              simp [List.lookup]
            · have e1 : (k == "bankCode") = false := by simpa using h1
              have e2 : (k == "branchCode") = false := by simpa using h2
              have e3 : (k == "accountNumber") = false := by simpa using h3
              have e4 : (k == "key") = false := by simpa using h4
              simp only [List.lookup, e1, e2, e3, e4, if_neg h1, if_neg h2, if_neg h3,
                if_neg h4]
    · unfold sliceTo
      rw [len_of_allDigits _ (allDigits_take r.data 2 hd), List.length_take, hl']
      rfl
    · unfold slice
      rw [len_of_allDigits _ (allDigits_take _ _ (allDigits_drop r.data 2 hd)),
        List.length_take, List.length_drop, hl']
      rfl
    · unfold slice
      rw [len_of_allDigits _ (allDigits_take _ _ (allDigits_drop r.data 5 hd)),
        List.length_take, List.length_drop, hl']
      rfl
    · unfold sliceFrom
      rw [len_of_allDigits _ (allDigits_drop r.data 18 hd), List.length_drop, hl']
    · rw [String.ext_iff]
      simp only [String.data_append, sliceTo, slice, sliceFrom]
      exact rib_split r.data

/-- C32: `ExtractTaxIDComponents` returns an error exactly when `ValidateTaxID` is
false; otherwise it returns the map with the entries `number` (7 digits), `type1`,
`type2`, `type3` (one letter each) and `sequence` (3 digits), and the number, the
three letters each followed by `/`, and the sequence put together give the input
back.  None of its reads is out of range. -/
theorem C32_ExtractTaxIDComponents (t : String) :
    ((ExtractTaxIDComponents t).2 ≠ none ↔ ValidateTaxID t = false) ∧
    (ValidateTaxID t = false →
      ExtractTaxIDComponents t = ([], some "invalid Tax ID format")) ∧
    (ValidateTaxID t = true →
      ∃ (number : List Char) (type1 type2 type3 : Char) (sequence : List Char),
        ExtractTaxIDComponents t =
          ([("sequence", String.mk sequence), ("type3", String.mk [type3]),
            ("type2", String.mk [type2]), ("type1", String.mk [type1]),
            ("number", String.mk number)], none) ∧
        number.length = 7 ∧ AllDigits number ∧
        isUpper type1 = true ∧ isUpper type2 = true ∧ isUpper type3 = true ∧
        sequence.length = 3 ∧ AllDigits sequence ∧
        String.mk number ++ String.mk [type1] ++ "/" ++ String.mk [type2] ++ "/" ++
          String.mk [type3] ++ "/" ++ String.mk sequence = t) ∧
    Checked.ExtractTaxIDComponents t = some (ExtractTaxIDComponents t) ∧
    ExtractTaxIDComponents "1234567A/P/M/000" =
      ([("sequence", "000"), ("type3", "M"), ("type2", "P"), ("type1", "A"),
        ("number", "1234567")], none) ∧
    ExtractTaxIDComponents "1234567A/P/M/00" = ([], some "invalid Tax ID format") := by
  refine ⟨?_, fun hv => (extractTaxIDComponents_of_invalid t hv).1, ?_, ?_, by decide,
    by decide⟩
  · cases hv : ValidateTaxID t with
    | false =>
      rw [(extractTaxIDComponents_of_invalid t hv).1]
      exact ⟨fun _ => rfl, fun _ => by simp⟩
    | true =>
      have hshape := (validateTaxID_iff t).1 hv
      obtain ⟨num, t1, t2, t3, sq, ht, hnum, -, -, -, -, hsq, -⟩ :=
        (validateTaxID_iff t).1 hv
      rw [(extractTaxIDComponents_of_shape t num t1 t2 t3 sq ht hnum hsq hshape).1]
      exact ⟨fun h => absurd rfl h, fun h => absurd h (by simp)⟩
  · intro hv
    have hshape := (validateTaxID_iff t).1 hv
    obtain ⟨num, t1, t2, t3, sq, ht, hnum, hdn, h1, h2, h3, hsq, hds⟩ :=
      (validateTaxID_iff t).1 hv
    refine ⟨num, t1, t2, t3, sq,
      (extractTaxIDComponents_of_shape t num t1 t2 t3 sq ht hnum hsq hshape).1, hnum, hdn,
      h1, h2, h3, hsq, hds, ?_⟩
    rw [String.ext_iff]
    simp only [String.data_append]
    rw [ht]
    simp
  · cases hv : ValidateTaxID t with
    | false => exact (extractTaxIDComponents_of_invalid t hv).2
    | true =>
      have hshape := (validateTaxID_iff t).1 hv
      obtain ⟨num, t1, t2, t3, sq, ht, hnum, -, -, -, -, hsq, -⟩ :=
        (validateTaxID_iff t).1 hv
      exact (extractTaxIDComponents_of_shape t num t1 t2 t3 sq ht hnum hsq hshape).2

/-- C33: `ValidateRIBChecksum` is true exactly when `ValidateRIB` is true and the
number written by the first 18 digits, modulo 97, is the number written by the last
2 digits.  On a RIB that validates both conversions succeed (the 18-digit number is
below `2 ^ 63`), so a RIB whose last two digits are 97, 98 or 99 never passes; the
result is the same whether `int` has 32 or 64 bits, and no slice is out of range. -/
theorem C33_ValidateRIBChecksum (r : String) :
    (ValidateRIBChecksum r = true ↔
      ValidateRIB r = true ∧
        decimalValue (r.data.take 18) % 97 = decimalValue (r.data.drop 18)) ∧
    (ValidateRIB r = true →
      ParseInt (sliceTo r 18) 64 = some (decimalValue (r.data.take 18) : Int) ∧
      Atoi 64 (sliceFrom r 18) = some (decimalValue (r.data.drop 18) : Int) ∧
      decimalValue (r.data.take 18) < 2 ^ 63) ∧
    (ValidateRIBChecksum r = true → decimalValue (r.data.drop 18) < 97) ∧
    (sliceFrom r 18 = "97" ∨ sliceFrom r 18 = "98" ∨ sliceFrom r 18 = "99" →
      ValidateRIBChecksum r = false) ∧
    ValidateRIBChecksumOn 32 r = ValidateRIBChecksum r ∧
    Checked.ValidateRIBChecksumOn 64 r = some (ValidateRIBChecksum r) ∧
    (ValidateRIBChecksum "01234567890123456706" = true ∧
      ValidateRIBChecksum "01234567890123456789" = false ∧
      ValidateRIBChecksum "01234567890123456100" = true ∧
      ValidateRIBChecksum "01234567890123456197" = false ∧
      ValidateRIBChecksum "99234567890123456706" = false) := by
  have hiff : ValidateRIBChecksum r = true ↔
      ValidateRIB r = true ∧
        decimalValue (r.data.take 18) % 97 = decimalValue (r.data.drop 18) := by
    unfold ValidateRIBChecksum
    cases hv : ValidateRIB r with
    | false =>
      rw [(validateRIBChecksumOn_of_invalid 64 r hv).1]
      exact ⟨fun h => absurd h (by simp), fun h => absurd h.1 (by simp)⟩
    | true =>
      rw [(validateRIBChecksumOn_of_valid 64 (Or.inr rfl) r hv).2.2.2.2.1,
        decide_eq_true_eq]
      exact ⟨fun h => ⟨rfl, h⟩, fun h => h.2⟩
  have hlt : ValidateRIBChecksum r = true → decimalValue (r.data.drop 18) < 97 := by
    intro h
    obtain ⟨-, he⟩ := hiff.1 h
    rw [← he]
    exact Nat.mod_lt _ (by norm_num)
  refine ⟨hiff, ?_, hlt, ?_, ?_, ?_, ⟨by decide, by decide, by decide, by decide,
    by decide⟩⟩
  · intro hv
    obtain ⟨h1, h2, h3, -⟩ := validateRIBChecksumOn_of_valid 64 (Or.inr rfl) r hv
    exact ⟨h2, h1, h3⟩
  · intro hk
    cases hc : ValidateRIBChecksum r with
    | false => rfl
    | true =>
      exfalso
      have hval := hlt hc
      have hdata : r.data.drop 18 = (sliceFrom r 18).data := rfl
      rw [hdata] at hval
      rcases hk with hk | hk | hk <;> rw [hk] at hval <;> exact absurd hval (by decide)
  · unfold ValidateRIBChecksum
    cases hv : ValidateRIB r with
    | false =>
      rw [(validateRIBChecksumOn_of_invalid 32 r hv).1,
        (validateRIBChecksumOn_of_invalid 64 r hv).1]
    | true =>
      rw [(validateRIBChecksumOn_of_valid 32 (Or.inl rfl) r hv).2.2.2.2.1,
        (validateRIBChecksumOn_of_valid 64 (Or.inr rfl) r hv).2.2.2.2.1]
  · unfold ValidateRIBChecksum
    cases hv : ValidateRIB r with
    | false => exact (validateRIBChecksumOn_of_invalid 64 r hv).2
    | true => exact (validateRIBChecksumOn_of_valid 64 (Or.inr rfl) r hv).2.2.2.2.2

end Degache
